import Mathlib

/-!
MultipleInstantPipes: the grid path finder of `DLLCode/pathfinder.cpp`.

A shallow embedding of the C++ path finder and theorems about it.

Modelling conventions.

* `int` is `Int`.  Signed overflow is undefined behaviour in C++ and is outside the model:
  index arithmetic and the counters of the search are exact.  The one addition whose operands are
  both data of the caller, the `+=` of `UpdateCosts`, is reduced to the range of a 32-bit `int`
  as the compiled code does (`wrapInt`), so that a sum outside the range is visible in the model.
* `float` is `ℚ`: the arithmetic of costs and of world coordinates is exact.
* The process-wide variables `g_costGrid`, `g_countX`, `g_countY`, `g_countZ`, `g_minBounds`,
  `g_gridSize` and `g_distanceToObstacleGrid` are the fields of `Grid`; every exported function
  takes the state and returns the state it leaves behind.
* A `std::vector<int>` is a `List Int`.  Reading or writing a vector outside its size is undefined
  behaviour in C++; `readAt` returns `0` there and `writeAt` does nothing.  The functions whose
  name ends in `Checked` are the same functions with the indexing of the two fields done by
  `getAt` and `setAt`, which fail outside the size of the vector.
* `std::queue` is a list used first-in first-out.  `std::priority_queue` is library code whose
  choice among entries of equal priority is not fixed by the source: it is the parameter
  `OpenSetQueue`.
* `std::unordered_map<Vec3Int, Node*>` is a function `Vec3Int → Option Node`.  There is exactly one
  `Node` object for each key and it is never moved, so the pointer `Node::parent` is the key of the
  parent node (`none` for `nullptr`).
* The raw output pointer `Vec3* outPath` is a function `Nat → Vec3`, the memory behind the pointer.
* Loops that the source does not bound (`while (!q.empty())`, `while (!openSet.empty())`,
  `while (curr != nullptr)`) take fuel; a result `none` means the fuel ran out.
-/

namespace PathFinder

/-! ## Data model -/

/-- The struct `Vec3Int`. -/
structure Vec3Int where
  x : Int
  y : Int
  z : Int
  deriving DecidableEq, Repr

/-- The struct `Vec3`, with exact coordinates. -/
structure Vec3 where
  x : ℚ
  y : ℚ
  z : ℚ
  deriving DecidableEq, Repr

/-- The struct `Node`; `parent` holds the key of the parent node in `allNodes`. -/
structure Node where
  pos : Vec3Int
  gCost : ℚ
  fCost : ℚ
  parent : Option Vec3Int
  direction_idx : Int
  stepsSinceBend : Int
  deriving DecidableEq, Repr

/-- The global variables of the translation unit. -/
structure Grid where
  g_costGrid : List Int
  g_countX : Int
  g_countY : Int
  g_countZ : Int
  g_minBounds : Vec3
  g_gridSize : ℚ
  g_distanceToObstacleGrid : List Int

/-- The constant `MAX_DISTANCE`. -/
def MAX_DISTANCE : Int := 99999

/-- The constant `OBSTACLE_THRESHOLD`. -/
def OBSTACLE_THRESHOLD : Int := 10000

/-- The table `DIRECTIONS`. -/
def DIRECTIONS : List Vec3Int :=
  [⟨1, 0, 0⟩, ⟨-1, 0, 0⟩, ⟨0, 1, 0⟩, ⟨0, -1, 0⟩, ⟨0, 0, 1⟩, ⟨0, 0, -1⟩]

/-- The entry `DIRECTIONS[i]`. -/
def directionAt (i : Nat) : Vec3Int := DIRECTIONS.getD i ⟨0, 0, 0⟩

/-- The read `v[i]` of a vector. -/
def readAt (v : List Int) (i : Int) : Int :=
  if 0 ≤ i then v.getD i.toNat 0 else 0

/-- The write `v[i] = a` of a vector. -/
def writeAt (v : List Int) (i : Int) (a : Int) : List Int :=
  if 0 ≤ i then v.set i.toNat a else v

/-! ## Utility functions -/

/-- The function `GetIndex`. -/
def GetIndex (g : Grid) (v : Vec3Int) : Int :=
  v.x + g.g_countX * (v.y + g.g_countY * v.z)

/-- The function `IsValid`. -/
def IsValid (g : Grid) (v : Vec3Int) : Bool :=
  decide (v.x ≥ 0) && decide (v.x < g.g_countX) && decide (v.y ≥ 0) && decide (v.y < g.g_countY)
    && decide (v.z ≥ 0) && decide (v.z < g.g_countZ)

/-- The function `Heuristic`. -/
def Heuristic (a b : Vec3Int) : ℚ :=
  ((|a.x - b.x| + |a.y - b.y| + |a.z - b.z| : Int) : ℚ)

/-- The function `WorldToGrid`. -/
def WorldToGrid (g : Grid) (worldPos : Vec3) : Vec3Int :=
  { x := Int.floor ((worldPos.x - g.g_minBounds.x) / g.g_gridSize)
    y := Int.floor ((worldPos.y - g.g_minBounds.y) / g.g_gridSize)
    z := Int.floor ((worldPos.z - g.g_minBounds.z) / g.g_gridSize) }

/-- The function `GridToWorld`. -/
def GridToWorld (g : Grid) (gridPos : Vec3Int) : Vec3 :=
  { x := g.g_minBounds.x + ((gridPos.x : ℚ) + 1 / 2) * g.g_gridSize
    y := g.g_minBounds.y + ((gridPos.y : ℚ) + 1 / 2) * g.g_gridSize
    z := g.g_minBounds.z + ((gridPos.z : ℚ) + 1 / 2) * g.g_gridSize }

/-- The values `lo, lo + 1, ..., hi` of a loop `for (int x = lo; x <= hi; ++x)`. -/
def loopRange (lo hi : Int) : List Int :=
  (List.range (hi + 1 - lo).toNat).map fun (k : Nat) => lo + (k : Int)

/-- The values `0, 1, ..., n - 1` of a loop `for (int x = 0; x < n; ++x)`. -/
def countRange (n : Int) : List Int :=
  (List.range n.toNat).map fun (k : Nat) => (k : Int)

/-- The function `IsSpaceAvailable`; the three nested loops return `false` at the first
offending cell. -/
def IsSpaceAvailable (g : Grid) (pos : Vec3Int) (radius clearance : Int) : Bool :=
  let checkRadius := radius + clearance
  if checkRadius ≤ 0 then true
  else
    (loopRange (-checkRadius) checkRadius).all fun x =>
      (loopRange (-checkRadius) checkRadius).all fun y =>
        (loopRange (-checkRadius) checkRadius).all fun z =>
          if x * x + y * y + z * z > checkRadius * checkRadius then true
          else
            let checkPos : Vec3Int := ⟨pos.x + x, pos.y + y, pos.z + z⟩
            if !IsValid g checkPos || decide (readAt g.g_costGrid (GetIndex g checkPos) ≥ OBSTACLE_THRESHOLD)
            then false else true

/-! ## The distance transform -/

/-- The cells in the order of the loops `for z`, `for y`, `for x` of
`PrecomputeDistanceTransform`. -/
def scanCells (g : Grid) : List Vec3Int :=
  (countRange g.g_countZ).flatMap fun z =>
    (countRange g.g_countY).flatMap fun y =>
      (countRange g.g_countX).map fun x => (⟨x, y, z⟩ : Vec3Int)

/-- The body of the seeding loops: an obstacle cell is queued and gets distance `0`. -/
def seedStep (g : Grid) (st : List Int × List Vec3Int) (pos : Vec3Int) : List Int × List Vec3Int :=
  if readAt g.g_costGrid (GetIndex g pos) ≥ OBSTACLE_THRESHOLD then
    (writeAt st.1 (GetIndex g pos) 0, st.2 ++ [pos])
  else st

/-- The body of the loop over `DIRECTIONS` in the breadth-first propagation. -/
def bfsVisit (g : Grid) (current : Vec3Int) (currentDist : Int)
    (st : List Int × List Vec3Int) (dir : Vec3Int) : List Int × List Vec3Int :=
  let neighbor : Vec3Int := ⟨current.x + dir.x, current.y + dir.y, current.z + dir.z⟩
  if IsValid g neighbor && decide (readAt st.1 (GetIndex g neighbor) = MAX_DISTANCE) then
    (writeAt st.1 (GetIndex g neighbor) (currentDist + 1), st.2 ++ [neighbor])
  else st

/-- The loop `while (!q.empty())` of `PrecomputeDistanceTransform`. -/
def bfsLoop (g : Grid) : Nat → List Int → List Vec3Int → Option (List Int)
  | _, dist, [] => some dist
  | 0, _, _ :: _ => none
  | fuel + 1, dist, current :: q =>
    let currentDist := readAt dist (GetIndex g current)
    let st := DIRECTIONS.foldl (bfsVisit g current currentDist) (dist, q)
    bfsLoop g fuel st.1 st.2

/-- The function `PrecomputeDistanceTransform`. -/
def PrecomputeDistanceTransform (fuel : Nat) (g : Grid) : Option Grid :=
  if g.g_costGrid.isEmpty then some g
  else
    let totalSize := (g.g_countX * g.g_countY * g.g_countZ).toNat
    let seeded := (scanCells g).foldl (seedStep g) (List.replicate totalSize MAX_DISTANCE, [])
    match bfsLoop g fuel seeded.1 seeded.2 with
    | none => none
    | some dist => some { g with g_distanceToObstacleGrid := dist }

/-! ## Grid life cycle -/

/-- The function `InitializeGrid`; `initialCosts` is the memory behind the pointer. -/
def InitializeGrid (g : Grid) (initialCosts : Nat → Int) (countX countY countZ : Int)
    (minBounds : Vec3) (gridSize : ℚ) : Grid :=
  { g with
    g_countX := countX, g_countY := countY, g_countZ := countZ
    g_minBounds := minBounds, g_gridSize := gridSize
    g_costGrid := (List.range (countX * countY * countZ).toNat).map initialCosts }

/-- The value that a 32-bit `int` holds when the exact result of an addition is `x`:
two's-complement wrap-around. -/
def wrapInt (x : Int) : Int :=
  (x + 2147483648) % 4294967296 - 2147483648

/-- The body of the loop of `UpdateCosts`; the sum is stored in a 32-bit `int`. -/
def updateStep (g : Grid) (costToAdd : Int) (costs : List Int) (cell : Vec3Int) : List Int :=
  if IsValid g cell then
    writeAt costs (GetIndex g cell) (wrapInt (readAt costs (GetIndex g cell) + costToAdd))
  else costs

/-- The function `UpdateCosts`; the list holds the `count` entries of `cellsToUpdate`. -/
def UpdateCosts (g : Grid) (cellsToUpdate : List Vec3Int) (costToAdd : Int) : Grid :=
  if g.g_costGrid.isEmpty then g
  else { g with g_costGrid := cellsToUpdate.foldl (updateStep g costToAdd) g.g_costGrid }

/-- The function `ReleaseGrid`. -/
def ReleaseGrid (g : Grid) : Grid :=
  { g with g_costGrid := [] }

/-! ## The open set -/

/-- The operations of `std::priority_queue<Node, std::vector<Node>, std::greater<Node>>` on the
vector it holds: `push`, and `pop` for `top()` followed by `pop()` (`none` on an empty queue). -/
structure OpenSetQueue where
  push : List Node → Node → List Node
  pop : List Node → Option (Node × List Node)

/-- What the proofs below use of a queue: `push` adds one entry, `pop` removes one entry, and a
queue is empty exactly when it holds no entry.  Which entry `pop` removes is left open. -/
structure OpenSetQueue.IsBag (Q : OpenSetQueue) : Prop where
  push_perm : ∀ v n, (Q.push v n).Perm (n :: v)
  pop_nil : Q.pop [] = none
  pop_perm : ∀ v, v ≠ [] → ∃ top rest, Q.pop v = some (top, rest) ∧ v.Perm (top :: rest)

/-- Exchange of the entries `v[i]` and `v[j]`. -/
def swapAt (v : List Node) (i j : Nat) : List Node :=
  match v[i]?, v[j]? with
  | some a, some b => (v.set i b).set j a
  | _, _ => v

/-- The loop of `std::push_heap` under `std::greater<Node>`: the entry at `hole` moves up while
its parent has a larger `fCost`. -/
def heapUp : Nat → List Node → Nat → List Node
  | 0, v, _ => v
  | fuel + 1, v, hole =>
    if hole = 0 then v
    else
      let parent := (hole - 1) / 2
      match v[parent]?, v[hole]? with
      | some p, some value =>
        if p.fCost > value.fCost then heapUp fuel (swapAt v parent hole) parent else v
      | _, _ => v

/-- The loop of `std::pop_heap` (the library's `adjust_heap`): the hole moves from the root down
to a leaf, each time to the right child unless the right child has the larger `fCost`, or to the
only child.  It returns the vector and the final position of the hole. -/
def heapDown : Nat → List Node → Nat → List Node × Nat
  | 0, v, hole => (v, hole)
  | fuel + 1, v, hole =>
    match v[2 * hole + 1]?, v[2 * hole + 2]? with
    | some l, some r =>
      let child := if r.fCost > l.fCost then 2 * hole + 1 else 2 * hole + 2
      heapDown fuel (swapAt v hole child) child
    | some _, none => (swapAt v hole (2 * hole + 1), 2 * hole + 1)
    | _, _ => (v, hole)

/-- The member `push`: `push_back` followed by `std::push_heap`. -/
def heapPush (v : List Node) (n : Node) : List Node :=
  heapUp (v.length + 1) (v ++ [n]) v.length

/-- The members `top` and `pop`: the front entry, and `std::pop_heap` followed by `pop_back`.
The last entry takes the place of the root, sinks to a leaf and rises again. -/
def heapPop (v : List Node) : Option (Node × List Node) :=
  match v with
  | [] => none
  | top :: rest =>
    match rest.getLast? with
    | none => some (top, [])
    | some value =>
      let w := value :: rest.dropLast
      let d := heapDown w.length w 0
      some (top, heapUp w.length d.1 d.2)

/-- The binary heap of the standard library. -/
def stdHeap : OpenSetQueue :=
  { push := heapPush, pop := heapPop }

/-! ## The search -/

/-- The weights and geometric parameters of `FindPath`. -/
structure SearchParams where
  w_path : ℚ
  w_bend : ℚ
  w_energy : ℚ
  w_proximity : ℚ
  pipeRadius : Int
  clearance : Int
  minBendDistance : Int

/-- The local variables `openSet` and `allNodes` of `FindPath`. -/
structure SearchState where
  openSet : List Node
  allNodes : Vec3Int → Option Node

/-- The body of the loop `for (int i = 0; i < 6; ++i)` of `FindPath`; `curPos` is the key of
`currentNode` in `allNodes`. -/
def expandStep (Q : OpenSetQueue) (g : Grid) (P : SearchParams) (endNodePos curPos : Vec3Int)
    (st : SearchState) (i : Nat) : SearchState :=
  match st.allNodes curPos with
  | none => st
  | some currentNode =>
    let neighborPos : Vec3Int :=
      ⟨currentNode.pos.x + (directionAt i).x, currentNode.pos.y + (directionAt i).y,
        currentNode.pos.z + (directionAt i).z⟩
    if !IsValid g neighborPos then st
    else
      let targetDistance : ℚ := ((P.pipeRadius + P.clearance : Int) : ℚ)
      let moveCost := P.w_path
      let moveCost := if (directionAt i).z ≠ 0 then moveCost + P.w_energy else moveCost
      let moveCost :=
        if !IsSpaceAvailable g neighborPos P.pipeRadius P.clearance then moveCost + 10000
        else moveCost
      let bend := currentNode.parent.isSome && decide ((i : Int) ≠ currentNode.direction_idx)
      let moveCost :=
        if bend then
          if currentNode.stepsSinceBend < P.minBendDistance then moveCost + P.w_bend * 10
          else moveCost + P.w_bend
        else moveCost
      let stepsSinceBend := if bend then 1 else currentNode.stepsSinceBend + 1
      let distToObstacle := readAt g.g_distanceToObstacleGrid (GetIndex g neighborPos)
      let distanceCost := |(distToObstacle : ℚ) - targetDistance|
      let moveCost := moveCost + distanceCost * P.w_proximity
      let newGCost :=
        currentNode.gCost + moveCost + (readAt g.g_costGrid (GetIndex g neighborPos) : ℚ)
      let improves :=
        match st.allNodes neighborPos with
        | none => true
        | some old => decide (newGCost < old.gCost)
      if improves then
        let neighborNode : Node :=
          { pos := neighborPos
            gCost := newGCost
            fCost := newGCost + Heuristic neighborPos endNodePos
            parent := some curPos
            direction_idx := (i : Int)
            stepsSinceBend := stepsSinceBend }
        { openSet := Q.push st.openSet neighborNode
          allNodes := Function.update st.allNodes neighborPos (some neighborNode) }
      else st

/-- The loop `while (!openSet.empty())` of `FindPath`.  The result is `none` when the fuel runs
out, `some none` when the queue empties, and `some (some allNodes)` when the goal is popped. -/
def searchLoop (Q : OpenSetQueue) (g : Grid) (P : SearchParams) (endNodePos : Vec3Int) :
    Nat → SearchState → Option (Option (Vec3Int → Option Node))
  | 0, _ => none
  | fuel + 1, st =>
    match Q.pop st.openSet with
    | none => some none
    | some (current, rest) =>
      match st.allNodes current.pos with
      | none => searchLoop Q g P endNodePos fuel { st with openSet := rest }
      | some currentNode =>
        if currentNode.gCost < current.gCost then
          searchLoop Q g P endNodePos fuel { st with openSet := rest }
        else if current.pos = endNodePos then some (some st.allNodes)
        else
          searchLoop Q g P endNodePos fuel
            ((List.range 6).foldl (expandStep Q g P endNodePos current.pos)
              { st with openSet := rest })

/-- The loop `while (curr != nullptr)` of `FindPath`: the world positions of the nodes from
`curr` along the parent links, in the order of the `push_back` calls. -/
def walkParents (g : Grid) (allNodes : Vec3Int → Option Node) :
    Nat → Option Vec3Int → Option (List Vec3)
  | _, none => some []
  | 0, some _ => none
  | fuel + 1, some p =>
    match allNodes p with
    | none => some []
    | some curr => (walkParents g allNodes fuel curr.parent).map fun t => GridToWorld g curr.pos :: t

/-- The function `FindPath`.  It returns the state, the returned count and the memory behind
`outPath`. -/
def FindPath (Q : OpenSetQueue) (fuel : Nat) (g : Grid) (startPos endPos : Vec3)
    (outPath : Nat → Vec3) (maxPathSize : Int) (w_path w_bend w_energy w_proximity : ℚ)
    (pipeRadius clearance minBendDistance : Int) : Option (Grid × Int × (Nat → Vec3)) :=
  if g.g_costGrid.isEmpty then some (g, 0, outPath)
  else
    let P : SearchParams :=
      ⟨w_path, w_bend, w_energy, w_proximity, pipeRadius, clearance, minBendDistance⟩
    let startNodePos := WorldToGrid g startPos
    let endNodePos := WorldToGrid g endPos
    if !IsValid g startNodePos || !IsValid g endNodePos then some (g, 0, outPath)
    else
      let startNode : Node :=
        { pos := startNodePos, gCost := 0, fCost := Heuristic startNodePos endNodePos
          parent := none, direction_idx := -1, stepsSinceBend := 999 }
      let st : SearchState :=
        { openSet := Q.push [] startNode
          allNodes := Function.update (fun _ => none) startNodePos (some startNode) }
      match searchLoop Q g P endNodePos fuel st with
      | none => none
      | some none => some (g, 0, outPath)
      | some (some allNodes) =>
        match walkParents g allNodes fuel (some endNodePos) with
        | none => none
        | some pushed =>
          let path := pushed.reverse
          let pathSize := min (path.length : Int) maxPathSize
          some (g, pathSize, fun i => if (i : Int) < pathSize then path.getD i (outPath i) else outPath i)

/-! ## Checked indexing -/

/-- The checked read `v.at(i)`: `none` when the index is out of range. -/
def getAt (v : List Int) (i : Int) : Option Int :=
  if 0 ≤ i then v[i.toNat]? else none

/-- The checked write `v.at(i) = a`: `none` when the index is out of range. -/
def setAt (v : List Int) (i : Int) (a : Int) : Option (List Int) :=
  if 0 ≤ i ∧ i.toNat < v.length then some (v.set i.toNat a) else none

/-- A loop whose body may fail: the state is threaded through the items in order, and the first
failure ends the loop. -/
def foldChecked {σ α : Type} (f : σ → α → Option σ) : σ → List α → Option σ
  | s, [] => some s
  | s, a :: t =>
    match f s a with
    | none => none
    | some s1 => foldChecked f s1 t

/-- A loop that returns `false` at the first item whose test is `false`, and fails at the first
item whose test fails. -/
def allChecked {α : Type} (f : α → Option Bool) : List α → Option Bool
  | [] => some true
  | a :: t =>
    match f a with
    | none => none
    | some false => some false
    | some true => allChecked f t

/-- The function `IsSpaceAvailable` with checked indexing of the cost field; `none` means an
index out of range. -/
def IsSpaceAvailableChecked (g : Grid) (pos : Vec3Int) (radius clearance : Int) : Option Bool :=
  let checkRadius := radius + clearance
  if checkRadius ≤ 0 then some true
  else
    allChecked (fun x =>
      allChecked (fun y =>
        allChecked (fun z =>
          if x * x + y * y + z * z > checkRadius * checkRadius then some true
          else
            let checkPos : Vec3Int := ⟨pos.x + x, pos.y + y, pos.z + z⟩
            if !IsValid g checkPos then some false
            else
              match getAt g.g_costGrid (GetIndex g checkPos) with
              | none => none
              | some c => some (!decide (c ≥ OBSTACLE_THRESHOLD)))
          (loopRange (-checkRadius) checkRadius))
        (loopRange (-checkRadius) checkRadius))
      (loopRange (-checkRadius) checkRadius)

/-- The body of the loop of `UpdateCosts` with checked indexing. -/
def updateStepChecked (g : Grid) (costToAdd : Int) (costs : List Int) (cell : Vec3Int) :
    Option (List Int) :=
  if IsValid g cell then
    match getAt costs (GetIndex g cell) with
    | none => none
    | some c => setAt costs (GetIndex g cell) (wrapInt (c + costToAdd))
  else some costs

/-- The function `UpdateCosts` with checked indexing of the cost field; `none` means an index
out of range. -/
def UpdateCostsChecked (g : Grid) (cellsToUpdate : List Vec3Int) (costToAdd : Int) :
    Option Grid :=
  if g.g_costGrid.isEmpty then some g
  else
    match foldChecked (updateStepChecked g costToAdd) g.g_costGrid cellsToUpdate with
    | none => none
    | some costs => some { g with g_costGrid := costs }

/-- The body of the seeding loops with checked indexing. -/
def seedStepChecked (g : Grid) (st : List Int × List Vec3Int) (pos : Vec3Int) :
    Option (List Int × List Vec3Int) :=
  match getAt g.g_costGrid (GetIndex g pos) with
  | none => none
  | some c =>
    if c ≥ OBSTACLE_THRESHOLD then
      match setAt st.1 (GetIndex g pos) 0 with
      | none => none
      | some dist => some (dist, st.2 ++ [pos])
    else some st

/-- The body of the loop over `DIRECTIONS` in the breadth-first propagation, with checked
indexing. -/
def bfsVisitChecked (g : Grid) (current : Vec3Int) (currentDist : Int)
    (st : List Int × List Vec3Int) (dir : Vec3Int) : Option (List Int × List Vec3Int) :=
  let neighbor : Vec3Int := ⟨current.x + dir.x, current.y + dir.y, current.z + dir.z⟩
  if IsValid g neighbor then
    match getAt st.1 (GetIndex g neighbor) with
    | none => none
    | some d =>
      if d = MAX_DISTANCE then
        match setAt st.1 (GetIndex g neighbor) (currentDist + 1) with
        | none => none
        | some dist => some (dist, st.2 ++ [neighbor])
      else some st
  else some st

/-- The loop `while (!q.empty())` of `PrecomputeDistanceTransform` with checked indexing.  The
result is `none` when the fuel runs out and `some none` when an index is out of range. -/
def bfsLoopChecked (g : Grid) : Nat → List Int → List Vec3Int → Option (Option (List Int))
  | _, dist, [] => some (some dist)
  | 0, _, _ :: _ => none
  | fuel + 1, dist, current :: q =>
    match getAt dist (GetIndex g current) with
    | none => some none
    | some currentDist =>
      match foldChecked (bfsVisitChecked g current currentDist) (dist, q) DIRECTIONS with
      | none => some none
      | some st => bfsLoopChecked g fuel st.1 st.2

/-- The function `PrecomputeDistanceTransform` with checked indexing of both fields.  The
result is `none` when the fuel runs out and `some none` when an index is out of range. -/
def PrecomputeDistanceTransformChecked (fuel : Nat) (g : Grid) : Option (Option Grid) :=
  if g.g_costGrid.isEmpty then some (some g)
  else
    let totalSize := (g.g_countX * g.g_countY * g.g_countZ).toNat
    match foldChecked (seedStepChecked g) (List.replicate totalSize MAX_DISTANCE, [])
        (scanCells g) with
    | none => some none
    | some seeded =>
      match bfsLoopChecked g fuel seeded.1 seeded.2 with
      | none => none
      | some none => some none
      | some (some dist) => some (some { g with g_distanceToObstacleGrid := dist })

/-- The body of the loop `for (int i = 0; i < 6; ++i)` of `FindPath` with checked indexing of
both fields; `none` means an index out of range. -/
def expandStepChecked (Q : OpenSetQueue) (g : Grid) (P : SearchParams)
    (endNodePos curPos : Vec3Int) (st : SearchState) (i : Nat) : Option SearchState :=
  match st.allNodes curPos with
  | none => some st
  | some currentNode =>
    let neighborPos : Vec3Int :=
      ⟨currentNode.pos.x + (directionAt i).x, currentNode.pos.y + (directionAt i).y,
        currentNode.pos.z + (directionAt i).z⟩
    if !IsValid g neighborPos then some st
    else
      match IsSpaceAvailableChecked g neighborPos P.pipeRadius P.clearance,
        getAt g.g_distanceToObstacleGrid (GetIndex g neighborPos),
        getAt g.g_costGrid (GetIndex g neighborPos) with
      | some available, some distToObstacle, some cellCost =>
        let targetDistance : ℚ := ((P.pipeRadius + P.clearance : Int) : ℚ)
        let moveCost := P.w_path
        let moveCost := if (directionAt i).z ≠ 0 then moveCost + P.w_energy else moveCost
        let moveCost := if !available then moveCost + 10000 else moveCost
        let bend := currentNode.parent.isSome && decide ((i : Int) ≠ currentNode.direction_idx)
        let moveCost :=
          if bend then
            if currentNode.stepsSinceBend < P.minBendDistance then moveCost + P.w_bend * 10
            else moveCost + P.w_bend
          else moveCost
        let stepsSinceBend := if bend then 1 else currentNode.stepsSinceBend + 1
        let distanceCost := |(distToObstacle : ℚ) - targetDistance|
        let moveCost := moveCost + distanceCost * P.w_proximity
        let newGCost := currentNode.gCost + moveCost + (cellCost : ℚ)
        let improves :=
          match st.allNodes neighborPos with
          | none => true
          | some old => decide (newGCost < old.gCost)
        if improves then
          let neighborNode : Node :=
            { pos := neighborPos
              gCost := newGCost
              fCost := newGCost + Heuristic neighborPos endNodePos
              parent := some curPos
              direction_idx := (i : Int)
              stepsSinceBend := stepsSinceBend }
          some
            { openSet := Q.push st.openSet neighborNode
              allNodes := Function.update st.allNodes neighborPos (some neighborNode) }
        else some st
      | _, _, _ => none

/-- The loop `while (!openSet.empty())` of `FindPath` with checked indexing.  The result is
`none` when the fuel runs out and `some none` when an index is out of range. -/
def searchLoopChecked (Q : OpenSetQueue) (g : Grid) (P : SearchParams) (endNodePos : Vec3Int) :
    Nat → SearchState → Option (Option (Option (Vec3Int → Option Node)))
  | 0, _ => none
  | fuel + 1, st =>
    match Q.pop st.openSet with
    | none => some (some none)
    | some (current, rest) =>
      match st.allNodes current.pos with
      | none => searchLoopChecked Q g P endNodePos fuel { st with openSet := rest }
      | some currentNode =>
        if currentNode.gCost < current.gCost then
          searchLoopChecked Q g P endNodePos fuel { st with openSet := rest }
        else if current.pos = endNodePos then some (some (some st.allNodes))
        else
          match foldChecked (expandStepChecked Q g P endNodePos current.pos)
              { st with openSet := rest } (List.range 6) with
          | none => some none
          | some st1 => searchLoopChecked Q g P endNodePos fuel st1

/-- The function `FindPath` with checked indexing of both fields.  The result is `none` when
the fuel runs out and `some none` when an index is out of range. -/
def FindPathChecked (Q : OpenSetQueue) (fuel : Nat) (g : Grid) (startPos endPos : Vec3)
    (outPath : Nat → Vec3) (maxPathSize : Int) (w_path w_bend w_energy w_proximity : ℚ)
    (pipeRadius clearance minBendDistance : Int) :
    Option (Option (Grid × Int × (Nat → Vec3))) :=
  if g.g_costGrid.isEmpty then some (some (g, 0, outPath))
  else
    let P : SearchParams :=
      ⟨w_path, w_bend, w_energy, w_proximity, pipeRadius, clearance, minBendDistance⟩
    let startNodePos := WorldToGrid g startPos
    let endNodePos := WorldToGrid g endPos
    if !IsValid g startNodePos || !IsValid g endNodePos then some (some (g, 0, outPath))
    else
      let startNode : Node :=
        { pos := startNodePos, gCost := 0, fCost := Heuristic startNodePos endNodePos
          parent := none, direction_idx := -1, stepsSinceBend := 999 }
      let st : SearchState :=
        { openSet := Q.push [] startNode
          allNodes := Function.update (fun _ => none) startNodePos (some startNode) }
      match searchLoopChecked Q g P endNodePos fuel st with
      | none => none
      | some none => some none
      | some (some none) => some (some (g, 0, outPath))
      | some (some (some allNodes)) =>
        match walkParents g allNodes fuel (some endNodePos) with
        | none => none
        | some pushed =>
          let path := pushed.reverse
          let pathSize := min (path.length : Int) maxPathSize
          some (some (g, pathSize,
            fun i => if (i : Int) < pathSize then path.getD i (outPath i) else outPath i))

/-- The size invariant of the two fields: positive cell counts, and one entry for each cell in
the cost field and in the distance field. -/
def SizeInv (g : Grid) : Prop :=
  0 < g.g_countX ∧ 0 < g.g_countY ∧ 0 < g.g_countZ ∧
    (g.g_costGrid.length : Int) = g.g_countX * g.g_countY * g.g_countZ ∧
    (g.g_distanceToObstacleGrid.length : Int) = g.g_countX * g.g_countY * g.g_countZ

instance (g : Grid) : Decidable (SizeInv g) := by
  unfold SizeInv
  infer_instance

/-! ## Example grids -/

/-- A corridor of three cells along the x axis whose middle cell is impassable, with its
distance field. -/
def corridorGrid : Grid :=
  ⟨[0, 10000, 0], 3, 1, 1, ⟨0, 0, 0⟩, 1, [1, 0, 1]⟩

/-- The corridor with a second row of free cells beside it: a grid of 3 x 2 x 1 cells whose
cell (1, 0, 0) is impassable, with its distance field. -/
def detourGrid : Grid :=
  ⟨[0, 10000, 0, 0, 0, 0], 3, 2, 1, ⟨0, 0, 0⟩, 1, [1, 0, 1, 2, 1, 2]⟩

/-- A row of three free cells, with the distance field of a grid without obstacles. -/
def freeGrid : Grid :=
  ⟨[0, 0, 0], 3, 1, 1, ⟨0, 0, 0⟩, 1, [99999, 99999, 99999]⟩

/-- The node table of the search on `freeGrid` from cell (0, 0, 0) to cell (2, 0, 0) with
`w_path = -1` and the other weights 0, at the moment the goal is popped: the start node has been
given the parent (1, 0, 0), whose parent is the start node. -/
def cyclicNodes : Vec3Int → Option Node :=
  Function.update
    (Function.update
      (Function.update
        (Function.update (fun _ => none) ⟨0, 0, 0⟩ (some ⟨⟨0, 0, 0⟩, 0, 2, none, -1, 999⟩))
        ⟨1, 0, 0⟩ (some ⟨⟨1, 0, 0⟩, -1, 0, some ⟨0, 0, 0⟩, 0, 1000⟩))
      ⟨2, 0, 0⟩ (some ⟨⟨2, 0, 0⟩, -2, -2, some ⟨1, 0, 0⟩, 0, 1001⟩))
    ⟨0, 0, 0⟩ (some ⟨⟨0, 0, 0⟩, -2, 0, some ⟨1, 0, 0⟩, 1, 1⟩)

/-- A grid of one cell whose cost is the largest 32-bit `int`, with its distance field. -/
def fullCostGrid : Grid :=
  ⟨[2147483647], 1, 1, 1, ⟨0, 0, 0⟩, 1, [0]⟩

/-- An output buffer filled with a marker point. -/
def markerBuffer : Nat → Vec3 :=
  fun _ => ⟨7, 7, 7⟩

/-- The grid of 5 x 5 x 5 free cells of cost 0 and size 1, with the distance field of a grid
without obstacles. -/
def grid555 : Grid :=
  ⟨List.replicate 125 0, 5, 5, 5, ⟨0, 0, 0⟩, 1, List.replicate 125 99999⟩

/-- A grid of 3 x 3 x 1 cells with soft costs (none impassable), with the distance field of a
grid without obstacles. -/
def bendGrid : Grid :=
  ⟨[2, 0, 7, 0, 3, 20, 0, 3, 0], 3, 3, 1, ⟨0, 0, 0⟩, 1, List.replicate 9 99999⟩

/-- The node table of the search on `bendGrid` from cell (2, 2, 0) to cell (2, 0, 0) with
`w_bend = 3 / 2` and the other weights 0, at the moment the goal is popped, as the sequence of
the writes to `allNodes`. -/
def bendNodes : Vec3Int → Option Node :=
  Function.update
    (Function.update
      (Function.update
        (Function.update
          (Function.update
            (Function.update
              (Function.update
                (Function.update
                  (Function.update
                    (Function.update (fun _ => none) ⟨2, 2, 0⟩
                      (some ⟨⟨2, 2, 0⟩, 0, 2, none, -1, 999⟩))
                    ⟨1, 2, 0⟩ (some ⟨⟨1, 2, 0⟩, 3, 6, some ⟨2, 2, 0⟩, 1, 1000⟩))
                  ⟨2, 1, 0⟩ (some ⟨⟨2, 1, 0⟩, 20, 21, some ⟨2, 2, 0⟩, 3, 1000⟩))
                ⟨0, 2, 0⟩ (some ⟨⟨0, 2, 0⟩, 3, 7, some ⟨1, 2, 0⟩, 1, 1001⟩))
              ⟨1, 1, 0⟩ (some ⟨⟨1, 1, 0⟩, 15 / 2, 19 / 2, some ⟨1, 2, 0⟩, 3, 1⟩))
            ⟨0, 1, 0⟩ (some ⟨⟨0, 1, 0⟩, 9 / 2, 15 / 2, some ⟨0, 2, 0⟩, 3, 1⟩))
          ⟨0, 0, 0⟩ (some ⟨⟨0, 0, 0⟩, 13 / 2, 17 / 2, some ⟨0, 1, 0⟩, 3, 2⟩))
        ⟨1, 0, 0⟩ (some ⟨⟨1, 0, 0⟩, 8, 9, some ⟨0, 0, 0⟩, 0, 1⟩))
      ⟨2, 0, 0⟩ (some ⟨⟨2, 0, 0⟩, 15, 15, some ⟨1, 0, 0⟩, 0, 2⟩))
    ⟨1, 0, 0⟩ (some ⟨⟨1, 0, 0⟩, 15 / 2, 17 / 2, some ⟨1, 1, 0⟩, 3, 2⟩)

/-- A grid of 3 x 2 x 1 free cells whose cell (1, 0, 0) has the soft cost 5, with the distance
field of a grid without obstacles. -/
def softGrid : Grid :=
  ⟨[0, 5, 0, 0, 0, 0], 3, 2, 1, ⟨0, 0, 0⟩, 1, List.replicate 6 99999⟩

/-- The waypoints that a call of `FindPath` has written: the first `count` entries of the
output buffer. -/
def returnedPath (r : Grid × Int × (Nat → Vec3)) : List Vec3 :=
  (List.range r.2.1.toNat).map r.2.2

/-- The number of direction changes of a path: the number of waypoints at which the step to the
next waypoint differs from the step from the previous one. -/
def directionChanges : List Vec3 → Nat
  | a :: b :: c :: t =>
    (if (b.x - a.x, b.y - a.y, b.z - a.z) ≠ (c.x - b.x, c.y - b.y, c.z - b.z) then 1 else 0) +
      directionChanges (b :: c :: t)
  | _ => 0

/-- The multiple of `w_bend` that `FindPath` adds to the cost of the move in direction `i` from
the node `cn`. -/
def bendCharge (minBendDistance : Int) (cn : Node) (i : Nat) : ℚ :=
  if cn.parent.isSome && decide ((i : Int) ≠ cn.direction_idx) then
    if cn.stepsSinceBend < minBendDistance then 10 else 1
  else 0

/-! ## Specification predicates -/

/-- Every cell of the closed ball of radius `R` around `pos` is inside the grid and below the
obstacle threshold (the wording of the feasibility check in the specification). -/
def SphereFree (g : Grid) (pos : Vec3Int) (R : Int) : Prop :=
  ∀ dx dy dz : Int, dx * dx + dy * dy + dz * dz ≤ R * R →
    IsValid g ⟨pos.x + dx, pos.y + dy, pos.z + dz⟩ = true ∧
      readAt g.g_costGrid (GetIndex g ⟨pos.x + dx, pos.y + dy, pos.z + dz⟩) < OBSTACLE_THRESHOLD

/-- The scenario of a blocked corridor: the cell `o` lies strictly between `s` and `e` on a
common axis-aligned line, and the grid is at least 2 cells wide in a direction perpendicular to
that line. -/
def BlockedCorridor (g : Grid) (s e o : Vec3Int) : Prop :=
  (s.y = o.y ∧ o.y = e.y ∧ s.z = o.z ∧ o.z = e.z ∧
      ((s.x < o.x ∧ o.x < e.x) ∨ (e.x < o.x ∧ o.x < s.x)) ∧
      (2 ≤ g.g_countY ∨ 2 ≤ g.g_countZ)) ∨
  (s.x = o.x ∧ o.x = e.x ∧ s.z = o.z ∧ o.z = e.z ∧
      ((s.y < o.y ∧ o.y < e.y) ∨ (e.y < o.y ∧ o.y < s.y)) ∧
      (2 ≤ g.g_countX ∨ 2 ≤ g.g_countZ)) ∨
  (s.x = o.x ∧ o.x = e.x ∧ s.y = o.y ∧ o.y = e.y ∧
      ((s.z < o.z ∧ o.z < e.z) ∨ (e.z < o.z ∧ o.z < s.z)) ∧
      (2 ≤ g.g_countX ∨ 2 ≤ g.g_countY))

instance (g : Grid) (s e o : Vec3Int) : Decidable (BlockedCorridor g s e o) := by
  unfold BlockedCorridor
  infer_instance

/-- The values of a 32-bit `int`. -/
def IntRange (x : Int) : Prop :=
  -2147483648 ≤ x ∧ x ≤ 2147483647

instance (x : Int) : Decidable (IntRange x) := by
  unfold IntRange
  infer_instance

/-- The cost of a cell. -/
def costAt (g : Grid) (c : Vec3Int) : Int :=
  readAt g.g_costGrid (GetIndex g c)

/-- The distance field value of a cell. -/
def distAt (g : Grid) (c : Vec3Int) : Int :=
  readAt g.g_distanceToObstacleGrid (GetIndex g c)

/-- The size invariant that `InitializeGrid` establishes when it is called as its contract
demands: positive cell counts and a cost field with one entry for each cell. -/
def CostFieldOk (g : Grid) : Prop :=
  0 < g.g_countX ∧ 0 < g.g_countY ∧ 0 < g.g_countZ ∧
    (g.g_costGrid.length : Int) = g.g_countX * g.g_countY * g.g_countZ

instance (g : Grid) : Decidable (CostFieldOk g) := by
  unfold CostFieldOk
  infer_instance

/-- The number of unit steps between two cells. -/
def manhattan (a b : Vec3Int) : Int :=
  |a.x - b.x| + |a.y - b.y| + |a.z - b.z|

/-- Cell `o` is an impassable cell of the grid. -/
def IsObstacle (g : Grid) (o : Vec3Int) : Prop :=
  IsValid g o = true ∧ costAt g o ≥ OBSTACLE_THRESHOLD

/-- The number `k` is the distance from `c` to the nearest impassable cell: the minimum over
the impassable cells `o` of the number of unit steps from `c` to `o`. -/
def NearestObstacleDist (g : Grid) (c : Vec3Int) (k : Int) : Prop :=
  (∃ o, IsObstacle g o ∧ manhattan c o = k) ∧ ∀ o, IsObstacle g o → k ≤ manhattan c o

/-- The cell reached from `c` by the step `dir`. -/
def stepTo (c dir : Vec3Int) : Vec3Int :=
  ⟨c.x + dir.x, c.y + dir.y, c.z + dir.z⟩

/-- There is a walk of `n` hops from `c` to `e` in the 6-connected grid: every cell of the walk
is in bounds and each hop is one of `DIRECTIONS`. -/
inductive GridWalk (g : Grid) : Vec3Int → Vec3Int → Nat → Prop
  | here (c : Vec3Int) : IsValid g c = true → GridWalk g c c 0
  | hop (c d e : Vec3Int) (n : Nat) : IsValid g c = true → (∃ dir ∈ DIRECTIONS, stepTo c dir = d) →
      GridWalk g d e n → GridWalk g c e (n + 1)

/-- The invariant of the breadth-first propagation.  The queue is `A ++ B`; the cells of `A`
are at distance `k` from the obstacles and those of `B` at distance `k + 1`. -/
structure BfsInv (g : Grid) (dist : List Int) (k : Int) (A B : List Vec3Int) : Prop where
  len : (dist.length : Int) = g.g_countX * g.g_countY * g.g_countZ
  memA : ∀ c ∈ A, IsValid g c = true ∧ NearestObstacleDist g c k
  memB : ∀ c ∈ B, IsValid g c = true ∧ NearestObstacleDist g c (k + 1)
  value : ∀ c j, IsValid g c = true → NearestObstacleDist g c j →
    readAt dist (GetIndex g c) = j ∨ readAt dist (GetIndex g c) = MAX_DISTANCE
  near : ∀ c j, IsValid g c = true → NearestObstacleDist g c j → j ≤ k →
    readAt dist (GetIndex g c) ≠ MAX_DISTANCE
  far : ∀ c j, IsValid g c = true → NearestObstacleDist g c j → k + 2 ≤ j →
    readAt dist (GetIndex g c) = MAX_DISTANCE
  next : ∀ c, IsValid g c = true → NearestObstacleDist g c (k + 1) →
    readAt dist (GetIndex g c) ≠ MAX_DISTANCE → c ∈ B
  done : ∀ c, IsValid g c = true → NearestObstacleDist g c k → c ∉ A →
    ∀ dir ∈ DIRECTIONS, IsValid g (stepTo c dir) = true →
      readAt dist (GetIndex g (stepTo c dir)) ≠ MAX_DISTANCE

/-- The node that the loop body of `FindPath` writes for direction `i` when it improves on the
neighbour of `currentNode`: the same computation as in `expandStep`. -/
def relaxedNode (g : Grid) (P : SearchParams) (endNodePos curPos : Vec3Int) (currentNode : Node)
    (i : Nat) : Node :=
  let neighborPos : Vec3Int :=
    ⟨currentNode.pos.x + (directionAt i).x, currentNode.pos.y + (directionAt i).y,
      currentNode.pos.z + (directionAt i).z⟩
  let targetDistance : ℚ := ((P.pipeRadius + P.clearance : Int) : ℚ)
  let moveCost := P.w_path
  let moveCost := if (directionAt i).z ≠ 0 then moveCost + P.w_energy else moveCost
  let moveCost :=
    if !IsSpaceAvailable g neighborPos P.pipeRadius P.clearance then moveCost + 10000
    else moveCost
  let bend := currentNode.parent.isSome && decide ((i : Int) ≠ currentNode.direction_idx)
  let moveCost :=
    if bend then
      if currentNode.stepsSinceBend < P.minBendDistance then moveCost + P.w_bend * 10
      else moveCost + P.w_bend
    else moveCost
  let stepsSinceBend := if bend then 1 else currentNode.stepsSinceBend + 1
  let distToObstacle := readAt g.g_distanceToObstacleGrid (GetIndex g neighborPos)
  let distanceCost := |(distToObstacle : ℚ) - targetDistance|
  let moveCost := moveCost + distanceCost * P.w_proximity
  let newGCost :=
    currentNode.gCost + moveCost + (readAt g.g_costGrid (GetIndex g neighborPos) : ℚ)
  { pos := neighborPos
    gCost := newGCost
    fCost := newGCost + Heuristic neighborPos endNodePos
    parent := some curPos
    direction_idx := (i : Int)
    stepsSinceBend := stepsSinceBend }

/-- The rational `x` is a natural multiple of `1 / D`. -/
def OnLattice (D : Nat) (x : ℚ) : Prop :=
  ∃ k : Nat, x = (k : ℚ) / (D : ℚ)

/-- A common denominator of the four weights. -/
def weightDen (P : SearchParams) : Nat :=
  P.w_path.den * P.w_bend.den * P.w_energy.den * P.w_proximity.den

/-- The number of in-bounds cells that have no node yet. -/
def unvisitedCount (g : Grid) (N : Vec3Int → Option Node) : Nat :=
  ((scanCells g).map fun c =>
    match N c with
    | none => 1
    | some _ => 0).sum

/-- The sum of the costs `gCost` of the nodes, counted in units of `1 / D`. -/
def costSum (g : Grid) (D : Nat) (N : Vec3Int → Option Node) : Nat :=
  ((scanCells g).map fun c =>
    match N c with
    | none => 0
    | some n => (Int.floor (n.gCost * (D : ℚ))).toNat).sum

/-- The quantity that decreases with every push of the search: first the number of cells
without a node, then the sum of the node costs. -/
def searchMeasure (g : Grid) (D : Nat) (N : Vec3Int → Option Node) : ℕ ×ₗ ℕ :=
  toLex (unvisitedCount g N, costSum g D N)

/-- The keys met when the parent links are followed from `p`: the list starts with `p` and ends
with the start cell `s`, whose node has no parent. -/
inductive ParentChain (N : Vec3Int → Option Node) (s : Vec3Int) : Vec3Int → List Vec3Int → Prop
  | root (n : Node) : N s = some n → n.parent = none → ParentChain N s s [s]
  | link (p q : Vec3Int) (n : Node) (l : List Vec3Int) : N p = some n → n.parent = some q →
      ParentChain N s q l → ParentChain N s p (p :: l)

/-- The invariant of the search loop.  `hole` is the cell that is being expanded, if any. -/
structure SearchInv (g : Grid) (D : Nat) (s e : Vec3Int) (hole : Option Vec3Int)
    (st : SearchState) : Prop where
  key : ∀ p n, st.allNodes p = some n → n.pos = p ∧ IsValid g p = true
  queued : ∀ x ∈ st.openSet, ∃ n, st.allNodes x.pos = some n
  start : ∃ n, st.allNodes s = some n ∧ n.parent = none ∧ n.gCost = 0
  lattice : ∀ p n, st.allNodes p = some n → OnLattice D n.gCost
  parent_le : ∀ p n q, st.allNodes p = some n → n.parent = some q →
    (∃ m, st.allNodes q = some m ∧ m.gCost ≤ n.gCost) ∧ ∃ dir ∈ DIRECTIONS, stepTo q dir = p
  chain : ∀ p n, st.allNodes p = some n → ∃ l, ParentChain st.allNodes s p l
  pending : ∀ p n, st.allNodes p = some n →
    some p = hole ∨ (∃ x ∈ st.openSet, x.pos = p ∧ x.gCost = n.gCost) ∨
      (p ≠ e ∧ ∀ dir ∈ DIRECTIONS, IsValid g (stepTo p dir) = true →
        ∃ m, st.allNodes (stepTo p dir) = some m)

/-! ## Vectors and indices -/

theorem length_writeAt (v : List Int) (i a : Int) : (writeAt v i a).length = v.length := by
  unfold writeAt
  split <;> simp

theorem readAt_writeAt_self (v : List Int) (i a : Int) (h0 : 0 ≤ i) (h1 : i < v.length) :
    readAt (writeAt v i a) i = a := by
  have hlt : i.toNat < v.length := by omega
  simp [readAt, writeAt, h0, List.getD_eq_getElem?_getD, List.getElem?_set, hlt]

theorem readAt_writeAt_ne (v : List Int) (i j a : Int) (hij : i ≠ j) (hj : 0 ≤ j) :
    readAt (writeAt v i a) j = readAt v j := by
  unfold readAt writeAt
  by_cases h0 : 0 ≤ i
  · have hne : i.toNat ≠ j.toNat := by omega
    simp [h0, hj, List.getD_eq_getElem?_getD, List.getElem?_set, hne]
  · simp [h0]

theorem IsValid_iff (g : Grid) (v : Vec3Int) :
    IsValid g v = true ↔
      0 ≤ v.x ∧ v.x < g.g_countX ∧ 0 ≤ v.y ∧ v.y < g.g_countY ∧ 0 ≤ v.z ∧ v.z < g.g_countZ := by
  simp [IsValid, and_assoc]

theorem GetIndex_nonneg (g : Grid) (v : Vec3Int) (hv : IsValid g v = true) :
    0 ≤ GetIndex g v := by
  rw [IsValid_iff] at hv
  obtain ⟨h1, h2, h3, h4, h5, h6⟩ := hv
  unfold GetIndex
  have hcx : 0 ≤ g.g_countX := by omega
  have hcy : 0 ≤ g.g_countY := by omega
  have : 0 ≤ g.g_countY * v.z := mul_nonneg hcy h5
  have : 0 ≤ g.g_countX * (v.y + g.g_countY * v.z) := mul_nonneg hcx (by omega)
  omega

theorem GetIndex_lt (g : Grid) (v : Vec3Int) (hv : IsValid g v = true) :
    GetIndex g v < g.g_countX * g.g_countY * g.g_countZ := by
  rw [IsValid_iff] at hv
  obtain ⟨h1, h2, h3, h4, h5, h6⟩ := hv
  unfold GetIndex
  have hz : g.g_countY * (v.z + 1) ≤ g.g_countY * g.g_countZ :=
    mul_le_mul_of_nonneg_left (by omega) (by omega)
  have hy : g.g_countX * (v.y + g.g_countY * v.z + 1) ≤ g.g_countX * (g.g_countY * g.g_countZ) :=
    mul_le_mul_of_nonneg_left (by linarith) (by omega)
  nlinarith

theorem GetIndex_inj (g : Grid) (a b : Vec3Int) (ha : IsValid g a = true)
    (hb : IsValid g b = true) (h : GetIndex g a = GetIndex g b) : a = b := by
  rw [IsValid_iff] at ha hb
  obtain ⟨a1, a2, a3, a4, a5, a6⟩ := ha
  obtain ⟨b1, b2, b3, b4, b5, b6⟩ := hb
  unfold GetIndex at h
  have hx : a.x = b.x := by
    have h1 := congrArg (fun t => t % g.g_countX) h
    simp only [Int.add_mul_emod_self_left] at h1
    rwa [Int.emod_eq_of_lt a1 a2, Int.emod_eq_of_lt b1 b2] at h1
  have hcx : g.g_countX ≠ 0 := by omega
  have h2 : a.y + g.g_countY * a.z = b.y + g.g_countY * b.z := by
    rw [hx] at h
    exact mul_left_cancel₀ hcx (by linarith)
  have hy : a.y = b.y := by
    have h1 := congrArg (fun t => t % g.g_countY) h2
    simp only [Int.add_mul_emod_self_left] at h1
    rwa [Int.emod_eq_of_lt a3 a4, Int.emod_eq_of_lt b3 b4] at h1
  have hcy : g.g_countY ≠ 0 := by omega
  have hz : a.z = b.z := by
    rw [hy] at h2
    exact mul_left_cancel₀ hcy (by linarith)
  cases a
  cases b
  simp_all

theorem mem_loopRange (lo hi x : Int) : x ∈ loopRange lo hi ↔ lo ≤ x ∧ x ≤ hi := by
  unfold loopRange
  simp only [List.mem_map, List.mem_range]
  constructor
  · rintro ⟨k, hk, rfl⟩
    omega
  · rintro ⟨h1, h2⟩
    exact ⟨(x - lo).toNat, by omega, by omega⟩

theorem mem_countRange (n x : Int) : x ∈ countRange n ↔ 0 ≤ x ∧ x < n := by
  unfold countRange
  simp only [List.mem_map, List.mem_range]
  constructor
  · rintro ⟨k, hk, rfl⟩
    omega
  · rintro ⟨h1, h2⟩
    exact ⟨x.toNat, by omega, by omega⟩

theorem abs_le_of_sq_sum_le (x y z R : Int) (hR : 0 ≤ R) (h : x * x + y * y + z * z ≤ R * R) :
    -R ≤ x ∧ x ≤ R := by
  have hy : 0 ≤ y * y := mul_self_nonneg y
  have hz : 0 ≤ z * z := mul_self_nonneg z
  have hx : x * x ≤ R * R := by linarith
  have := abs_le_of_sq_le_sq' (by nlinarith : x ^ 2 ≤ R ^ 2) hR
  exact this

/-! ## The binary heap is a queue -/

theorem cons_set_perm (t : List Node) (j : Nat) (b x : Node) (h : t[j]? = some b) :
    (b :: t.set j x).Perm (x :: t) := by
  induction t generalizing j with
  | nil => simp at h
  | cons y s ih =>
    cases j with
    | zero =>
      simp only [List.getElem?_cons_zero, Option.some.injEq] at h
      subst h
      simpa using List.Perm.swap x y s
    | succ j =>
      simp only [List.getElem?_cons_succ] at h
      simp only [List.set_cons_succ]
      exact ((List.Perm.swap y b _).trans ((ih j h).cons y)).trans (List.Perm.swap x y s)

theorem set_set_perm (v : List Node) (i j : Nat) (a b : Node) (hi : v[i]? = some a)
    (hj : v[j]? = some b) : ((v.set i b).set j a).Perm v := by
  induction v generalizing i j with
  | nil => simp at hi
  | cons x t ih =>
    cases i with
    | zero =>
      simp only [List.getElem?_cons_zero, Option.some.injEq] at hi
      subst hi
      cases j with
      | zero =>
        simp only [List.getElem?_cons_zero, Option.some.injEq] at hj
        simp
      | succ j =>
        simp only [List.getElem?_cons_succ] at hj
        simpa using cons_set_perm t j b x hj
    | succ i =>
      simp only [List.getElem?_cons_succ] at hi
      cases j with
      | zero =>
        simp only [List.getElem?_cons_zero, Option.some.injEq] at hj
        subst hj
        simpa using cons_set_perm t i a x hi
      | succ j =>
        simp only [List.getElem?_cons_succ] at hj
        simpa using (ih i j hi hj).cons x

theorem swapAt_perm (v : List Node) (i j : Nat) : (swapAt v i j).Perm v := by
  unfold swapAt
  split
  · rename_i a b ha hb
    exact set_set_perm v i j a b ha hb
  · exact List.Perm.refl v

theorem heapUp_perm (fuel : Nat) (v : List Node) (hole : Nat) : (heapUp fuel v hole).Perm v := by
  induction fuel generalizing v hole with
  | zero => exact List.Perm.refl v
  | succ fuel ih =>
    unfold heapUp
    split
    · exact List.Perm.refl v
    · dsimp only
      split
      · split
        · exact (ih _ _).trans (swapAt_perm v _ _)
        · exact List.Perm.refl v
      · exact List.Perm.refl v

theorem heapDown_perm (fuel : Nat) (v : List Node) (hole : Nat) :
    (heapDown fuel v hole).1.Perm v := by
  induction fuel generalizing v hole with
  | zero => exact List.Perm.refl v
  | succ fuel ih =>
    unfold heapDown
    split
    · exact (ih _ _).trans (swapAt_perm v _ _)
    · exact swapAt_perm v _ _
    · exact List.Perm.refl v

theorem stdHeap_isBag : stdHeap.IsBag where
  push_perm v n := by
    show (heapUp (v.length + 1) (v ++ [n]) v.length).Perm (n :: v)
    exact (heapUp_perm _ _ _).trans (List.perm_append_singleton n v)
  pop_nil := rfl
  pop_perm v hv := by
    cases v with
    | nil => exact absurd rfl hv
    | cons top rest =>
      show ∃ t r, heapPop (top :: rest) = some (t, r) ∧ (top :: rest).Perm (t :: r)
      cases hl : rest.getLast? with
      | none =>
        have : rest = [] := by simpa using hl
        subst this
        exact ⟨top, [], rfl, List.Perm.refl _⟩
      | some value =>
        refine ⟨top, heapUp (value :: rest.dropLast).length
          (heapDown (value :: rest.dropLast).length (value :: rest.dropLast) 0).1
          (heapDown (value :: rest.dropLast).length (value :: rest.dropLast) 0).2, ?_,
          List.Perm.cons top ?_⟩
        · simp only [heapPop, hl]
        have hrest : rest.dropLast ++ [value] = rest :=
          List.dropLast_append_getLast? value (by simp [hl])
        have hw : (value :: rest.dropLast).Perm rest := by
          have := List.perm_append_singleton value rest.dropLast
          rw [hrest] at this
          exact this.symm
        exact (((heapUp_perm _ _ _).trans (heapDown_perm _ _ _)).trans hw).symm

theorem IsBag.pop_push_nil (Q : OpenSetQueue) (hQ : Q.IsBag) (n : Node) :
    Q.pop (Q.push [] n) = some (n, []) := by
  have hp : Q.push [] n = [n] := List.perm_singleton.mp (hQ.push_perm [] n)
  rw [hp]
  obtain ⟨top, rest, h1, h2⟩ := hQ.pop_perm [n] (by simp)
  have hlen := h2.length_eq
  have hrest : rest = [] := by
    cases rest with
    | nil => rfl
    | cons a t => simp at hlen
  subst hrest
  have : [n] = [top] := List.singleton_perm.mp h2
  simp only [List.cons.injEq, and_true] at this
  rw [h1, this]

/-! ## The feasibility check -/

/-- C7: when the cost field is empty, `UpdateCosts` and `PrecomputeDistanceTransform` return
the state unchanged for all arguments, and `FindPath` returns 0, leaves the state unchanged and
writes nothing to the output buffer for all arguments. -/
theorem C7_empty_cost_field_noop (Q : OpenSetQueue) (g : Grid) (h : g.g_costGrid = []) :
    (∀ cells costToAdd, UpdateCosts g cells costToAdd = g) ∧
    (∀ fuel, PrecomputeDistanceTransform fuel g = some g) ∧
    (∀ fuel startPos endPos outPath maxPathSize w_path w_bend w_energy w_proximity pipeRadius
        clearance minBendDistance,
      FindPath Q fuel g startPos endPos outPath maxPathSize w_path w_bend w_energy w_proximity
        pipeRadius clearance minBendDistance = some (g, 0, outPath)) := by
  refine ⟨?_, ?_, ?_⟩
  · intro cells costToAdd
    simp [UpdateCosts, h]
  · intro fuel
    simp [PrecomputeDistanceTransform, h]
  · intros
    simp [FindPath, h]

/-- C7 (witness): the no-op contract applied to a released one-cell grid. -/
theorem C7_empty_cost_field_noop_witness :
    (ReleaseGrid ⟨[0], 1, 1, 1, ⟨0, 0, 0⟩, 1, [99999]⟩).g_costGrid = [] ∧
    ((∀ cells costToAdd,
        UpdateCosts (ReleaseGrid ⟨[0], 1, 1, 1, ⟨0, 0, 0⟩, 1, [99999]⟩) cells costToAdd =
          ReleaseGrid ⟨[0], 1, 1, 1, ⟨0, 0, 0⟩, 1, [99999]⟩) ∧
    (∀ fuel, PrecomputeDistanceTransform fuel (ReleaseGrid ⟨[0], 1, 1, 1, ⟨0, 0, 0⟩, 1, [99999]⟩) =
        some (ReleaseGrid ⟨[0], 1, 1, 1, ⟨0, 0, 0⟩, 1, [99999]⟩)) ∧
    (∀ fuel startPos endPos outPath maxPathSize w_path w_bend w_energy w_proximity pipeRadius
        clearance minBendDistance,
      FindPath stdHeap fuel (ReleaseGrid ⟨[0], 1, 1, 1, ⟨0, 0, 0⟩, 1, [99999]⟩) startPos endPos
        outPath maxPathSize w_path w_bend w_energy w_proximity pipeRadius clearance
        minBendDistance =
          some (ReleaseGrid ⟨[0], 1, 1, 1, ⟨0, 0, 0⟩, 1, [99999]⟩, 0, outPath))) :=
  ⟨rfl, C7_empty_cost_field_noop stdHeap (ReleaseGrid ⟨[0], 1, 1, 1, ⟨0, 0, 0⟩, 1, [99999]⟩) rfl⟩

/-- C8: when `WorldToGrid` of the start or of the goal is outside the grid, `FindPath` returns
0, writes nothing to the output buffer and leaves the state (cost field, distance field,
geometry) unchanged, whatever the other arguments; no fuel is needed. -/
theorem C8_endpoint_outside_grid (Q : OpenSetQueue) (fuel : Nat) (g : Grid)
    (startPos endPos : Vec3) (outPath : Nat → Vec3) (maxPathSize : Int)
    (w_path w_bend w_energy w_proximity : ℚ) (pipeRadius clearance minBendDistance : Int)
    (h : IsValid g (WorldToGrid g startPos) = false ∨ IsValid g (WorldToGrid g endPos) = false) :
    FindPath Q fuel g startPos endPos outPath maxPathSize w_path w_bend w_energy w_proximity
      pipeRadius clearance minBendDistance = some (g, 0, outPath) := by
  unfold FindPath
  split
  · rfl
  · rcases h with h | h <;> simp [h]

/-- C8 (witness): a start position left of a one-cell grid. -/
theorem C8_endpoint_outside_grid_witness :
    (IsValid ⟨[0], 1, 1, 1, ⟨0, 0, 0⟩, 1, [99999]⟩
        (WorldToGrid ⟨[0], 1, 1, 1, ⟨0, 0, 0⟩, 1, [99999]⟩ ⟨-1, 0, 0⟩) = false ∨
      IsValid ⟨[0], 1, 1, 1, ⟨0, 0, 0⟩, 1, [99999]⟩
        (WorldToGrid ⟨[0], 1, 1, 1, ⟨0, 0, 0⟩, 1, [99999]⟩ ⟨0, 0, 0⟩) = false) ∧
    FindPath stdHeap 0 ⟨[0], 1, 1, 1, ⟨0, 0, 0⟩, 1, [99999]⟩ ⟨-1, 0, 0⟩ ⟨0, 0, 0⟩
      (fun _ => ⟨7, 7, 7⟩) 5 1 1 1 1 0 0 1 =
        some (⟨[0], 1, 1, 1, ⟨0, 0, 0⟩, 1, [99999]⟩, 0, fun _ => ⟨7, 7, 7⟩) :=
  ⟨Or.inl (by decide!),
    C8_endpoint_outside_grid stdHeap 0 ⟨[0], 1, 1, 1, ⟨0, 0, 0⟩, 1, [99999]⟩ ⟨-1, 0, 0⟩ ⟨0, 0, 0⟩
      (fun _ => ⟨7, 7, 7⟩) 5 1 1 1 1 0 0 1 (Or.inl (by decide!))⟩

/-! ## Start and goal in the same cell -/

/-- C9: on a non-empty grid, when start and goal map to the same in-bounds cell `c` and the
capacity is at least 1, `FindPath` returns 1 and writes `outPath[0] = GridToWorld c` and nothing
else, for all weights, radius, clearance and minimum bend distance, whatever the costs and the
distance field; one unit of fuel suffices. -/
theorem C9_same_cell_single_point (Q : OpenSetQueue) (hQ : Q.IsBag) (fuel : Nat) (g : Grid)
    (startPos endPos : Vec3) (outPath : Nat → Vec3) (maxPathSize : Int)
    (w_path w_bend w_energy w_proximity : ℚ) (pipeRadius clearance minBendDistance : Int)
    (c : Vec3Int) (hne : g.g_costGrid ≠ []) (hs : WorldToGrid g startPos = c)
    (he : WorldToGrid g endPos = c) (hc : IsValid g c = true) (hcap : 1 ≤ maxPathSize) :
    ∃ buf, FindPath Q (fuel + 1) g startPos endPos outPath maxPathSize w_path w_bend w_energy
        w_proximity pipeRadius clearance minBendDistance = some (g, 1, buf) ∧
      buf 0 = GridToWorld g c ∧ ∀ i, 1 ≤ i → buf i = outPath i := by
  have hemp : g.g_costGrid.isEmpty = false := by
    cases hg : g.g_costGrid with
    | nil => exact absurd hg hne
    | cons a t => rfl
  have hmin : min (1 : Int) maxPathSize = 1 := min_eq_left hcap
  subst hs
  refine ⟨fun i => if (i : Int) < 1 then
      [GridToWorld g (WorldToGrid g startPos)].getD i (outPath i) else outPath i, ?_, by simp, ?_⟩
  · unfold FindPath
    simp only [hemp, he, hc, Bool.false_eq_true, if_false, Bool.not_true, Bool.or_self]
    simp only [searchLoop, IsBag.pop_push_nil Q hQ, Function.update_same, lt_self_iff_false,
      if_false, if_true, walkParents, Option.map_some', List.reverse_cons, List.reverse_nil,
      List.nil_append, List.length_singleton, Nat.cast_one, hmin]
  · intro i hi
    have : ¬ ((i : Int) < 1) := by omega
    simp [this]

/-- C9 (witness): the one-cell grid, with an impassable cell and no distance field. -/
theorem C9_same_cell_single_point_witness :
    ∃ buf, FindPath stdHeap (0 + 1) ⟨[10000], 1, 1, 1, ⟨0, 0, 0⟩, 2, []⟩ ⟨1, 1, 1⟩ ⟨1 / 2, 1, 3 / 2⟩
        (fun _ => ⟨7, 7, 7⟩) 1 1 2 3 4 1 1 1 = some (⟨[10000], 1, 1, 1, ⟨0, 0, 0⟩, 2, []⟩, 1, buf) ∧
      buf 0 = GridToWorld ⟨[10000], 1, 1, 1, ⟨0, 0, 0⟩, 2, []⟩ ⟨0, 0, 0⟩ ∧
      ∀ i, 1 ≤ i → buf i = (fun _ => ⟨7, 7, 7⟩ : Nat → Vec3) i :=
  C9_same_cell_single_point stdHeap stdHeap_isBag 0 ⟨[10000], 1, 1, 1, ⟨0, 0, 0⟩, 2, []⟩ ⟨1, 1, 1⟩
    ⟨1 / 2, 1, 3 / 2⟩ (fun _ => ⟨7, 7, 7⟩) 1 1 2 3 4 1 1 1 ⟨0, 0, 0⟩ (by decide) (by decide!)
    (by decide!) (by decide) (by decide)

/-! ## Truncation -/

/-- C5: if `FindPath` with some capacity returns `L` points, then with the same arguments and
a capacity `K`, `0 <= K < L`, it returns exactly `K`, writes to `outPath[i]` for `i < K` the
same point as the first call, and leaves every `outPath[i]` with `i >= K` as it was. -/
theorem C5_truncation (Q : OpenSetQueue) (fuel : Nat) (g g1 : Grid) (startPos endPos : Vec3)
    (outPath buf : Nat → Vec3) (capacity K L : Int)
    (w_path w_bend w_energy w_proximity : ℚ) (pipeRadius clearance minBendDistance : Int)
    (hL : FindPath Q fuel g startPos endPos outPath capacity w_path w_bend w_energy w_proximity
      pipeRadius clearance minBendDistance = some (g1, L, buf))
    (hK0 : 0 ≤ K) (hKL : K < L) :
    ∃ buf1, FindPath Q fuel g startPos endPos outPath K w_path w_bend w_energy w_proximity
        pipeRadius clearance minBendDistance = some (g1, K, buf1) ∧
      (∀ i : Nat, (i : Int) < K → buf1 i = buf i) ∧ (∀ i : Nat, K ≤ (i : Int) → buf1 i = outPath i) := by
  unfold FindPath at hL ⊢
  split at hL
  · simp only [Option.some.injEq, Prod.mk.injEq] at hL
    omega
  · rename_i hemp
    rw [if_neg hemp]
    simp only at hL ⊢
    split at hL
    · simp only [Option.some.injEq, Prod.mk.injEq] at hL
      omega
    · rename_i hval
      rw [if_neg hval]
      split at hL
      · exact absurd hL (by simp)
      · simp only [Option.some.injEq, Prod.mk.injEq] at hL
        omega
      · rename_i allNodes hsearch
        split at hL
        · exact absurd hL (by simp)
        · rename_i pushed hwalk
          simp only [hwalk, Option.some.injEq, Prod.mk.injEq] at hL ⊢
          obtain ⟨hg, hLen, hbuf⟩ := hL
          have hKlen : K < (pushed.reverse.length : Int) := by
            have := min_le_left (pushed.reverse.length : Int) capacity
            omega
          have hmin : min (pushed.reverse.length : Int) K = K := min_eq_right (by omega)
          refine ⟨_, ⟨hg, hmin, rfl⟩, ?_, ?_⟩
          · intro i hi
            subst hbuf
            have h1 : (i : Int) < min (pushed.reverse.length : Int) K := by omega
            have h2 : (i : Int) < min (pushed.reverse.length : Int) capacity := by omega
            simp only [h1, h2, if_true]
          · intro i hi
            have h1 : ¬ (i : Int) < min (pushed.reverse.length : Int) K := by omega
            simp only [h1, if_false]

/-- C5 (witness): on the corridor the full path has 3 points; with capacity 2 the call returns
2 points. -/
theorem C5_truncation_witness :
    ∃ buf1, FindPath stdHeap 10 corridorGrid ⟨1 / 2, 1 / 2, 1 / 2⟩ ⟨5 / 2, 1 / 2, 1 / 2⟩
        markerBuffer 2 1 1 1 1 0 0 1 = some (corridorGrid, 2, buf1) ∧
      (∀ i : Nat, (i : Int) < 2 → buf1 i =
        (fun (i : Nat) => if (i : Int) < 3 then
          [(⟨1 / 2, 1 / 2, 1 / 2⟩ : Vec3), ⟨3 / 2, 1 / 2, 1 / 2⟩, ⟨5 / 2, 1 / 2, 1 / 2⟩].getD i
            ⟨7, 7, 7⟩ else ⟨7, 7, 7⟩) i) ∧
      (∀ i : Nat, 2 ≤ (i : Int) → buf1 i = markerBuffer i) :=
  C5_truncation stdHeap 10 corridorGrid corridorGrid ⟨1 / 2, 1 / 2, 1 / 2⟩ ⟨5 / 2, 1 / 2, 1 / 2⟩
    markerBuffer _ 10 2 3 1 1 1 1 0 0 1 (by with_unfolding_all rfl) (by decide) (by decide)

/-! ## Cost updates -/

theorem updateStep_length (g : Grid) (costToAdd : Int) (costs : List Int) (cell : Vec3Int) :
    (updateStep g costToAdd costs cell).length = costs.length := by
  unfold updateStep
  split
  · exact length_writeAt _ _ _
  · rfl

theorem foldl_updateStep_length (g : Grid) (costToAdd : Int) (cells : List Vec3Int)
    (costs : List Int) :
    (cells.foldl (updateStep g costToAdd) costs).length = costs.length := by
  induction cells generalizing costs with
  | nil => rfl
  | cons a t ih => rw [List.foldl_cons, ih, updateStep_length]

theorem wrapInt_range (x : Int) : IntRange (wrapInt x) := by
  unfold IntRange wrapInt
  omega

theorem wrapInt_of_range (x : Int) (h : IntRange x) : wrapInt x = x := by
  unfold IntRange at h
  unfold wrapInt
  omega

theorem wrapInt_wrapInt_add (x y : Int) : wrapInt (wrapInt x + y) = wrapInt (x + y) := by
  unfold wrapInt
  omega

theorem foldl_updateStep_read (g : Grid) (costToAdd : Int) (cells : List Vec3Int)
    (costs : List Int) (hlen : (costs.length : Int) = g.g_countX * g.g_countY * g.g_countZ)
    (c : Vec3Int) (hc : IsValid g c = true) (hcur : IntRange (readAt costs (GetIndex g c))) :
    readAt (cells.foldl (updateStep g costToAdd) costs) (GetIndex g c) =
      wrapInt (readAt costs (GetIndex g c) + costToAdd * (cells.count c : Int)) := by
  induction cells generalizing costs with
  | nil =>
    simp only [List.foldl_nil, List.count_nil, Nat.cast_zero, mul_zero, add_zero]
    exact (wrapInt_of_range _ hcur).symm
  | cons a t ih =>
    rw [List.foldl_cons, List.count_cons]
    by_cases ha : IsValid g a = true
    · by_cases hac : a = c
      · subst hac
        have hnew : readAt (updateStep g costToAdd costs a) (GetIndex g a) =
            wrapInt (readAt costs (GetIndex g a) + costToAdd) := by
          unfold updateStep
          rw [if_pos ha]
          exact readAt_writeAt_self _ _ _ (GetIndex_nonneg g a ha)
            (by rw [hlen]; exact GetIndex_lt g a ha)
        rw [ih _ (by rw [updateStep_length]; exact hlen) (by rw [hnew]; exact wrapInt_range _),
          hnew, wrapInt_wrapInt_add]
        congr 1
        simp
        ring
      · have hidx : GetIndex g a ≠ GetIndex g c := fun h => hac (GetIndex_inj g a c ha hc h)
        have hnew : readAt (updateStep g costToAdd costs a) (GetIndex g c) =
            readAt costs (GetIndex g c) := by
          unfold updateStep
          rw [if_pos ha]
          exact readAt_writeAt_ne _ _ _ _ hidx (GetIndex_nonneg g c hc)
        rw [ih _ (by rw [updateStep_length]; exact hlen) (by rw [hnew]; exact hcur), hnew]
        simp [hac]
    · have hac : a ≠ c := by
        intro h
        rw [h] at ha
        exact ha hc
      have hnew : updateStep g costToAdd costs a = costs := by
        unfold updateStep
        rw [if_neg ha]
      rw [hnew, ih _ hlen hcur]
      simp [hac]

theorem foldl_updateStep_filter (g : Grid) (costToAdd : Int) (cells : List Vec3Int)
    (costs : List Int) :
    cells.foldl (updateStep g costToAdd) costs =
      (cells.filter (IsValid g)).foldl (updateStep g costToAdd) costs := by
  induction cells generalizing costs with
  | nil => rfl
  | cons a t ih =>
    by_cases ha : IsValid g a = true
    · rw [List.filter_cons_of_pos ha, List.foldl_cons, List.foldl_cons, ih]
    · rw [List.filter_cons_of_neg ha, List.foldl_cons, ih]
      congr 1
      unfold updateStep
      rw [if_neg ha]

theorem manhattan_nonneg (a b : Vec3Int) : 0 ≤ manhattan a b := by
  unfold manhattan
  positivity

theorem manhattan_eq_zero (a b : Vec3Int) (h : manhattan a b = 0) : a = b := by
  unfold manhattan at h
  simp only [Int.abs_eq_natAbs] at h
  cases a
  cases b
  simp only [Vec3Int.mk.injEq]
  simp only at h
  omega

theorem manhattan_self (a : Vec3Int) : manhattan a a = 0 := by
  simp [manhattan]

theorem manhattan_stepTo (c o dir : Vec3Int) (hd : dir ∈ DIRECTIONS) :
    manhattan (stepTo c dir) o ≤ manhattan c o + 1 ∧ manhattan c o ≤ manhattan (stepTo c dir) o + 1 := by
  simp only [DIRECTIONS, List.mem_cons, List.mem_singleton, List.not_mem_nil, or_false] at hd
  rcases hd with h | h | h | h | h | h <;> subst h <;>
    simp only [manhattan, stepTo, Int.abs_eq_natAbs] <;> omega

theorem manhattan_lt_of_valid (g : Grid) (a b : Vec3Int) (ha : IsValid g a = true)
    (hb : IsValid g b = true) :
    manhattan a b < g.g_countX + g.g_countY + g.g_countZ := by
  rw [IsValid_iff] at ha hb
  simp only [manhattan, Int.abs_eq_natAbs]
  omega

theorem nearest_unique (g : Grid) (c : Vec3Int) (j j1 : Int) (h : NearestObstacleDist g c j)
    (h1 : NearestObstacleDist g c j1) : j = j1 := by
  obtain ⟨⟨o, ho, hj⟩, hmin⟩ := h
  obtain ⟨⟨o1, ho1, hj1⟩, hmin1⟩ := h1
  have := hmin o1 ho1
  have := hmin1 o ho
  omega

theorem nearest_exists (g : Grid) (hobs : ∃ o, IsObstacle g o) (c : Vec3Int) :
    ∃ j, NearestObstacleDist g c j := by
  classical
  have hex : ∃ n : Nat, ∃ o, IsObstacle g o ∧ manhattan c o = (n : Int) := by
    obtain ⟨o, ho⟩ := hobs
    exact ⟨(manhattan c o).toNat, o, ho, (Int.toNat_of_nonneg (manhattan_nonneg c o)).symm⟩
  refine ⟨(Nat.find hex : Int), Nat.find_spec hex, ?_⟩
  intro o ho
  have hle := Nat.find_min' hex
    ⟨o, ho, (Int.toNat_of_nonneg (manhattan_nonneg c o)).symm⟩
  have := manhattan_nonneg c o
  omega

theorem nearest_bounds (g : Grid) (c : Vec3Int) (j : Int) (hc : IsValid g c = true)
    (h : NearestObstacleDist g c j) : 0 ≤ j ∧ j < g.g_countX + g.g_countY + g.g_countZ := by
  obtain ⟨⟨o, ho, hj⟩, _⟩ := h
  have h1 := manhattan_nonneg c o
  have h2 := manhattan_lt_of_valid g c o hc ho.1
  omega

theorem nearest_zero_iff (g : Grid) (c : Vec3Int) (hc : IsValid g c = true) :
    NearestObstacleDist g c 0 ↔ costAt g c ≥ OBSTACLE_THRESHOLD := by
  constructor
  · rintro ⟨⟨o, ho, hj⟩, _⟩
    have := manhattan_eq_zero c o hj
    subst this
    exact ho.2
  · intro h
    exact ⟨⟨c, ⟨hc, h⟩, manhattan_self c⟩, fun o _ => manhattan_nonneg c o⟩

theorem nearest_stepTo_le (g : Grid) (c dir : Vec3Int) (j j1 : Int) (hd : dir ∈ DIRECTIONS)
    (h : NearestObstacleDist g c j) (h1 : NearestObstacleDist g (stepTo c dir) j1) :
    j1 ≤ j + 1 := by
  obtain ⟨⟨o, ho, hj⟩, _⟩ := h
  have := h1.2 o ho
  have := (manhattan_stepTo c o dir hd).1
  omega

theorem nearest_descent (g : Grid) (c : Vec3Int) (m : Int) (hm : 0 ≤ m)
    (hc : IsValid g c = true) (h : NearestObstacleDist g c (m + 1)) :
    ∃ n dir, dir ∈ DIRECTIONS ∧ IsValid g n = true ∧ stepTo n dir = c ∧
      NearestObstacleDist g n m ∧ ∃ e ∈ DIRECTIONS, stepTo c e = n := by
  obtain ⟨⟨o, ho, hj⟩, hmin⟩ := h
  have hov := ho.1
  rw [IsValid_iff] at hc hov
  have key : ∀ e f : Vec3Int, e ∈ DIRECTIONS → f ∈ DIRECTIONS → stepTo (stepTo c e) f = c →
      IsValid g (stepTo c e) = true → manhattan (stepTo c e) o = m →
      ∃ n dir, dir ∈ DIRECTIONS ∧ IsValid g n = true ∧ stepTo n dir = c ∧
        NearestObstacleDist g n m ∧ ∃ e ∈ DIRECTIONS, stepTo c e = n := by
    intro e f he hf hback hval hman
    refine ⟨stepTo c e, f, hf, hval, hback, ⟨⟨o, ho, hman⟩, ?_⟩, e, he, rfl⟩
    intro o1 ho1
    have := hmin o1 ho1
    have := (manhattan_stepTo c o1 e he).2
    omega
  simp only [manhattan, Int.abs_eq_natAbs] at hj
  by_cases hx1 : c.x < o.x
  · refine key ⟨1, 0, 0⟩ ⟨-1, 0, 0⟩ (by decide) (by decide) (by simp [stepTo]) ?_ ?_
    · rw [IsValid_iff]; simp only [stepTo]; omega
    · simp only [manhattan, stepTo, Int.abs_eq_natAbs]; omega
  by_cases hx2 : o.x < c.x
  · refine key ⟨-1, 0, 0⟩ ⟨1, 0, 0⟩ (by decide) (by decide) (by simp [stepTo]) ?_ ?_
    · rw [IsValid_iff]; simp only [stepTo]; omega
    · simp only [manhattan, stepTo, Int.abs_eq_natAbs]; omega
  by_cases hy1 : c.y < o.y
  · refine key ⟨0, 1, 0⟩ ⟨0, -1, 0⟩ (by decide) (by decide) (by simp [stepTo]) ?_ ?_
    · rw [IsValid_iff]; simp only [stepTo]; omega
    · simp only [manhattan, stepTo, Int.abs_eq_natAbs]; omega
  by_cases hy2 : o.y < c.y
  · refine key ⟨0, -1, 0⟩ ⟨0, 1, 0⟩ (by decide) (by decide) (by simp [stepTo]) ?_ ?_
    · rw [IsValid_iff]; simp only [stepTo]; omega
    · simp only [manhattan, stepTo, Int.abs_eq_natAbs]; omega
  by_cases hz1 : c.z < o.z
  · refine key ⟨0, 0, 1⟩ ⟨0, 0, -1⟩ (by decide) (by decide) (by simp [stepTo]) ?_ ?_
    · rw [IsValid_iff]; simp only [stepTo]; omega
    · simp only [manhattan, stepTo, Int.abs_eq_natAbs]; omega
  by_cases hz2 : o.z < c.z
  · refine key ⟨0, 0, -1⟩ ⟨0, 0, 1⟩ (by decide) (by decide) (by simp [stepTo]) ?_ ?_
    · rw [IsValid_iff]; simp only [stepTo]; omega
    · simp only [manhattan, stepTo, Int.abs_eq_natAbs]; omega
  omega

theorem nearest_descent_to (g : Grid) (i : Nat) (m : Int) (hm : 0 ≤ m) (c : Vec3Int)
    (hc : IsValid g c = true) (h : NearestObstacleDist g c (m + i)) :
    ∃ n, IsValid g n = true ∧ NearestObstacleDist g n m := by
  induction i generalizing c with
  | zero => exact ⟨c, hc, by simpa using h⟩
  | succ i ih =>
    have h1 : NearestObstacleDist g c (m + (i : Int) + 1) := by
      have : m + ((i + 1 : Nat) : Int) = m + (i : Int) + 1 := by push_cast; ring
      rwa [this] at h
    obtain ⟨n, dir, _, hn, _, hnd, _⟩ := nearest_descent g c (m + i) (by omega) hc h1
    exact ih n hn hnd

theorem gridWalk_manhattan_le (g : Grid) (c e : Vec3Int) (n : Nat) (h : GridWalk g c e n) :
    manhattan c e ≤ n := by
  induction h with
  | here c _ => simp [manhattan_self]
  | hop c d e n _ hstep _ ih =>
    obtain ⟨dir, hd, rfl⟩ := hstep
    have := (manhattan_stepTo c e dir hd).2
    push_cast
    omega

theorem gridWalk_to_nearest (g : Grid) (j : Nat) (c : Vec3Int) (hc : IsValid g c = true)
    (h : NearestObstacleDist g c j) : ∃ o, IsObstacle g o ∧ GridWalk g c o j := by
  induction j generalizing c with
  | zero =>
    exact ⟨c, ⟨hc, (nearest_zero_iff g c hc).mp (by simpa using h)⟩, GridWalk.here c hc⟩
  | succ j ih =>
    have h1 : NearestObstacleDist g c ((j : Int) + 1) := by
      have : ((j + 1 : Nat) : Int) = (j : Int) + 1 := by push_cast; ring
      rwa [this] at h
    obtain ⟨n, _, _, hn, _, hnd, e, he, hstep⟩ := nearest_descent g c j (by omega) hc h1
    obtain ⟨o, ho, hw⟩ := ih n hn hnd
    exact ⟨o, ho, GridWalk.hop c n o j hc ⟨e, he, hstep⟩ hw⟩

theorem nearest_is_hop_count (g : Grid) (c : Vec3Int) (k : Int) (hc : IsValid g c = true)
    (h : NearestObstacleDist g c k) :
    (∃ o n, IsObstacle g o ∧ GridWalk g c o n ∧ (n : Int) = k) ∧
      ∀ o n, IsObstacle g o → GridWalk g c o n → k ≤ n := by
  have hk := (nearest_bounds g c k hc h).1
  constructor
  · have h1 : NearestObstacleDist g c (k.toNat : Int) := by
      rwa [Int.toNat_of_nonneg hk]
    obtain ⟨o, ho, hw⟩ := gridWalk_to_nearest g k.toNat c hc h1
    exact ⟨o, k.toNat, ho, hw, Int.toNat_of_nonneg hk⟩
  · intro o n ho hw
    exact le_trans (h.2 o ho) (gridWalk_manhattan_le g c o n hw)

/-! ## The distance transform computes the distance to the nearest obstacle -/

theorem mem_scanCells (g : Grid) (c : Vec3Int) : c ∈ scanCells g ↔ IsValid g c = true := by
  unfold scanCells
  simp only [List.mem_flatMap, List.mem_map, mem_countRange, IsValid_iff]
  constructor
  · rintro ⟨z, hz, y, hy, x, hx, rfl⟩
    exact ⟨hx.1, hx.2, hy.1, hy.2, hz.1, hz.2⟩
  · rintro ⟨h1, h2, h3, h4, h5, h6⟩
    exact ⟨c.z, ⟨h5, h6⟩, c.y, ⟨h3, h4⟩, c.x, ⟨h1, h2⟩, rfl⟩

theorem seed_foldl (g : Grid) (l : List Vec3Int) (hl : ∀ c ∈ l, IsValid g c = true)
    (d : List Int) (q : List Vec3Int)
    (hlen : (d.length : Int) = g.g_countX * g.g_countY * g.g_countZ) :
    ((l.foldl (seedStep g) (d, q)).1.length : Int) = g.g_countX * g.g_countY * g.g_countZ ∧
    (∀ c, IsValid g c = true →
      readAt (l.foldl (seedStep g) (d, q)).1 (GetIndex g c) =
        if c ∈ l ∧ costAt g c ≥ OBSTACLE_THRESHOLD then 0 else readAt d (GetIndex g c)) ∧
    (l.foldl (seedStep g) (d, q)).2 =
      q ++ l.filter fun c => decide (costAt g c ≥ OBSTACLE_THRESHOLD) := by
  induction l generalizing d q with
  | nil => simpa using hlen
  | cons a t ih =>
    have ha : IsValid g a = true := hl a (List.mem_cons_self a t)
    have ht : ∀ c ∈ t, IsValid g c = true := fun c hc => hl c (List.mem_cons_of_mem a hc)
    rw [List.foldl_cons]
    by_cases hobs : costAt g a ≥ OBSTACLE_THRESHOLD
    · have hstep : seedStep g (d, q) a = (writeAt d (GetIndex g a) 0, q ++ [a]) := by
        unfold seedStep
        exact if_pos hobs
      rw [hstep]
      obtain ⟨h1, h2, h3⟩ := ih ht (writeAt d (GetIndex g a) 0) (q ++ [a])
        (by rw [length_writeAt]; exact hlen)
      refine ⟨h1, ?_, ?_⟩
      · intro c hc
        rw [h2 c hc]
        by_cases hca : c = a
        · subst hca
          rw [readAt_writeAt_self _ _ _ (GetIndex_nonneg g c hc)
            (by rw [hlen]; exact GetIndex_lt g c hc)]
          simp [hobs]
        · have hidx : GetIndex g a ≠ GetIndex g c :=
            fun h => hca (GetIndex_inj g a c ha hc h).symm
          rw [readAt_writeAt_ne _ _ _ _ hidx (GetIndex_nonneg g c hc)]
          simp [hca]
      · rw [h3, List.filter_cons_of_pos (by simpa using hobs)]
        simp
    · have hstep : seedStep g (d, q) a = (d, q) := by
        unfold seedStep
        exact if_neg hobs
      rw [hstep]
      obtain ⟨h1, h2, h3⟩ := ih ht d q hlen
      refine ⟨h1, ?_, ?_⟩
      · intro c hc
        rw [h2 c hc]
        by_cases hca : c = a
        · subst hca
          simp [hobs]
        · simp [hca]
      · rw [h3, List.filter_cons_of_neg (by simpa using hobs)]

theorem readAt_replicate_max (n : Nat) (i : Int) (h0 : 0 ≤ i) (h1 : i < n) :
    readAt (List.replicate n MAX_DISTANCE) i = MAX_DISTANCE := by
  have : i.toNat < n := by omega
  simp [readAt, h0, List.getD_eq_getElem?_getD, List.getElem?_replicate, this]

theorem seed_inv (g : Grid) (hok : CostFieldOk g) :
    BfsInv g
      ((scanCells g).foldl (seedStep g)
        (List.replicate (g.g_countX * g.g_countY * g.g_countZ).toNat MAX_DISTANCE, [])).1 0
      ((scanCells g).foldl (seedStep g)
        (List.replicate (g.g_countX * g.g_countY * g.g_countZ).toNat MAX_DISTANCE, [])).2 [] := by
  obtain ⟨hx, hy, hz, _⟩ := hok
  have hN : 0 < g.g_countX * g.g_countY * g.g_countZ := mul_pos (mul_pos hx hy) hz
  have hlen0 : ((List.replicate (g.g_countX * g.g_countY * g.g_countZ).toNat
      MAX_DISTANCE).length : Int) = g.g_countX * g.g_countY * g.g_countZ := by
    rw [List.length_replicate]
    omega
  obtain ⟨h1, h2, h3⟩ := seed_foldl g (scanCells g) (fun c hc => (mem_scanCells g c).mp hc)
    (List.replicate (g.g_countX * g.g_countY * g.g_countZ).toNat MAX_DISTANCE) [] hlen0
  have hread : ∀ c, IsValid g c = true →
      readAt ((scanCells g).foldl (seedStep g)
        (List.replicate (g.g_countX * g.g_countY * g.g_countZ).toNat MAX_DISTANCE, [])).1
        (GetIndex g c) = if costAt g c ≥ OBSTACLE_THRESHOLD then 0 else MAX_DISTANCE := by
    intro c hc
    rw [h2 c hc, readAt_replicate_max _ _ (GetIndex_nonneg g c hc)
      (by have := GetIndex_lt g c hc; omega)]
    simp [(mem_scanCells g c).mpr hc]
  have hmax : (0 : Int) ≠ MAX_DISTANCE := by decide
  refine ⟨h1, ?_, ?_, ?_, ?_, ?_, ?_, ?_⟩
  · intro c hc
    rw [h3] at hc
    simp only [List.nil_append, List.mem_filter, decide_eq_true_eq] at hc
    have hv := (mem_scanCells g c).mp hc.1
    exact ⟨hv, (nearest_zero_iff g c hv).mpr hc.2⟩
  · intro c hc
    simp at hc
  · intro c j hc hj
    rw [hread c hc]
    by_cases hobs : costAt g c ≥ OBSTACLE_THRESHOLD
    · left
      rw [if_pos hobs]
      exact nearest_unique g c 0 j ((nearest_zero_iff g c hc).mpr hobs) hj
    · right
      rw [if_neg hobs]
  · intro c j hc hj hle
    have hj0 : j = 0 := by
      have := (nearest_bounds g c j hc hj).1
      omega
    subst hj0
    rw [hread c hc, if_pos ((nearest_zero_iff g c hc).mp hj)]
    exact hmax
  · intro c j hc hj hle
    rw [hread c hc]
    by_cases hobs : costAt g c ≥ OBSTACLE_THRESHOLD
    · have := nearest_unique g c 0 j ((nearest_zero_iff g c hc).mpr hobs) hj
      omega
    · rw [if_neg hobs]
  · intro c hc hj hne
    rw [hread c hc] at hne
    by_cases hobs : costAt g c ≥ OBSTACLE_THRESHOLD
    · have := nearest_unique g c 0 (0 + 1) ((nearest_zero_iff g c hc).mpr hobs) hj
      omega
    · rw [if_neg hobs] at hne
      exact absurd rfl hne
  · intro c hc hj hnot
    exfalso
    apply hnot
    rw [h3]
    simp only [List.nil_append, List.mem_filter, decide_eq_true_eq]
    exact ⟨(mem_scanCells g c).mpr hc, (nearest_zero_iff g c hc).mp hj⟩

theorem count_writeAt_max (v : List Int) (i a : Int) (h0 : 0 ≤ i) (h1 : i < v.length)
    (hr : readAt v i = MAX_DISTANCE) (ha : a ≠ MAX_DISTANCE) :
    (writeAt v i a).count MAX_DISTANCE + 1 = v.count MAX_DISTANCE := by
  have hlt : i.toNat < v.length := by omega
  have hget : v[i.toNat] = MAX_DISTANCE := by
    simpa [readAt, h0, List.getD_eq_getElem?_getD, List.getElem?_eq_getElem hlt] using hr
  have hmem : MAX_DISTANCE ∈ v := by
    rw [← hget]
    exact List.getElem_mem hlt
  have hpos : 0 < v.count MAX_DISTANCE := List.count_pos_iff.mpr hmem
  unfold writeAt
  rw [if_pos h0, List.count_set _ _ _ _ hlt]
  simp only [hget, beq_self_eq_true, if_true, beq_iff_eq, ha, if_false]
  omega

theorem bfsVisit_inv (g : Grid) (hdim : g.g_countX + g.g_countY + g.g_countZ < 99999)
    (hobs : ∃ o, IsObstacle g o) (dist : List Int) (k : Int) (a : Vec3Int)
    (A B : List Vec3Int) (dir : Vec3Int) (hd : dir ∈ DIRECTIONS)
    (hinv : BfsInv g dist k (a :: A) B) :
    ∃ dist1 B1, bfsVisit g a k (dist, A ++ B) dir = (dist1, A ++ B1) ∧
      BfsInv g dist1 k (a :: A) B1 ∧
      (IsValid g (stepTo a dir) = true →
        readAt dist1 (GetIndex g (stepTo a dir)) ≠ MAX_DISTANCE) ∧
      (∀ c, IsValid g c = true → readAt dist (GetIndex g c) ≠ MAX_DISTANCE →
        readAt dist1 (GetIndex g c) ≠ MAX_DISTANCE) ∧
      2 * dist1.count MAX_DISTANCE + (A ++ B1).length ≤
        2 * dist.count MAX_DISTANCE + (A ++ B).length := by
  have hav : IsValid g a = true := (hinv.memA a (List.mem_cons_self a A)).1
  have hak : NearestObstacleDist g a k := (hinv.memA a (List.mem_cons_self a A)).2
  by_cases hcond : IsValid g (stepTo a dir) = true ∧
      readAt dist (GetIndex g (stepTo a dir)) = MAX_DISTANCE
  · obtain ⟨hnv, hnmax⟩ := hcond
    have hstep : bfsVisit g a k (dist, A ++ B) dir =
        (writeAt dist (GetIndex g (stepTo a dir)) (k + 1), A ++ (B ++ [stepTo a dir])) := by
      unfold bfsVisit
      have : (IsValid g (stepTo a dir) &&
          decide (readAt dist (GetIndex g (stepTo a dir)) = MAX_DISTANCE)) = true := by
        simp [hnv, hnmax]
      simp only [stepTo] at this
      simp only [this, if_true, stepTo, List.append_assoc]
    obtain ⟨j, hj⟩ := nearest_exists g hobs (stepTo a dir)
    have hjk : j = k + 1 := by
      have h1 := nearest_stepTo_le g a dir k j hd hak hj
      by_contra hne
      exact hinv.near (stepTo a dir) j hnv hj (by omega) hnmax
    subst hjk
    have hkmax : k + 1 ≠ MAX_DISTANCE := by
      have := (nearest_bounds g (stepTo a dir) (k + 1) hnv hj).2
      unfold MAX_DISTANCE
      omega
    have hi0 := GetIndex_nonneg g (stepTo a dir) hnv
    have hi1 : GetIndex g (stepTo a dir) < dist.length := by
      rw [hinv.len]
      exact GetIndex_lt g (stepTo a dir) hnv
    have hrd : ∀ c, IsValid g c = true → c ≠ stepTo a dir →
        readAt (writeAt dist (GetIndex g (stepTo a dir)) (k + 1)) (GetIndex g c) =
          readAt dist (GetIndex g c) := by
      intro c hc hne
      exact readAt_writeAt_ne _ _ _ _
        (fun h => hne (GetIndex_inj g (stepTo a dir) c hnv hc h).symm) (GetIndex_nonneg g c hc)
    have hself : readAt (writeAt dist (GetIndex g (stepTo a dir)) (k + 1))
        (GetIndex g (stepTo a dir)) = k + 1 := readAt_writeAt_self _ _ _ hi0 hi1
    have hmono : ∀ c, IsValid g c = true → readAt dist (GetIndex g c) ≠ MAX_DISTANCE →
        readAt (writeAt dist (GetIndex g (stepTo a dir)) (k + 1)) (GetIndex g c) ≠
          MAX_DISTANCE := by
      intro c hc hne
      by_cases hcn : c = stepTo a dir
      · subst hcn
        rw [hself]
        exact hkmax
      · rw [hrd c hc hcn]
        exact hne
    refine ⟨_, _, hstep, ?_, ?_, hmono, ?_⟩
    · refine ⟨by rw [length_writeAt]; exact hinv.len, hinv.memA, ?_, ?_, ?_, ?_, ?_, ?_⟩
      · intro c hc
        rcases List.mem_append.mp hc with h | h
        · exact hinv.memB c h
        · have : c = stepTo a dir := by simpa using h
          subst this
          exact ⟨hnv, hj⟩
      · intro c j hc hcj
        by_cases hcn : c = stepTo a dir
        · subst hcn
          left
          rw [hself]
          exact nearest_unique g _ _ _ hj hcj
        · rw [hrd c hc hcn]
          exact hinv.value c j hc hcj
      · intro c j hc hcj hle
        exact hmono c hc (hinv.near c j hc hcj hle)
      · intro c j hc hcj hle
        have hcn : c ≠ stepTo a dir := by
          intro h
          subst h
          have := nearest_unique g _ _ _ hj hcj
          omega
        rw [hrd c hc hcn]
        exact hinv.far c j hc hcj hle
      · intro c hc hcj hne
        by_cases hcn : c = stepTo a dir
        · subst hcn
          simp
        · rw [hrd c hc hcn] at hne
          exact List.mem_append_left _ (hinv.next c hc hcj hne)
      · intro c hc hcj hnot e he hev
        exact hmono _ hev (hinv.done c hc hcj hnot e he hev)
    · intro _
      rw [hself]
      exact hkmax
    · have := count_writeAt_max dist (GetIndex g (stepTo a dir)) (k + 1) hi0 hi1 hnmax hkmax
      simp only [List.length_append, List.length_cons, List.length_nil]
      omega
  · have hstep : bfsVisit g a k (dist, A ++ B) dir = (dist, A ++ B) := by
      unfold bfsVisit
      have : (IsValid g (stepTo a dir) &&
          decide (readAt dist (GetIndex g (stepTo a dir)) = MAX_DISTANCE)) = false := by
        rw [Bool.and_eq_false_iff]
        by_cases hv : IsValid g (stepTo a dir) = true
        · right
          simpa using fun h => hcond ⟨hv, h⟩
        · left
          simpa using hv
      simp only [stepTo] at this
      simp only [this, Bool.false_eq_true, if_false]
    refine ⟨dist, B, hstep, hinv, ?_, fun c _ h => h, le_refl _⟩
    intro hv hmax
    exact hcond ⟨hv, hmax⟩

theorem bfsVisit_foldl_inv (g : Grid) (hdim : g.g_countX + g.g_countY + g.g_countZ < 99999)
    (hobs : ∃ o, IsObstacle g o) (k : Int) (a : Vec3Int) (A : List Vec3Int)
    (ds : List Vec3Int) (hds : ∀ d ∈ ds, d ∈ DIRECTIONS) (dist : List Int) (B : List Vec3Int)
    (hinv : BfsInv g dist k (a :: A) B) :
    ∃ dist1 B1, ds.foldl (bfsVisit g a k) (dist, A ++ B) = (dist1, A ++ B1) ∧
      BfsInv g dist1 k (a :: A) B1 ∧
      (∀ d ∈ ds, IsValid g (stepTo a d) = true →
        readAt dist1 (GetIndex g (stepTo a d)) ≠ MAX_DISTANCE) ∧
      (∀ c, IsValid g c = true → readAt dist (GetIndex g c) ≠ MAX_DISTANCE →
        readAt dist1 (GetIndex g c) ≠ MAX_DISTANCE) ∧
      2 * dist1.count MAX_DISTANCE + (A ++ B1).length ≤
        2 * dist.count MAX_DISTANCE + (A ++ B).length := by
  induction ds generalizing dist B with
  | nil => exact ⟨dist, B, rfl, hinv, by simp, fun c _ h => h, le_refl _⟩
  | cons d t ih =>
    obtain ⟨dist1, B1, h1, hinv1, hvis1, hmono1, hmeas1⟩ :=
      bfsVisit_inv g hdim hobs dist k a A B d (hds d (List.mem_cons_self d t)) hinv
    obtain ⟨dist2, B2, h2, hinv2, hvis2, hmono2, hmeas2⟩ :=
      ih (fun e he => hds e (List.mem_cons_of_mem d he)) dist1 B1 hinv1
    refine ⟨dist2, B2, by rw [List.foldl_cons, h1, h2], hinv2, ?_,
      fun c hc h => hmono2 c hc (hmono1 c hc h), le_trans hmeas2 hmeas1⟩
    intro e he hev
    rcases List.mem_cons.mp he with h | h
    · subst h
      exact hmono2 _ hev (hvis1 hev)
    · exact hvis2 e h hev

theorem bfsInv_pop (g : Grid) (dist : List Int) (k : Int) (a : Vec3Int) (A B : List Vec3Int)
    (hinv : BfsInv g dist k (a :: A) B)
    (hvis : ∀ d ∈ DIRECTIONS, IsValid g (stepTo a d) = true →
      readAt dist (GetIndex g (stepTo a d)) ≠ MAX_DISTANCE) :
    BfsInv g dist k A B := by
  refine ⟨hinv.len, fun c hc => hinv.memA c (List.mem_cons_of_mem a hc), hinv.memB, hinv.value,
    hinv.near, hinv.far, hinv.next, ?_⟩
  intro c hc hck hnot d hd hdv
  by_cases hca : c = a
  · subst hca
    exact hvis d hd hdv
  · exact hinv.done c hc hck (by simp [hca, hnot]) d hd hdv

theorem bfsInv_near_next (g : Grid) (dist : List Int) (k : Int) (hk : 0 ≤ k)
    (B : List Vec3Int) (hinv : BfsInv g dist k [] B) (c : Vec3Int) (hc : IsValid g c = true)
    (hck : NearestObstacleDist g c (k + 1)) :
    readAt dist (GetIndex g c) ≠ MAX_DISTANCE := by
  obtain ⟨n, dir, hd, hn, hstep, hnk, _⟩ := nearest_descent g c k hk hc hck
  have := hinv.done n hn hnk (by simp) dir hd (by rw [hstep]; exact hc)
  rwa [hstep] at this

theorem bfsInv_shift (g : Grid) (dist : List Int) (k : Int) (hk : 0 ≤ k) (B : List Vec3Int)
    (hinv : BfsInv g dist k [] B) : BfsInv g dist (k + 1) B [] := by
  refine ⟨hinv.len, hinv.memB, by simp, hinv.value, ?_, ?_, ?_, ?_⟩
  · intro c j hc hcj hle
    by_cases hjk : j ≤ k
    · exact hinv.near c j hc hcj hjk
    · have : j = k + 1 := by omega
      subst this
      exact bfsInv_near_next g dist k hk B hinv c hc hcj
  · intro c j hc hcj hle
    exact hinv.far c j hc hcj (by omega)
  · intro c hc hcj hne
    exact absurd (hinv.far c (k + 1 + 1) hc hcj (by omega)) hne
  · intro c hc hcj hnot
    exact absurd (hinv.next c hc hcj (bfsInv_near_next g dist k hk B hinv c hc hcj)) hnot

theorem bfsInv_final (g : Grid) (hobs : ∃ o, IsObstacle g o) (dist : List Int) (k : Int)
    (hk : 0 ≤ k) (hinv : BfsInv g dist k [] []) (c : Vec3Int) (hc : IsValid g c = true) :
    NearestObstacleDist g c (readAt dist (GetIndex g c)) := by
  obtain ⟨j, hj⟩ := nearest_exists g hobs c
  have hjk : j ≤ k := by
    by_contra hgt
    have hsplit : j = (k + 1) + ((j - (k + 1)).toNat : Int) := by omega
    rw [hsplit] at hj
    obtain ⟨n, hn, hnk⟩ := nearest_descent_to g (j - (k + 1)).toNat (k + 1) (by omega) c hc hj
    have hvis := bfsInv_near_next g dist k hk [] hinv n hn hnk
    have := hinv.next n hn hnk hvis
    simp at this
  rcases hinv.value c j hc hj with h | h
  · rw [h]
    exact hj
  · exact absurd h (hinv.near c j hc hj hjk)

theorem bfsLoop_correct (g : Grid) (hdim : g.g_countX + g.g_countY + g.g_countZ < 99999)
    (hobs : ∃ o, IsObstacle g o) (fuel : Nat) :
    ∀ (dist : List Int) (k : Int) (A B : List Vec3Int), 0 ≤ k → BfsInv g dist k A B →
      2 * dist.count MAX_DISTANCE + (A ++ B).length ≤ fuel →
      ∃ dist1, bfsLoop g fuel dist (A ++ B) = some dist1 ∧
        (dist1.length : Int) = g.g_countX * g.g_countY * g.g_countZ ∧
        ∀ c, IsValid g c = true → NearestObstacleDist g c (readAt dist1 (GetIndex g c)) := by
  have start : ∀ (fuel : Nat)
      (_ : ∀ (dist : List Int) (k : Int) (A B : List Vec3Int), 0 ≤ k → BfsInv g dist k A B →
        2 * dist.count MAX_DISTANCE + (A ++ B).length ≤ fuel →
        ∃ dist1, bfsLoop g fuel dist (A ++ B) = some dist1 ∧
          (dist1.length : Int) = g.g_countX * g.g_countY * g.g_countZ ∧
          ∀ c, IsValid g c = true → NearestObstacleDist g c (readAt dist1 (GetIndex g c)))
      (dist : List Int) (k : Int) (a : Vec3Int) (A B : List Vec3Int), 0 ≤ k →
      BfsInv g dist k (a :: A) B →
      2 * dist.count MAX_DISTANCE + (a :: (A ++ B)).length ≤ fuel + 1 →
      ∃ dist1, bfsLoop g (fuel + 1) dist (a :: (A ++ B)) = some dist1 ∧
        (dist1.length : Int) = g.g_countX * g.g_countY * g.g_countZ ∧
        ∀ c, IsValid g c = true → NearestObstacleDist g c (readAt dist1 (GetIndex g c)) := by
    intro fuel ih dist k a A B hk hinv hmeas
    have hav : IsValid g a = true := (hinv.memA a (List.mem_cons_self a A)).1
    have hak : NearestObstacleDist g a k := (hinv.memA a (List.mem_cons_self a A)).2
    have hcur : readAt dist (GetIndex g a) = k := by
      rcases hinv.value a k hav hak with h | h
      · exact h
      · exact absurd h (hinv.near a k hav hak (le_refl k))
    obtain ⟨dist1, B1, hfold, hinv1, hvis, _, hmeas1⟩ :=
      bfsVisit_foldl_inv g hdim hobs k a A DIRECTIONS (fun d hd => hd) dist B hinv
    have hinv2 := bfsInv_pop g dist1 k a A B1 hinv1 hvis
    obtain ⟨dist2, h2, hlen2, hfin2⟩ := ih dist1 k A B1 hk hinv2 (by
      simp only [List.length_cons] at hmeas
      omega)
    refine ⟨dist2, ?_, hlen2, hfin2⟩
    simp only [bfsLoop, hcur, hfold]
    exact h2
  induction fuel with
  | zero =>
    intro dist k A B hk hinv hmeas
    have hnil : A ++ B = [] := List.eq_nil_of_length_eq_zero (by omega)
    obtain ⟨hA, hB⟩ := List.append_eq_nil.mp hnil
    subst hA
    subst hB
    exact ⟨dist, by simp [bfsLoop], hinv.len, bfsInv_final g hobs dist k hk hinv⟩
  | succ fuel ih =>
    intro dist k A B hk hinv hmeas
    cases A with
    | nil =>
      cases B with
      | nil => exact ⟨dist, by simp [bfsLoop], hinv.len, bfsInv_final g hobs dist k hk hinv⟩
      | cons b B =>
        have hshift := bfsInv_shift g dist k hk (b :: B) hinv
        have := start fuel ih dist (k + 1) b B [] (by omega) hshift (by simpa using hmeas)
        simpa using this
    | cons a A => exact start fuel ih dist k a A B hk hinv hmeas

theorem OnLattice.nonneg {D : Nat} {x : ℚ} (h : OnLattice D x) : 0 ≤ x := by
  obtain ⟨k, rfl⟩ := h
  positivity

theorem OnLattice.add {D : Nat} {x y : ℚ} (hx : OnLattice D x) (hy : OnLattice D y) :
    OnLattice D (x + y) := by
  obtain ⟨k, rfl⟩ := hx
  obtain ⟨m, rfl⟩ := hy
  exact ⟨k + m, by push_cast; ring⟩

theorem OnLattice.nat_mul {D : Nat} {x : ℚ} (m : Nat) (hx : OnLattice D x) :
    OnLattice D ((m : ℚ) * x) := by
  obtain ⟨k, rfl⟩ := hx
  exact ⟨m * k, by push_cast; ring⟩

theorem OnLattice.zero (D : Nat) : OnLattice D 0 :=
  ⟨0, by simp⟩

theorem OnLattice.of_nat {D : Nat} (hD : 0 < D) (m : Nat) : OnLattice D (m : ℚ) := by
  refine ⟨m * D, ?_⟩
  have : (D : ℚ) ≠ 0 := by positivity
  push_cast
  field_simp

theorem OnLattice.of_int {D : Nat} (hD : 0 < D) (a : Int) (ha : 0 ≤ a) : OnLattice D (a : ℚ) := by
  have h := OnLattice.of_nat hD a.toNat
  have : ((a.toNat : Nat) : ℚ) = (a : ℚ) := by
    have := Int.toNat_of_nonneg ha
    exact_mod_cast this
  rwa [this] at h

theorem OnLattice.of_weight {D : Nat} (w : ℚ) (hw : 0 ≤ w) (hdvd : w.den ∣ D) (hD : 0 < D) :
    OnLattice D w := by
  obtain ⟨c, rfl⟩ := hdvd
  refine ⟨w.num.toNat * c, ?_⟩
  have hnum : ((w.num.toNat : Nat) : ℚ) = (w.num : ℚ) := by
    have := Int.toNat_of_nonneg (Rat.num_nonneg.mpr hw)
    exact_mod_cast this
  have hden : (w.den : ℚ) ≠ 0 := by exact_mod_cast w.den_nz
  have hc : (c : ℚ) ≠ 0 := by
    intro h
    have : c = 0 := by exact_mod_cast h
    subst this
    simp at hD
  push_cast
  rw [hnum]
  conv_lhs => rw [← Rat.num_div_den w]
  field_simp
  ring

theorem OnLattice.abs_int_sub {D : Nat} (hD : 0 < D) (a b : Int) :
    OnLattice D |(a : ℚ) - (b : ℚ)| := by
  have h := OnLattice.of_nat hD (a - b).natAbs
  have : (((a - b).natAbs : Nat) : ℚ) = |(a : ℚ) - (b : ℚ)| := by
    rw [Int.cast_natAbs]
    push_cast
    rfl
  rwa [this] at h

theorem OnLattice.floor_mul {D : Nat} (hD : 0 < D) {x y : ℚ} (hx : OnLattice D x)
    (hy : OnLattice D y) (hlt : x < y) :
    (Int.floor (x * (D : ℚ))).toNat < (Int.floor (y * (D : ℚ))).toNat := by
  obtain ⟨k, rfl⟩ := hx
  obtain ⟨m, rfl⟩ := hy
  have hDq : (0 : ℚ) < (D : ℚ) := by exact_mod_cast hD
  have hk : (k : ℚ) / D * D = ((k : Int) : ℚ) := by
    field_simp
  have hm : (m : ℚ) / D * D = ((m : Int) : ℚ) := by
    field_simp
  rw [hk, hm, Int.floor_intCast, Int.floor_intCast]
  have : (k : ℚ) < (m : ℚ) := by
    have := (div_lt_div_iff_of_pos_right hDq).mp hlt
    exact this
  have : k < m := by exact_mod_cast this
  simpa using this

theorem weightDen_pos (P : SearchParams) : 0 < weightDen P := by
  unfold weightDen
  have h1 := P.w_path.den_pos
  have h2 := P.w_bend.den_pos
  have h3 := P.w_energy.den_pos
  have h4 := P.w_proximity.den_pos
  positivity

theorem readAt_nonneg (v : List Int) (hv : ∀ x ∈ v, 0 ≤ x) (i : Int) : 0 ≤ readAt v i := by
  unfold readAt
  split
  · rw [List.getD_eq_getElem?_getD]
    cases h : v[i.toNat]? with
    | none => simp
    | some a =>
      simp only [Option.getD_some]
      exact hv a (List.getElem?_mem h)
  · exact le_refl 0

/-! ## One relaxation step -/

theorem expandStep_eq (Q : OpenSetQueue) (g : Grid) (P : SearchParams) (e cur : Vec3Int)
    (st : SearchState) (i : Nat) :
    expandStep Q g P e cur st i =
      match st.allNodes cur with
      | none => st
      | some cn =>
        if !IsValid g (stepTo cn.pos (directionAt i)) then st
        else if (match st.allNodes (stepTo cn.pos (directionAt i)) with
            | none => true
            | some old => decide ((relaxedNode g P e cur cn i).gCost < old.gCost)) then
          ⟨Q.push st.openSet (relaxedNode g P e cur cn i),
            Function.update st.allNodes (stepTo cn.pos (directionAt i))
              (some (relaxedNode g P e cur cn i))⟩
        else st := rfl

theorem relaxedNode_gCost (g : Grid) (P : SearchParams) (e cur : Vec3Int) (cn : Node) (i : Nat)
    (hw : 0 ≤ P.w_path ∧ 0 ≤ P.w_bend ∧ 0 ≤ P.w_energy ∧ 0 ≤ P.w_proximity)
    (hcost : ∀ x ∈ g.g_costGrid, 0 ≤ x) :
    ∃ c, OnLattice (weightDen P) c ∧ (relaxedNode g P e cur cn i).gCost = cn.gCost + c := by
  obtain ⟨hw1, hw2, hw3, hw4⟩ := hw
  have hD := weightDen_pos P
  have hp : OnLattice (weightDen P) P.w_path :=
    OnLattice.of_weight _ hw1 ⟨P.w_bend.den * P.w_energy.den * P.w_proximity.den, by
      unfold weightDen; ring⟩ hD
  have hb : OnLattice (weightDen P) P.w_bend :=
    OnLattice.of_weight _ hw2 ⟨P.w_path.den * P.w_energy.den * P.w_proximity.den, by
      unfold weightDen; ring⟩ hD
  have hb10 : OnLattice (weightDen P) (P.w_bend * 10) := by
    have := OnLattice.nat_mul 10 hb
    rwa [mul_comm] at this
  have hen : OnLattice (weightDen P) P.w_energy :=
    OnLattice.of_weight _ hw3 ⟨P.w_path.den * P.w_bend.den * P.w_proximity.den, by
      unfold weightDen; ring⟩ hD
  have hpr : OnLattice (weightDen P) P.w_proximity :=
    OnLattice.of_weight _ hw4 ⟨P.w_path.den * P.w_bend.den * P.w_energy.den, by
      unfold weightDen; ring⟩ hD
  have hbig : OnLattice (weightDen P) (10000 : ℚ) := by
    have := OnLattice.of_nat hD 10000
    exact_mod_cast this
  have hprox : ∀ a b : Int, OnLattice (weightDen P) (|(a : ℚ) - (b : ℚ)| * P.w_proximity) := by
    intro a b
    have h2 : (((a - b).natAbs : Nat) : ℚ) = |(a : ℚ) - (b : ℚ)| := by
      rw [Int.cast_natAbs]
      push_cast
      rfl
    have := OnLattice.nat_mul (a - b).natAbs hpr
    rwa [h2] at this
  have hcell : ∀ j : Int, OnLattice (weightDen P) ((readAt g.g_costGrid j : Int) : ℚ) :=
    fun j => OnLattice.of_int hD _ (readAt_nonneg _ hcost j)
  refine ⟨_, ?_, add_assoc _ _ _⟩
  refine OnLattice.add (OnLattice.add ?_ (hprox _ _)) (hcell _)
  have h1 : OnLattice (weightDen P)
      (if (directionAt i).z ≠ 0 then P.w_path + P.w_energy else P.w_path) := by
    split
    · exact OnLattice.add hp hen
    · exact hp
  have h2 : OnLattice (weightDen P)
      (if !IsSpaceAvailable g ⟨cn.pos.x + (directionAt i).x, cn.pos.y + (directionAt i).y,
          cn.pos.z + (directionAt i).z⟩ P.pipeRadius P.clearance then
        (if (directionAt i).z ≠ 0 then P.w_path + P.w_energy else P.w_path) + 10000
      else (if (directionAt i).z ≠ 0 then P.w_path + P.w_energy else P.w_path)) := by
    split
    · exact OnLattice.add h1 hbig
    · exact h1
  show OnLattice (weightDen P) (if _ then (if _ then _ + P.w_bend * 10 else _ + P.w_bend) else _)
  split
  · split
    · exact OnLattice.add h2 hb10
    · exact OnLattice.add h2 hb
  · exact h2

theorem expandStep_spec (Q : OpenSetQueue) (g : Grid) (P : SearchParams) (e cur : Vec3Int)
    (st : SearchState) (i : Nat) (cn : Node)
    (hw : 0 ≤ P.w_path ∧ 0 ≤ P.w_bend ∧ 0 ≤ P.w_energy ∧ 0 ≤ P.w_proximity)
    (hcost : ∀ x ∈ g.g_costGrid, 0 ≤ x)
    (hcn : st.allNodes cur = some cn) :
    (expandStep Q g P e cur st i = st ∧
      (IsValid g (stepTo cn.pos (directionAt i)) = true →
        ∃ m, st.allNodes (stepTo cn.pos (directionAt i)) = some m)) ∨
    (IsValid g (stepTo cn.pos (directionAt i)) = true ∧ ∃ nn : Node,
      nn.pos = stepTo cn.pos (directionAt i) ∧ nn.parent = some cur ∧
      (∃ c, OnLattice (weightDen P) c ∧ nn.gCost = cn.gCost + c) ∧
      (∀ old, st.allNodes (stepTo cn.pos (directionAt i)) = some old → nn.gCost < old.gCost) ∧
      expandStep Q g P e cur st i =
        ⟨Q.push st.openSet nn,
          Function.update st.allNodes (stepTo cn.pos (directionAt i)) (some nn)⟩) := by
  rw [expandStep_eq]
  simp only [hcn]
  by_cases hv : IsValid g (stepTo cn.pos (directionAt i)) = true
  · simp only [hv, Bool.not_true, Bool.false_eq_true, if_false]
    cases hN : st.allNodes (stepTo cn.pos (directionAt i)) with
    | none =>
      right
      refine ⟨trivial, relaxedNode g P e cur cn i, rfl, rfl,
        relaxedNode_gCost g P e cur cn i hw hcost, fun old hold => absurd hold (by simp), ?_⟩
      simp
    | some old =>
      by_cases hlt : (relaxedNode g P e cur cn i).gCost < old.gCost
      · right
        refine ⟨trivial, relaxedNode g P e cur cn i, rfl, rfl,
          relaxedNode_gCost g P e cur cn i hw hcost, ?_, ?_⟩
        · intro old1 hold1
          simp only [Option.some.injEq] at hold1
          subst hold1
          exact hlt
        · simp [hlt]
      · left
        refine ⟨by simp [hlt], fun _ => ⟨old, rfl⟩⟩
  · left
    have hv1 : IsValid g (stepTo cn.pos (directionAt i)) = false := by simpa using hv
    refine ⟨by simp [hv1], fun h => absurd h hv⟩

/-! ## Directions -/

theorem directionAt_mem (i : Nat) (hi : i < 6) : directionAt i ∈ DIRECTIONS := by
  have : i = 0 ∨ i = 1 ∨ i = 2 ∨ i = 3 ∨ i = 4 ∨ i = 5 := by omega
  rcases this with h | h | h | h | h | h <;> subst h <;> decide

theorem exists_directionAt (dir : Vec3Int) (hd : dir ∈ DIRECTIONS) :
    ∃ i ∈ List.range 6, directionAt i = dir := by
  simp only [DIRECTIONS, List.mem_cons, List.mem_singleton, List.not_mem_nil, or_false] at hd
  rcases hd with h | h | h | h | h | h <;> subst h
  · exact ⟨0, by decide, rfl⟩
  · exact ⟨1, by decide, rfl⟩
  · exact ⟨2, by decide, rfl⟩
  · exact ⟨3, by decide, rfl⟩
  · exact ⟨4, by decide, rfl⟩
  · exact ⟨5, by decide, rfl⟩

theorem stepTo_ne (c dir : Vec3Int) (hd : dir ∈ DIRECTIONS) : stepTo c dir ≠ c := by
  simp only [DIRECTIONS, List.mem_cons, List.mem_singleton, List.not_mem_nil, or_false] at hd
  intro h
  have hx := congrArg Vec3Int.x h
  have hy := congrArg Vec3Int.y h
  have hz := congrArg Vec3Int.z h
  simp only [stepTo] at hx hy hz
  rcases hd with h | h | h | h | h | h <;> subst h <;> simp at hx hy hz

/-! ## The measure of the search -/

theorem unvisitedCount_update_new (g : Grid) (N : Vec3Int → Option Node) (nb : Vec3Int)
    (nn : Node) (hv : IsValid g nb = true) (hN : N nb = none) :
    unvisitedCount g (Function.update N nb (some nn)) < unvisitedCount g N := by
  unfold unvisitedCount
  apply List.sum_lt_sum
  · intro c _
    by_cases hc : c = nb
    · subst hc
      simp [hN]
    · simp [Function.update_noteq hc]
  · exact ⟨nb, (mem_scanCells g nb).mpr hv, by simp [hN]⟩

theorem unvisitedCount_update_old (g : Grid) (N : Vec3Int → Option Node) (nb : Vec3Int)
    (nn old : Node) (hN : N nb = some old) :
    unvisitedCount g (Function.update N nb (some nn)) = unvisitedCount g N := by
  unfold unvisitedCount
  congr 1
  apply List.map_congr_left
  intro c _
  by_cases hc : c = nb
  · subst hc
    simp [hN]
  · simp [Function.update_noteq hc]

theorem costSum_update_old (g : Grid) (D : Nat) (hD : 0 < D) (N : Vec3Int → Option Node)
    (nb : Vec3Int) (nn old : Node) (hv : IsValid g nb = true) (hN : N nb = some old)
    (hnn : OnLattice D nn.gCost) (hold : OnLattice D old.gCost) (hlt : nn.gCost < old.gCost) :
    costSum g D (Function.update N nb (some nn)) < costSum g D N := by
  unfold costSum
  apply List.sum_lt_sum
  · intro c _
    by_cases hc : c = nb
    · subst hc
      simp only [Function.update_same, hN]
      exact le_of_lt (OnLattice.floor_mul hD hnn hold hlt)
    · simp [Function.update_noteq hc]
  · refine ⟨nb, (mem_scanCells g nb).mpr hv, ?_⟩
    simp only [Function.update_same, hN]
    exact OnLattice.floor_mul hD hnn hold hlt

theorem searchMeasure_update (g : Grid) (D : Nat) (hD : 0 < D) (N : Vec3Int → Option Node)
    (nb : Vec3Int) (nn : Node) (hv : IsValid g nb = true) (hnn : OnLattice D nn.gCost)
    (hold : ∀ old, N nb = some old → OnLattice D old.gCost ∧ nn.gCost < old.gCost) :
    searchMeasure g D (Function.update N nb (some nn)) < searchMeasure g D N := by
  unfold searchMeasure
  rw [Prod.Lex.lt_iff]
  cases hN : N nb with
  | none => exact Or.inl (unvisitedCount_update_new g N nb nn hv hN)
  | some old =>
    exact Or.inr ⟨unvisitedCount_update_old g N nb nn old hN,
      costSum_update_old g D hD N nb nn old hv hN hnn (hold old hN).1 (hold old hN).2⟩

/-! ## Parent chains -/

theorem parentChain_update_low (N : Vec3Int → Option Node) (s nb : Vec3Int) (nn : Node)
    (hle : ∀ p n q, N p = some n → n.parent = some q → ∃ m, N q = some m ∧ m.gCost ≤ n.gCost)
    (hlt : ∀ old, N nb = some old → nn.gCost < old.gCost)
    (p : Vec3Int) (l : List Vec3Int) (hc : ParentChain N s p l) :
    (∀ n, N p = some n → n.gCost ≤ nn.gCost) →
      ParentChain (Function.update N nb (some nn)) s p l := by
  induction hc with
  | root n hn hpar =>
    intro hlow
    have hne : s ≠ nb := by
      intro h
      subst h
      exact absurd (hlt n hn) (not_lt.mpr (hlow n hn))
    exact ParentChain.root n (by rw [Function.update_noteq hne]; exact hn) hpar
  | link p q n l hn hpar _ ih =>
    intro hlow
    have hne : p ≠ nb := by
      intro h
      subst h
      exact absurd (hlt n hn) (not_lt.mpr (hlow n hn))
    obtain ⟨m, hm, hmle⟩ := hle p n q hn hpar
    have hq : ∀ n1, N q = some n1 → n1.gCost ≤ nn.gCost := by
      intro n1 hn1
      rw [hm] at hn1
      simp only [Option.some.injEq] at hn1
      subst hn1
      exact le_trans hmle (hlow n hn)
    exact ParentChain.link p q n l (by rw [Function.update_noteq hne]; exact hn) hpar (ih hq)

theorem parentChain_update (N : Vec3Int → Option Node) (s nb : Vec3Int) (nn : Node)
    (hnew : ∃ l, ParentChain (Function.update N nb (some nn)) s nb l)
    (p : Vec3Int) (l : List Vec3Int) (hc : ParentChain N s p l) :
    ∃ l1, ParentChain (Function.update N nb (some nn)) s p l1 := by
  induction hc with
  | root n hn hpar =>
    by_cases hne : s = nb
    · subst hne
      exact hnew
    · exact ⟨[s], ParentChain.root n (by rw [Function.update_noteq hne]; exact hn) hpar⟩
  | link p q n l hn hpar _ ih =>
    by_cases hne : p = nb
    · subst hne
      exact hnew
    · obtain ⟨l1, hl1⟩ := ih
      exact ⟨p :: l1,
        ParentChain.link p q n l1 (by rw [Function.update_noteq hne]; exact hn) hpar hl1⟩

/-! ## The invariant of the search loop -/

theorem expandStep_inv (Q : OpenSetQueue) (hQ : Q.IsBag) (g : Grid) (P : SearchParams)
    (s e cur : Vec3Int) (st : SearchState) (i : Nat) (cn : Node) (hi : i < 6)
    (hw : 0 ≤ P.w_path ∧ 0 ≤ P.w_bend ∧ 0 ≤ P.w_energy ∧ 0 ≤ P.w_proximity)
    (hcost : ∀ x ∈ g.g_costGrid, 0 ≤ x)
    (hinv : SearchInv g (weightDen P) s e (some cur) st) (hcn : st.allNodes cur = some cn) :
    SearchInv g (weightDen P) s e (some cur) (expandStep Q g P e cur st i) ∧
    (expandStep Q g P e cur st i).allNodes cur = some cn ∧
    (IsValid g (stepTo cur (directionAt i)) = true →
      ∃ m, (expandStep Q g P e cur st i).allNodes (stepTo cur (directionAt i)) = some m) ∧
    (∀ p m, st.allNodes p = some m → ∃ m1, (expandStep Q g P e cur st i).allNodes p = some m1) ∧
    (expandStep Q g P e cur st i = st ∨
      searchMeasure g (weightDen P) (expandStep Q g P e cur st i).allNodes <
        searchMeasure g (weightDen P) st.allNodes) := by
  have hpos : cn.pos = cur := (hinv.key cur cn hcn).1
  rcases expandStep_spec Q g P e cur st i cn hw hcost hcn with
    ⟨heq, hvis⟩ | ⟨hv, nn, hnnpos, hnnpar, ⟨c, hc, hg⟩, hlt, heq⟩
  · rw [heq]
    rw [hpos] at hvis
    exact ⟨hinv, hcn, hvis, fun p m h => ⟨m, h⟩, Or.inl rfl⟩
  · rw [heq]
    rw [hpos] at hv hnnpos hlt
    rw [hpos]
    have hne : stepTo cur (directionAt i) ≠ cur := stepTo_ne cur _ (directionAt_mem i hi)
    have hcle : cn.gCost ≤ nn.gCost := by
      rw [hg]
      linarith [hc.nonneg]
    have hnnlat : OnLattice (weightDen P) nn.gCost := by
      rw [hg]
      exact OnLattice.add (hinv.lattice cur cn hcn) hc
    have hoth : ∀ p, p ≠ stepTo cur (directionAt i) →
        Function.update st.allNodes (stepTo cur (directionAt i)) (some nn) p = st.allNodes p :=
      fun p h => Function.update_noteq h _ _
    have hnb : Function.update st.allNodes (stepTo cur (directionAt i)) (some nn)
        (stepTo cur (directionAt i)) = some nn := Function.update_same _ _ _
    have hpush : ∀ x, x ∈ Q.push st.openSet nn ↔ x = nn ∨ x ∈ st.openSet := by
      intro x
      rw [(hQ.push_perm st.openSet nn).mem_iff, List.mem_cons]
    have hsne : s ≠ stepTo cur (directionAt i) := by
      obtain ⟨n0, h0, _, hg0⟩ := hinv.start
      intro h
      rw [h] at h0
      have := hlt n0 h0
      linarith [hnnlat.nonneg]
    have hnew : ∃ l, ParentChain
        (Function.update st.allNodes (stepTo cur (directionAt i)) (some nn)) s
        (stepTo cur (directionAt i)) l := by
      obtain ⟨lc, hlc⟩ := hinv.chain cur cn hcn
      have := parentChain_update_low st.allNodes s (stepTo cur (directionAt i)) nn
        (fun p n q hn hpar => (hinv.parent_le p n q hn hpar).1) hlt cur lc hlc
        (fun n hn => by
          rw [hcn] at hn
          simp only [Option.some.injEq] at hn
          subst hn
          exact hcle)
      exact ⟨_ :: lc, ParentChain.link _ cur nn lc hnb hnnpar this⟩
    refine ⟨⟨?_, ?_, ?_, ?_, ?_, ?_, ?_⟩, ?_, fun _ => ⟨nn, hnb⟩, ?_, Or.inr ?_⟩
    all_goals dsimp only
    · intro p n hn
      by_cases hp : p = stepTo cur (directionAt i)
      · rw [hp, hnb] at hn
        simp only [Option.some.injEq] at hn
        subst hn
        rw [hp]
        exact ⟨hnnpos, hv⟩
      · rw [hoth p hp] at hn
        exact hinv.key p n hn
    · intro x hx
      rcases (hpush x).mp hx with h | h
      · subst h
        exact ⟨x, by rw [hnnpos]; exact hnb⟩
      · obtain ⟨n, hn⟩ := hinv.queued x h
        by_cases hp : x.pos = stepTo cur (directionAt i)
        · exact ⟨nn, by rw [hp]; exact hnb⟩
        · exact ⟨n, by rw [hoth _ hp]; exact hn⟩
    · obtain ⟨n0, h0, hpar0, hg0⟩ := hinv.start
      exact ⟨n0, by rw [hoth s hsne]; exact h0, hpar0, hg0⟩
    · intro p n hn
      by_cases hp : p = stepTo cur (directionAt i)
      · rw [hp, hnb] at hn
        simp only [Option.some.injEq] at hn
        subst hn
        exact hnnlat
      · rw [hoth p hp] at hn
        exact hinv.lattice p n hn
    · intro p n q hn hpar
      by_cases hp : p = stepTo cur (directionAt i)
      · rw [hp, hnb] at hn
        simp only [Option.some.injEq] at hn
        subst hn
        rw [hnnpar] at hpar
        simp only [Option.some.injEq] at hpar
        subst hpar
        exact ⟨⟨cn, by rw [hoth _ hne.symm]; exact hcn, hcle⟩,
          directionAt i, directionAt_mem i hi, hp.symm⟩
      · rw [hoth p hp] at hn
        obtain ⟨⟨m, hm, hmle⟩, hadj⟩ := hinv.parent_le p n q hn hpar
        refine ⟨?_, hadj⟩
        by_cases hq : q = stepTo cur (directionAt i)
        · rw [hq] at hm
          exact ⟨nn, by rw [hq]; exact hnb, le_trans (le_of_lt (hlt m hm)) hmle⟩
        · exact ⟨m, by rw [hoth q hq]; exact hm, hmle⟩
    · intro p n hn
      by_cases hp : p = stepTo cur (directionAt i)
      · rw [hp]
        exact hnew
      · rw [hoth p hp] at hn
        obtain ⟨l, hl⟩ := hinv.chain p n hn
        exact parentChain_update st.allNodes s _ nn hnew p l hl
    · intro p n hn
      by_cases hp : p = stepTo cur (directionAt i)
      · rw [hp, hnb] at hn
        simp only [Option.some.injEq] at hn
        subst hn
        exact Or.inr (Or.inl ⟨nn, (hpush nn).mpr (Or.inl rfl), hnnpos.trans hp.symm, rfl⟩)
      · rw [hoth p hp] at hn
        rcases hinv.pending p n hn with h | ⟨x, hx, hxp, hxg⟩ | ⟨hpe, hcl⟩
        · exact Or.inl h
        · exact Or.inr (Or.inl ⟨x, (hpush x).mpr (Or.inr hx), hxp, hxg⟩)
        · refine Or.inr (Or.inr ⟨hpe, ?_⟩)
          intro dir hd hdv
          obtain ⟨m, hm⟩ := hcl dir hd hdv
          by_cases hq : stepTo p dir = stepTo cur (directionAt i)
          · exact ⟨nn, by rw [hq]; exact hnb⟩
          · exact ⟨m, by rw [hoth _ hq]; exact hm⟩
    · rw [hoth _ hne.symm]
      exact hcn
    · intro p m hm
      by_cases hp : p = stepTo cur (directionAt i)
      · exact ⟨nn, by rw [hp]; exact hnb⟩
      · exact ⟨m, by rw [hoth p hp]; exact hm⟩
    · exact searchMeasure_update g (weightDen P) (weightDen_pos P) st.allNodes _ nn hv hnnlat
        (fun old hold => ⟨hinv.lattice _ old hold, hlt old hold⟩)

theorem expandFold_inv (Q : OpenSetQueue) (hQ : Q.IsBag) (g : Grid) (P : SearchParams)
    (s e cur : Vec3Int) (cn : Node)
    (hw : 0 ≤ P.w_path ∧ 0 ≤ P.w_bend ∧ 0 ≤ P.w_energy ∧ 0 ≤ P.w_proximity)
    (hcost : ∀ x ∈ g.g_costGrid, 0 ≤ x) (is : List Nat) (his : ∀ i ∈ is, i < 6)
    (st : SearchState) (hinv : SearchInv g (weightDen P) s e (some cur) st)
    (hcn : st.allNodes cur = some cn) :
    SearchInv g (weightDen P) s e (some cur) (is.foldl (expandStep Q g P e cur) st) ∧
    (is.foldl (expandStep Q g P e cur) st).allNodes cur = some cn ∧
    (∀ i ∈ is, IsValid g (stepTo cur (directionAt i)) = true →
      ∃ m, (is.foldl (expandStep Q g P e cur) st).allNodes (stepTo cur (directionAt i)) =
        some m) ∧
    (∀ p m, st.allNodes p = some m →
      ∃ m1, (is.foldl (expandStep Q g P e cur) st).allNodes p = some m1) ∧
    (is.foldl (expandStep Q g P e cur) st = st ∨
      searchMeasure g (weightDen P) (is.foldl (expandStep Q g P e cur) st).allNodes <
        searchMeasure g (weightDen P) st.allNodes) := by
  induction is generalizing st with
  | nil => exact ⟨hinv, hcn, by simp, fun p m h => ⟨m, h⟩, Or.inl rfl⟩
  | cons i t ih =>
    obtain ⟨h1, h2, h3, h4, h5⟩ := expandStep_inv Q hQ g P s e cur st i cn
      (his i (List.mem_cons_self i t)) hw hcost hinv hcn
    obtain ⟨k1, k2, k3, k4, k5⟩ := ih (fun j hj => his j (List.mem_cons_of_mem i hj))
      (expandStep Q g P e cur st i) h1 h2
    rw [List.foldl_cons]
    refine ⟨k1, k2, ?_, ?_, ?_⟩
    · intro j hj hv
      rcases List.mem_cons.mp hj with h | h
      · subst h
        obtain ⟨m, hm⟩ := h3 hv
        exact k4 _ m hm
      · exact k3 j h hv
    · intro p m hm
      obtain ⟨m1, hm1⟩ := h4 p m hm
      exact k4 p m1 hm1
    · rcases h5 with h5 | h5
      · rw [h5] at k5 ⊢
        exact k5
      · right
        rcases k5 with k5 | k5
        · rw [k5]
          exact h5
        · exact lt_trans k5 h5

theorem searchInv_close (g : Grid) (D : Nat) (s e cur : Vec3Int) (st : SearchState)
    (hinv : SearchInv g D s e (some cur) st) (hne : cur ≠ e)
    (hvis : ∀ dir ∈ DIRECTIONS, IsValid g (stepTo cur dir) = true →
      ∃ m, st.allNodes (stepTo cur dir) = some m) :
    SearchInv g D s e none st := by
  refine ⟨hinv.key, hinv.queued, hinv.start, hinv.lattice, hinv.parent_le, hinv.chain, ?_⟩
  intro p n hn
  rcases hinv.pending p n hn with h | h | h
  · simp only [Option.some.injEq] at h
    subst h
    exact Or.inr (Or.inr ⟨hne, hvis⟩)
  · exact Or.inr (Or.inl h)
  · exact Or.inr (Or.inr h)

theorem searchInv_pop (g : Grid) (D : Nat) (s e : Vec3Int) (st : SearchState) (x : Node)
    (rest : List Node) (hinv : SearchInv g D s e none st)
    (hperm : st.openSet.Perm (x :: rest)) :
    SearchInv g D s e (some x.pos) { st with openSet := rest } := by
  refine ⟨hinv.key, ?_, hinv.start, hinv.lattice, hinv.parent_le, hinv.chain, ?_⟩
  · intro y hy
    exact hinv.queued y (hperm.mem_iff.mpr (List.mem_cons_of_mem x hy))
  · intro p n hn
    rcases hinv.pending p n hn with h | ⟨y, hy, hyp, hyg⟩ | h
    · simp at h
    · rcases List.mem_cons.mp (hperm.mem_iff.mp hy) with hyx | hyr
      · subst hyx
        exact Or.inl (by rw [hyp])
      · exact Or.inr (Or.inl ⟨y, hyr, hyp, hyg⟩)
    · exact Or.inr (Or.inr h)

theorem searchInv_pop_stale (g : Grid) (D : Nat) (s e : Vec3Int) (st : SearchState) (x : Node)
    (rest : List Node) (cn : Node) (hinv : SearchInv g D s e none st)
    (hperm : st.openSet.Perm (x :: rest)) (hcn : st.allNodes x.pos = some cn)
    (hstale : cn.gCost < x.gCost) :
    SearchInv g D s e none { st with openSet := rest } := by
  have h1 := searchInv_pop g D s e st x rest hinv hperm
  refine ⟨h1.key, h1.queued, h1.start, h1.lattice, h1.parent_le, h1.chain, ?_⟩
  intro p n hn
  rcases hinv.pending p n hn with h | ⟨y, hy, hyp, hyg⟩ | h
  · simp at h
  · rcases List.mem_cons.mp (hperm.mem_iff.mp hy) with hyx | hyr
    · subst hyx
      rw [hyp] at hcn
      have hn1 : st.allNodes p = some n := hn
      rw [hn1] at hcn
      simp only [Option.some.injEq] at hcn
      subst hcn
      rw [hyg] at hstale
      exact absurd hstale (lt_irrefl _)
    · exact Or.inr (Or.inl ⟨y, hyr, hyp, hyg⟩)
  · exact Or.inr (Or.inr h)

/-! ## The grid is connected -/

theorem gridWalk_exists (g : Grid) (k : Nat) :
    ∀ a b : Vec3Int, IsValid g a = true → IsValid g b = true → manhattan a b = (k : Int) →
      ∃ n, GridWalk g a b n := by
  induction k with
  | zero =>
    intro a b ha _ hk
    have := manhattan_eq_zero a b (by simpa using hk)
    subst this
    exact ⟨0, GridWalk.here a ha⟩
  | succ k ih =>
    intro a b ha hb hk
    have hav := ha
    have hbv := hb
    rw [IsValid_iff] at hav hbv
    have key : ∀ d : Vec3Int, d ∈ DIRECTIONS → IsValid g (stepTo a d) = true →
        manhattan (stepTo a d) b = (k : Int) → ∃ n, GridWalk g a b n := by
      intro d hd hv hm
      obtain ⟨n, hn⟩ := ih (stepTo a d) b hv hb hm
      exact ⟨n + 1, GridWalk.hop a (stepTo a d) b n ha ⟨d, hd, rfl⟩ hn⟩
    simp only [manhattan, Int.abs_eq_natAbs] at hk
    by_cases hx1 : a.x < b.x
    · refine key ⟨1, 0, 0⟩ (by decide) ?_ ?_
      · rw [IsValid_iff]; simp only [stepTo]; omega
      · simp only [manhattan, stepTo, Int.abs_eq_natAbs]; omega
    by_cases hx2 : b.x < a.x
    · refine key ⟨-1, 0, 0⟩ (by decide) ?_ ?_
      · rw [IsValid_iff]; simp only [stepTo]; omega
      · simp only [manhattan, stepTo, Int.abs_eq_natAbs]; omega
    by_cases hy1 : a.y < b.y
    · refine key ⟨0, 1, 0⟩ (by decide) ?_ ?_
      · rw [IsValid_iff]; simp only [stepTo]; omega
      · simp only [manhattan, stepTo, Int.abs_eq_natAbs]; omega
    by_cases hy2 : b.y < a.y
    · refine key ⟨0, -1, 0⟩ (by decide) ?_ ?_
      · rw [IsValid_iff]; simp only [stepTo]; omega
      · simp only [manhattan, stepTo, Int.abs_eq_natAbs]; omega
    by_cases hz1 : a.z < b.z
    · refine key ⟨0, 0, 1⟩ (by decide) ?_ ?_
      · rw [IsValid_iff]; simp only [stepTo]; omega
      · simp only [manhattan, stepTo, Int.abs_eq_natAbs]; omega
    by_cases hz2 : b.z < a.z
    · refine key ⟨0, 0, -1⟩ (by decide) ?_ ?_
      · rw [IsValid_iff]; simp only [stepTo]; omega
      · simp only [manhattan, stepTo, Int.abs_eq_natAbs]; omega
    omega

theorem gridWalk_target_valid (g : Grid) (a b : Vec3Int) (n : Nat) (h : GridWalk g a b n) :
    IsValid g b = true := by
  induction h with
  | here c hc => exact hc
  | hop c d e n _ _ _ ih => exact ih

theorem gridWalk_source_valid (g : Grid) (a b : Vec3Int) (n : Nat) (h : GridWalk g a b n) :
    IsValid g a = true := by
  induction h with
  | here c hc => exact hc
  | hop c d e n hc _ _ _ => exact hc

theorem closed_reaches (g : Grid) (N : Vec3Int → Option Node)
    (hclosed : ∀ p n, N p = some n → ∀ dir ∈ DIRECTIONS, IsValid g (stepTo p dir) = true →
      ∃ m, N (stepTo p dir) = some m)
    (a b : Vec3Int) (k : Nat) (hwalk : GridWalk g a b k) :
    (∃ n, N a = some n) → ∃ m, N b = some m := by
  induction hwalk with
  | here c _ => exact fun h => h
  | hop c d e n _ hstep hrest ih =>
    intro ⟨nc, hnc⟩
    obtain ⟨dir, hd, rfl⟩ := hstep
    exact ih (hclosed c nc hnc dir hd (gridWalk_source_valid g _ _ _ hrest))

/-! ## Fuel -/

theorem searchLoop_mono (Q : OpenSetQueue) (g : Grid) (P : SearchParams) (e : Vec3Int)
    (fuel : Nat) (k : Nat) :
    ∀ (st : SearchState) (r : Option (Vec3Int → Option Node)),
      searchLoop Q g P e fuel st = some r → searchLoop Q g P e (fuel + k) st = some r := by
  induction fuel with
  | zero =>
    intro st r h
    simp [searchLoop] at h
  | succ fuel ih =>
    intro st r h
    rw [Nat.add_right_comm]
    simp only [searchLoop] at h ⊢
    cases hpop : Q.pop st.openSet with
    | none =>
      simp only [hpop] at h ⊢
      exact h
    | some xr =>
      obtain ⟨x, rest⟩ := xr
      simp only [hpop] at h ⊢
      cases hcn : st.allNodes x.pos with
      | none =>
        simp only [hcn] at h ⊢
        exact ih _ r h
      | some cn =>
        simp only [hcn] at h ⊢
        by_cases hstale : cn.gCost < x.gCost
        · simp only [hstale, if_true] at h ⊢
          exact ih _ r h
        · simp only [hstale, if_false] at h ⊢
          by_cases hgoal : x.pos = e
          · simp only [hgoal, if_true] at h ⊢
            exact h
          · simp only [hgoal, if_false] at h ⊢
            exact ih _ r h

theorem walkParents_of_chain (g : Grid) (N : Vec3Int → Option Node) (s : Vec3Int)
    (hkey : ∀ p n, N p = some n → n.pos = p) (p : Vec3Int) (l : List Vec3Int)
    (hc : ParentChain N s p l) :
    ∀ fuel, l.length ≤ fuel → walkParents g N fuel (some p) = some (l.map (GridToWorld g)) := by
  induction hc with
  | root n hn hpar =>
    intro fuel hf
    cases fuel with
    | zero => simp at hf
    | succ fuel =>
      cases fuel <;> simp [walkParents, hn, hpar, hkey s n hn]
  | link p q n l hn hpar _ ih =>
    intro fuel hf
    cases fuel with
    | zero => simp at hf
    | succ fuel =>
      have := ih fuel (by simpa using hf)
      simp [walkParents, hn, hpar, hkey p n hn, this]

theorem parentChain_shape (N : Vec3Int → Option Node) (s p : Vec3Int) (l : List Vec3Int)
    (hc : ParentChain N s p l) : l.head? = some p ∧ l.getLast? = some s := by
  induction hc with
  | root n _ _ => exact ⟨rfl, rfl⟩
  | link p q n l _ _ hrest ih =>
    refine ⟨rfl, ?_⟩
    cases l with
    | nil => simp at ih
    | cons a t =>
      rw [List.getLast?_cons_cons]
      exact ih.2

/-! ## The search reaches the goal -/

theorem searchLoop_finds (Q : OpenSetQueue) (hQ : Q.IsBag) (g : Grid) (P : SearchParams)
    (s e : Vec3Int) (he : IsValid g e = true)
    (hw : 0 ≤ P.w_path ∧ 0 ≤ P.w_bend ∧ 0 ≤ P.w_energy ∧ 0 ≤ P.w_proximity)
    (hcost : ∀ x ∈ g.g_costGrid, 0 ≤ x) (m : (ℕ ×ₗ ℕ) ×ₗ ℕ) :
    ∀ st : SearchState,
      toLex (searchMeasure g (weightDen P) st.allNodes, st.openSet.length) = m →
      SearchInv g (weightDen P) s e none st →
      ∃ fuel stF, searchLoop Q g P e fuel st = some (some stF.allNodes) ∧
        SearchInv g (weightDen P) s e none stF ∧ ∃ n, stF.allNodes e = some n := by
  induction m using WellFoundedLT.induction
  rename_i m ih
  intro st hm hinv
  cases hpop : Q.pop st.openSet with
  | none =>
    exfalso
    have hnil : st.openSet = [] := by
      by_contra hne
      obtain ⟨top, rest, h1, _⟩ := hQ.pop_perm st.openSet hne
      rw [hpop] at h1
      exact absurd h1 (by simp)
    have hclosed : ∀ p n, st.allNodes p = some n → p ≠ e ∧ ∀ dir ∈ DIRECTIONS,
        IsValid g (stepTo p dir) = true → ∃ m, st.allNodes (stepTo p dir) = some m := by
      intro p n hn
      rcases hinv.pending p n hn with h | ⟨x, hx, _⟩ | h
      · simp at h
      · rw [hnil] at hx
        simp at hx
      · exact h
    obtain ⟨n0, h0, _, _⟩ := hinv.start
    have hs : IsValid g s = true := (hinv.key s n0 h0).2
    obtain ⟨k, hwalk⟩ := gridWalk_exists g (manhattan s e).toNat s e hs he
      (Int.toNat_of_nonneg (manhattan_nonneg s e)).symm
    obtain ⟨ne, hne⟩ := closed_reaches g st.allNodes (fun p n hn => (hclosed p n hn).2) s e k
      hwalk ⟨n0, h0⟩
    exact (hclosed e ne hne).1 rfl
  | some xr =>
    obtain ⟨x, rest⟩ := xr
    have hne : st.openSet ≠ [] := by
      intro h
      rw [h, hQ.pop_nil] at hpop
      exact absurd hpop (by simp)
    obtain ⟨top, rest1, h1, hperm⟩ := hQ.pop_perm st.openSet hne
    rw [hpop] at h1
    simp only [Option.some.injEq, Prod.mk.injEq] at h1
    obtain ⟨hx, hr⟩ := h1
    subst hx
    subst hr
    have hlen : rest.length < st.openSet.length := by
      rw [hperm.length_eq]
      simp
    obtain ⟨cn, hcn⟩ := hinv.queued x (hperm.mem_iff.mpr (List.mem_cons_self x rest))
    by_cases hstale : cn.gCost < x.gCost
    · have hinv1 := searchInv_pop_stale g (weightDen P) s e st x rest cn hinv hperm hcn hstale
      obtain ⟨fuel, stF, hrun, hF⟩ := ih _ (by
        rw [← hm, Prod.Lex.lt_iff]
        exact Or.inr ⟨rfl, hlen⟩) { st with openSet := rest } rfl hinv1
      refine ⟨fuel + 1, stF, ?_, hF⟩
      simp only [searchLoop, hpop, hcn, hstale, if_true]
      exact hrun
    · by_cases hgoal : x.pos = e
      · have hcn1 : st.allNodes e = some cn := by rw [← hgoal]; exact hcn
        refine ⟨1, st, ?_, hinv, cn, hcn1⟩
        simp [searchLoop, hpop, hcn1, hstale, hgoal]
      · have hinv1 := searchInv_pop g (weightDen P) s e st x rest hinv hperm
        obtain ⟨k1, k2, k3, _, k5⟩ := expandFold_inv Q hQ g P s e x.pos cn hw hcost
          (List.range 6) (fun i hi => List.mem_range.mp hi) { st with openSet := rest } hinv1 hcn
        have hinv2 := searchInv_close g (weightDen P) s e x.pos _ k1 hgoal (by
          intro dir hd hv
          obtain ⟨i, hi, rfl⟩ := exists_directionAt dir hd
          exact k3 i hi hv)
        obtain ⟨fuel, stF, hrun, hF⟩ := ih _ (by
          rw [← hm, Prod.Lex.lt_iff]
          rcases k5 with k5 | k5
          · rw [k5]
            exact Or.inr ⟨rfl, hlen⟩
          · exact Or.inl k5) _ rfl hinv2
        refine ⟨fuel + 1, stF, ?_, hF⟩
        simp only [searchLoop, hpop, hcn, hstale, hgoal, if_false]
        exact hrun

theorem searchInv_init (Q : OpenSetQueue) (hQ : Q.IsBag) (g : Grid) (D : Nat) (s e : Vec3Int)
    (hs : IsValid g s = true) (f : ℚ) :
    SearchInv g D s e none
      { openSet := Q.push [] ⟨s, 0, f, none, -1, 999⟩
        allNodes := Function.update (fun _ => none) s (some ⟨s, 0, f, none, -1, 999⟩) } := by
  have hp : Q.push [] ⟨s, 0, f, none, -1, 999⟩ = [⟨s, 0, f, none, -1, 999⟩] :=
    List.perm_singleton.mp (hQ.push_perm [] _)
  have hval : ∀ p n, Function.update (fun _ => none) s (some (⟨s, 0, f, none, -1, 999⟩ : Node)) p
      = some n → p = s ∧ n = ⟨s, 0, f, none, -1, 999⟩ := by
    intro p n hn
    by_cases hps : p = s
    · subst hps
      rw [Function.update_same] at hn
      simp only [Option.some.injEq] at hn
      exact ⟨rfl, hn.symm⟩
    · rw [Function.update_noteq hps] at hn
      simp at hn
  refine ⟨?_, ?_, ?_, ?_, ?_, ?_, ?_⟩
  all_goals dsimp only
  · intro p n hn
    obtain ⟨rfl, rfl⟩ := hval p n hn
    exact ⟨rfl, hs⟩
  · intro x hx
    rw [hp] at hx
    simp only [List.mem_singleton] at hx
    subst hx
    exact ⟨_, Function.update_same _ _ _⟩
  · exact ⟨_, Function.update_same _ _ _, rfl, rfl⟩
  · intro p n hn
    obtain ⟨rfl, rfl⟩ := hval p n hn
    exact OnLattice.zero D
  · intro p n q hn hpar
    obtain ⟨rfl, rfl⟩ := hval p n hn
    simp at hpar
  · intro p n hn
    obtain ⟨rfl, rfl⟩ := hval p n hn
    exact ⟨[p], ParentChain.root _ (Function.update_same _ _ _) rfl⟩
  · intro p n hn
    obtain ⟨rfl, rfl⟩ := hval p n hn
    exact Or.inr (Or.inl ⟨_, by rw [hp]; exact List.mem_singleton.mpr rfl, rfl, rfl⟩)

theorem walkParents_mono (g : Grid) (N : Vec3Int → Option Node) (fuel k : Nat) :
    ∀ (p : Option Vec3Int) (r : List Vec3), walkParents g N fuel p = some r →
      walkParents g N (fuel + k) p = some r := by
  induction fuel with
  | zero =>
    intro p r h
    cases p with
    | none =>
      cases k <;> simpa [walkParents] using h
    | some p => simp [walkParents] at h
  | succ fuel ih =>
    intro p r h
    rw [Nat.add_right_comm]
    cases p with
    | none => simpa [walkParents] using h
    | some p =>
      simp only [walkParents] at h ⊢
      cases hn : N p with
      | none =>
        simp only [hn] at h ⊢
        exact h
      | some n =>
        simp only [hn] at h ⊢
        cases hrec : walkParents g N fuel n.parent with
        | none => simp [hrec] at h
        | some t =>
          rw [ih _ t hrec]
          rw [hrec] at h
          exact h

theorem FindPath_mono (Q : OpenSetQueue) (fuel k : Nat) (g : Grid) (startPos endPos : Vec3)
    (outPath : Nat → Vec3) (maxPathSize : Int) (w_path w_bend w_energy w_proximity : ℚ)
    (pipeRadius clearance minBendDistance : Int) (r : Grid × Int × (Nat → Vec3))
    (h : FindPath Q fuel g startPos endPos outPath maxPathSize w_path w_bend w_energy
      w_proximity pipeRadius clearance minBendDistance = some r) :
    FindPath Q (fuel + k) g startPos endPos outPath maxPathSize w_path w_bend w_energy
      w_proximity pipeRadius clearance minBendDistance = some r := by
  unfold FindPath at h ⊢
  split
  · rename_i hemp
    rw [if_pos hemp] at h
    exact h
  · rename_i hemp
    rw [if_neg hemp] at h
    simp only at h ⊢
    split
    · rename_i hval
      rw [if_pos hval] at h
      exact h
    · rename_i hval
      rw [if_neg hval] at h
      split at h
      · exact absurd h (by simp)
      · rename_i hsearch
        rw [searchLoop_mono Q g _ _ fuel k _ _ hsearch]
        exact h
      · rename_i allNodes hsearch
        rw [searchLoop_mono Q g _ _ fuel k _ _ hsearch]
        simp only
        split at h
        · exact absurd h (by simp)
        · rename_i pushed hwalk
          rw [walkParents_mono g allNodes fuel k _ _ hwalk]
          exact h

theorem FindPath_fuel_independent (Q : OpenSetQueue) (fuel1 fuel2 : Nat) (g : Grid)
    (startPos endPos : Vec3) (outPath : Nat → Vec3) (maxPathSize : Int)
    (w_path w_bend w_energy w_proximity : ℚ) (pipeRadius clearance minBendDistance : Int)
    (r1 r2 : Grid × Int × (Nat → Vec3))
    (h1 : FindPath Q fuel1 g startPos endPos outPath maxPathSize w_path w_bend w_energy
      w_proximity pipeRadius clearance minBendDistance = some r1)
    (h2 : FindPath Q fuel2 g startPos endPos outPath maxPathSize w_path w_bend w_energy
      w_proximity pipeRadius clearance minBendDistance = some r2) : r1 = r2 := by
  have k1 := FindPath_mono Q fuel1 fuel2 g startPos endPos outPath maxPathSize w_path w_bend
    w_energy w_proximity pipeRadius clearance minBendDistance r1 h1
  have k2 := FindPath_mono Q fuel2 fuel1 g startPos endPos outPath maxPathSize w_path w_bend
    w_energy w_proximity pipeRadius clearance minBendDistance r2 h2
  rw [Nat.add_comm, k2] at k1
  simpa using k1.symm

theorem FindPath_reaches_goal (Q : OpenSetQueue) (hQ : Q.IsBag) (g : Grid)
    (startPos endPos : Vec3) (w_path w_bend w_energy w_proximity : ℚ)
    (pipeRadius clearance minBendDistance : Int) (hne : g.g_costGrid ≠ [])
    (hs : IsValid g (WorldToGrid g startPos) = true)
    (he : IsValid g (WorldToGrid g endPos) = true)
    (hw : 0 ≤ w_path ∧ 0 ≤ w_bend ∧ 0 ≤ w_energy ∧ 0 ≤ w_proximity)
    (hcost : ∀ x ∈ g.g_costGrid, 0 ≤ x) :
    ∃ (fuel0 : Nat) (chain : List Vec3Int),
      chain.head? = some (WorldToGrid g endPos) ∧
      chain.getLast? = some (WorldToGrid g startPos) ∧
      ∀ fuel, fuel0 ≤ fuel → ∀ (outPath : Nat → Vec3) (maxPathSize : Int),
        FindPath Q fuel g startPos endPos outPath maxPathSize w_path w_bend w_energy w_proximity
          pipeRadius clearance minBendDistance =
          some (g, min (chain.length : Int) maxPathSize,
            fun (i : Nat) => if (i : Int) < min (chain.length : Int) maxPathSize then
              ((chain.map (GridToWorld g)).reverse).getD i (outPath i) else outPath i) := by
  have hemp : g.g_costGrid.isEmpty = false := by
    cases hg : g.g_costGrid with
    | nil => exact absurd hg hne
    | cons a t => rfl
  obtain ⟨f1, stF, hrun, hF, ne, hne1⟩ := searchLoop_finds Q hQ g
    ⟨w_path, w_bend, w_energy, w_proximity, pipeRadius, clearance, minBendDistance⟩
    (WorldToGrid g startPos) (WorldToGrid g endPos) he hw hcost _ _ rfl
    (searchInv_init Q hQ g _ (WorldToGrid g startPos) (WorldToGrid g endPos) hs
      (Heuristic (WorldToGrid g startPos) (WorldToGrid g endPos)))
  obtain ⟨l, hl⟩ := hF.chain _ ne hne1
  have hwalk := walkParents_of_chain g stF.allNodes _ (fun p n h => (hF.key p n h).1) _ l hl
  obtain ⟨hhead, hlast⟩ := parentChain_shape _ _ _ _ hl
  refine ⟨max f1 l.length, l, hhead, hlast, ?_⟩
  intro fuel hfuel outPath maxPathSize
  have hrun1 := searchLoop_mono Q g _ _ f1 (fuel - f1) _ _ hrun
  have hf1 : f1 + (fuel - f1) = fuel := by
    have := le_max_left f1 l.length
    omega
  rw [hf1] at hrun1
  have hwalk1 := hwalk fuel (le_trans (le_max_right f1 l.length) hfuel)
  unfold FindPath
  simp only [hemp, hs, he, Bool.false_eq_true, if_false, Bool.not_true, Bool.or_self, hrun1,
    hwalk1, List.length_reverse, List.length_map]

theorem FindPath_some_search (Q : OpenSetQueue) (fuel : Nat) (g : Grid)
    (startPos endPos : Vec3) (outPath : Nat → Vec3) (maxPathSize : Int)
    (w_path w_bend w_energy w_proximity : ℚ) (pipeRadius clearance minBendDistance : Int)
    (r : Grid × Int × (Nat → Vec3)) (hne : g.g_costGrid ≠ [])
    (hs : IsValid g (WorldToGrid g startPos) = true)
    (he : IsValid g (WorldToGrid g endPos) = true)
    (h : FindPath Q fuel g startPos endPos outPath maxPathSize w_path w_bend w_energy
      w_proximity pipeRadius clearance minBendDistance = some r) :
    ∃ res, searchLoop Q g
        ⟨w_path, w_bend, w_energy, w_proximity, pipeRadius, clearance, minBendDistance⟩
        (WorldToGrid g endPos) fuel
        ⟨Q.push [] ⟨WorldToGrid g startPos, 0,
            Heuristic (WorldToGrid g startPos) (WorldToGrid g endPos), none, -1, 999⟩,
          Function.update (fun _ => none) (WorldToGrid g startPos)
            (some ⟨WorldToGrid g startPos, 0,
              Heuristic (WorldToGrid g startPos) (WorldToGrid g endPos), none, -1, 999⟩)⟩ =
          some res ∧
      ∀ N, res = some N → ∃ pushed, walkParents g N fuel (some (WorldToGrid g endPos)) =
        some pushed := by
  have hemp : g.g_costGrid.isEmpty = false := by
    cases hg : g.g_costGrid with
    | nil => exact absurd hg hne
    | cons a t => rfl
  unfold FindPath at h
  simp only [hemp, hs, he, Bool.false_eq_true, if_false, Bool.not_true, Bool.or_self] at h
  split at h
  · exact absurd h (by simp)
  · rename_i hsearch
    exact ⟨none, hsearch, fun N hN => absurd hN (by simp)⟩
  · rename_i allNodes hsearch
    refine ⟨some allNodes, hsearch, ?_⟩
    intro N hN
    simp only [Option.some.injEq] at hN
    subst hN
    split at h
    · exact absurd h (by simp)
    · rename_i pushed hwalk
      exact ⟨pushed, hwalk⟩

/-! ## Termination -/

theorem cyclic_search :
    searchLoop stdHeap freeGrid ⟨-1, 0, 0, 0, 0, 0, 1⟩ ⟨2, 0, 0⟩ 3
      ⟨stdHeap.push [] ⟨⟨0, 0, 0⟩, 0, 2, none, -1, 999⟩,
        Function.update (fun _ => none) ⟨0, 0, 0⟩ (some ⟨⟨0, 0, 0⟩, 0, 2, none, -1, 999⟩)⟩ =
      some (some cyclicNodes) := by
  with_unfolding_all rfl

theorem cyclic_walk (fuel : Nat) :
    walkParents freeGrid cyclicNodes fuel (some ⟨0, 0, 0⟩) = none ∧
      walkParents freeGrid cyclicNodes fuel (some ⟨1, 0, 0⟩) = none := by
  have h0 : cyclicNodes ⟨0, 0, 0⟩ = some ⟨⟨0, 0, 0⟩, -2, 0, some ⟨1, 0, 0⟩, 1, 1⟩ := by decide
  have h1 : cyclicNodes ⟨1, 0, 0⟩ = some ⟨⟨1, 0, 0⟩, -1, 0, some ⟨0, 0, 0⟩, 0, 1000⟩ := by decide
  induction fuel with
  | zero => exact ⟨rfl, rfl⟩
  | succ fuel ih =>
    simp only [walkParents, h0, h1, ih.1, ih.2, Option.map_none', and_self]

/-- C10 (counterexample): on a row of three free cells with its computed distance field (all
unreached), from the first cell to the last with
`w_path = -1` and the other weights 0, the main loop pops three entries and then the walk along
the parent links never ends (the start node has the parent (1, 0, 0), whose parent is the start
node): `FindPath` returns for no amount of fuel. -/
theorem C10_negative_weight_counterexample :
    PrecomputeDistanceTransform 10 ⟨[0, 0, 0], 3, 1, 1, ⟨0, 0, 0⟩, 1, []⟩ = some freeGrid ∧
    searchLoop stdHeap freeGrid ⟨-1, 0, 0, 0, 0, 0, 1⟩ ⟨2, 0, 0⟩ 3
      ⟨stdHeap.push [] ⟨⟨0, 0, 0⟩, 0, 2, none, -1, 999⟩,
        Function.update (fun _ => none) ⟨0, 0, 0⟩ (some ⟨⟨0, 0, 0⟩, 0, 2, none, -1, 999⟩)⟩ =
      some (some cyclicNodes) ∧
    (∀ fuel : Nat, walkParents freeGrid cyclicNodes fuel (some ⟨2, 0, 0⟩) = none) ∧
    ∀ fuel : Nat, FindPath stdHeap fuel freeGrid ⟨1 / 2, 1 / 2, 1 / 2⟩ ⟨5 / 2, 1 / 2, 1 / 2⟩
      markerBuffer 10 (-1) 0 0 0 0 0 1 = none := by
  have hgoal : ∀ fuel : Nat, walkParents freeGrid cyclicNodes fuel (some ⟨2, 0, 0⟩) = none := by
    intro fuel
    have h2 : cyclicNodes ⟨2, 0, 0⟩ = some ⟨⟨2, 0, 0⟩, -2, -2, some ⟨1, 0, 0⟩, 0, 1001⟩ := by
      decide
    cases fuel with
    | zero => rfl
    | succ fuel => simp only [walkParents, h2, (cyclic_walk fuel).2, Option.map_none']
  refine ⟨rfl, cyclic_search, hgoal, ?_⟩
  intro fuel
  cases hr : FindPath stdHeap fuel freeGrid ⟨1 / 2, 1 / 2, 1 / 2⟩ ⟨5 / 2, 1 / 2, 1 / 2⟩
      markerBuffer 10 (-1) 0 0 0 0 0 1 with
  | none => rfl
  | some r =>
    exfalso
    have hr3 := FindPath_mono stdHeap fuel 3 freeGrid _ _ _ _ _ _ _ _ _ _ _ r hr
    obtain ⟨res, hres, hwalk⟩ := FindPath_some_search stdHeap (fuel + 3) freeGrid _ _ _ _ _ _ _ _
      _ _ _ r (by decide) (by decide!) (by decide!) hr3
    have hW1 : WorldToGrid freeGrid ⟨1 / 2, 1 / 2, 1 / 2⟩ = ⟨0, 0, 0⟩ := by decide!
    have hW2 : WorldToGrid freeGrid ⟨5 / 2, 1 / 2, 1 / 2⟩ = ⟨2, 0, 0⟩ := by decide!
    have hH : Heuristic ⟨0, 0, 0⟩ ⟨2, 0, 0⟩ = 2 := by decide!
    rw [hW1, hW2, hH] at hres
    rw [hW2] at hwalk
    have hrun := searchLoop_mono stdHeap freeGrid _ _ 3 fuel _ _ cyclic_search
    rw [Nat.add_comm, hres] at hrun
    simp only [Option.some.injEq] at hrun
    obtain ⟨pushed, hp⟩ := hwalk cyclicNodes hrun
    rw [hgoal] at hp
    exact absurd hp (by simp)

/-- C10 (amended): for non-negative weights and non-negative cell costs, and for every radius,
clearance, minimum bend distance, pair of endpoints, output buffer and capacity, `FindPath`
terminates: with enough fuel for the pops of the main loop and for the steps of the walk along
the parent links it returns a result. -/
theorem C10_FindPath_terminates (Q : OpenSetQueue) (hQ : Q.IsBag) (g : Grid)
    (startPos endPos : Vec3) (w_path w_bend w_energy w_proximity : ℚ)
    (pipeRadius clearance minBendDistance : Int)
    (hw : 0 ≤ w_path ∧ 0 ≤ w_bend ∧ 0 ≤ w_energy ∧ 0 ≤ w_proximity)
    (hcost : ∀ x ∈ g.g_costGrid, 0 ≤ x) :
    ∃ fuel0, ∀ fuel, fuel0 ≤ fuel → ∀ (outPath : Nat → Vec3) (maxPathSize : Int),
      (FindPath Q fuel g startPos endPos outPath maxPathSize w_path w_bend w_energy w_proximity
        pipeRadius clearance minBendDistance).isSome = true := by
  by_cases hne : g.g_costGrid = []
  · refine ⟨0, fun fuel _ outPath maxPathSize => ?_⟩
    simp [FindPath, hne]
  by_cases hs : IsValid g (WorldToGrid g startPos) = true
  · by_cases he : IsValid g (WorldToGrid g endPos) = true
    · obtain ⟨fuel0, chain, _, _, hrun⟩ := FindPath_reaches_goal Q hQ g startPos endPos w_path
        w_bend w_energy w_proximity pipeRadius clearance minBendDistance hne hs he hw hcost
      refine ⟨fuel0, fun fuel hfuel outPath maxPathSize => ?_⟩
      rw [hrun fuel hfuel outPath maxPathSize]
      rfl
    · refine ⟨0, fun fuel _ outPath maxPathSize => ?_⟩
      unfold FindPath
      split
      · rfl
      · simp [he]
  · refine ⟨0, fun fuel _ outPath maxPathSize => ?_⟩
    unfold FindPath
    split
    · rfl
    · simp [hs]

/-- C10 (witness): the corridor with unit weights. -/
theorem C10_FindPath_terminates_witness :
    ∃ fuel0, ∀ fuel, fuel0 ≤ fuel → ∀ (outPath : Nat → Vec3) (maxPathSize : Int),
      (FindPath stdHeap fuel corridorGrid ⟨1 / 2, 1 / 2, 1 / 2⟩ ⟨5 / 2, 1 / 2, 1 / 2⟩ outPath
        maxPathSize 1 1 1 1 0 0 1).isSome = true :=
  C10_FindPath_terminates stdHeap stdHeap_isBag corridorGrid ⟨1 / 2, 1 / 2, 1 / 2⟩
    ⟨5 / 2, 1 / 2, 1 / 2⟩ 1 1 1 1 0 0 1 (by decide!) (by decide)

/-! ## Impassable cells are charged, not excluded -/

theorem reverse_map_getD_last {α : Type} (f : Vec3Int → α) (chain : List Vec3Int) (e : Vec3Int)
    (d : α) (h : chain.head? = some e) :
    ((chain.map f).reverse).getD (chain.length - 1) d = f e := by
  cases chain with
  | nil => simp at h
  | cons a t =>
    simp only [List.head?_cons, Option.some.injEq] at h
    subst h
    simp [List.getD_eq_getElem?_getD, List.getElem?_append_right]

theorem reverse_map_getD_zero {α : Type} (f : Vec3Int → α) (chain : List Vec3Int) (s : Vec3Int)
    (d : α) (h : chain.getLast? = some s) :
    ((chain.map f).reverse).getD 0 d = f s := by
  obtain ⟨t, rfl⟩ := List.getLast?_eq_some_iff.mp h
  simp [List.getD_eq_getElem?_getD]

theorem chain_length_two (chain : List Vec3Int) (s e : Vec3Int) (hh : chain.head? = some e)
    (hl : chain.getLast? = some s) (hne : s ≠ e) : 2 ≤ chain.length := by
  cases chain with
  | nil => simp at hh
  | cons a t =>
    cases t with
    | nil =>
      simp only [List.head?_cons, Option.some.injEq, List.getLast?_singleton] at hh hl
      exact absurd (hl.symm.trans hh) hne
    | cons b u => simp

theorem chain_length_pos (chain : List Vec3Int) (e : Vec3Int) (hh : chain.head? = some e) :
    1 ≤ chain.length := by
  cases chain with
  | nil => simp at hh
  | cons a t => simp

theorem IsSpaceAvailable_of_nonpos (g : Grid) (c : Vec3Int) (radius clearance : Int)
    (h : radius + clearance ≤ 0) : IsSpaceAvailable g c radius clearance = true := by
  simp [IsSpaceAvailable, h]

/-- C3 (counterexample): on the corridor of three cells whose middle cell is impassable, with
unit weights, radius 0 and clearance 0, `FindPath` from the first cell to the impassable middle
cell returns 2, and from the first cell to the last cell, whose only in-bounds neighbour is the
impassable cell, it returns 3; it never returns 0. -/
theorem C3_impassable_goal_counterexample :
    PrecomputeDistanceTransform 10 ⟨[0, 10000, 0], 3, 1, 1, ⟨0, 0, 0⟩, 1, []⟩ =
      some corridorGrid ∧
    costAt corridorGrid ⟨1, 0, 0⟩ ≥ OBSTACLE_THRESHOLD ∧
    WorldToGrid corridorGrid ⟨1 / 2, 1 / 2, 1 / 2⟩ = ⟨0, 0, 0⟩ ∧
    WorldToGrid corridorGrid ⟨3 / 2, 1 / 2, 1 / 2⟩ = ⟨1, 0, 0⟩ ∧
    WorldToGrid corridorGrid ⟨5 / 2, 1 / 2, 1 / 2⟩ = ⟨2, 0, 0⟩ ∧
    (∀ dir ∈ DIRECTIONS, IsValid corridorGrid (stepTo ⟨2, 0, 0⟩ dir) = true →
      costAt corridorGrid (stepTo ⟨2, 0, 0⟩ dir) ≥ OBSTACLE_THRESHOLD) ∧
    (FindPath stdHeap 10 corridorGrid ⟨1 / 2, 1 / 2, 1 / 2⟩ ⟨3 / 2, 1 / 2, 1 / 2⟩ markerBuffer 10
      1 1 1 1 0 0 1).isSome = true ∧
    (∀ fuel r, FindPath stdHeap fuel corridorGrid ⟨1 / 2, 1 / 2, 1 / 2⟩ ⟨3 / 2, 1 / 2, 1 / 2⟩
      markerBuffer 10 1 1 1 1 0 0 1 = some r → r.2.1 = 2) ∧
    (FindPath stdHeap 10 corridorGrid ⟨1 / 2, 1 / 2, 1 / 2⟩ ⟨5 / 2, 1 / 2, 1 / 2⟩ markerBuffer 10
      1 1 1 1 0 0 1).isSome = true ∧
    (∀ fuel r, FindPath stdHeap fuel corridorGrid ⟨1 / 2, 1 / 2, 1 / 2⟩ ⟨5 / 2, 1 / 2, 1 / 2⟩
      markerBuffer 10 1 1 1 1 0 0 1 = some r → r.2.1 = 3) := by
  have h2 : FindPath stdHeap 10 corridorGrid ⟨1 / 2, 1 / 2, 1 / 2⟩ ⟨3 / 2, 1 / 2, 1 / 2⟩
      markerBuffer 10 1 1 1 1 0 0 1 =
      some (corridorGrid, 2, fun (i : Nat) => if (i : Int) < 2 then
        [(⟨1 / 2, 1 / 2, 1 / 2⟩ : Vec3), ⟨3 / 2, 1 / 2, 1 / 2⟩].getD i (markerBuffer i)
        else markerBuffer i) := by
    with_unfolding_all rfl
  have h3 : FindPath stdHeap 10 corridorGrid ⟨1 / 2, 1 / 2, 1 / 2⟩ ⟨5 / 2, 1 / 2, 1 / 2⟩
      markerBuffer 10 1 1 1 1 0 0 1 =
      some (corridorGrid, 3, fun (i : Nat) => if (i : Int) < 3 then
        [(⟨1 / 2, 1 / 2, 1 / 2⟩ : Vec3), ⟨3 / 2, 1 / 2, 1 / 2⟩, ⟨5 / 2, 1 / 2, 1 / 2⟩].getD i
          (markerBuffer i) else markerBuffer i) := by
    with_unfolding_all rfl
  refine ⟨rfl, by decide, by decide!, by decide!, by decide!, by decide, ?_, ?_, ?_, ?_⟩
  · rw [h2]
    rfl
  · intro fuel r hr
    rw [FindPath_fuel_independent stdHeap fuel 10 _ _ _ _ _ _ _ _ _ _ _ _ r _ hr h2]
  · rw [h3]
    rfl
  · intro fuel r hr
    rw [FindPath_fuel_independent stdHeap fuel 10 _ _ _ _ _ _ _ _ _ _ _ _ r _ hr h3]

/-- C3 (amended): on a non-empty grid with non-negative cell costs, for in-bounds start and
goal, non-negative weights and `radius + clearance <= 0` (the feasibility check then passes for
every cell), if the goal cell is itself impassable, or every in-bounds 6-neighbour of the goal
cell is impassable and the start cell is a different cell, then `FindPath` does not return 0 for
a capacity of at least 1: it terminates and returns `min L capacity`, where `L >= 1` is the
number of points of a path that ends at the centre of the goal cell (`L >= 2` when start and goal
are different cells); the impassable cells only add their cost to the path. -/
theorem C3_impassable_goal_is_reached (Q : OpenSetQueue) (hQ : Q.IsBag) (g : Grid)
    (startPos endPos : Vec3) (w_path w_bend w_energy w_proximity : ℚ)
    (pipeRadius clearance minBendDistance : Int) (hne : g.g_costGrid ≠ [])
    (hs : IsValid g (WorldToGrid g startPos) = true)
    (he : IsValid g (WorldToGrid g endPos) = true)
    (hw : 0 ≤ w_path ∧ 0 ≤ w_bend ∧ 0 ≤ w_energy ∧ 0 ≤ w_proximity)
    (hcost : ∀ x ∈ g.g_costGrid, 0 ≤ x)
    (_hr : pipeRadius + clearance ≤ 0)
    (_hgoal : costAt g (WorldToGrid g endPos) ≥ OBSTACLE_THRESHOLD ∨
      ((∀ dir ∈ DIRECTIONS, IsValid g (stepTo (WorldToGrid g endPos) dir) = true →
          costAt g (stepTo (WorldToGrid g endPos) dir) ≥ OBSTACLE_THRESHOLD) ∧
        WorldToGrid g startPos ≠ WorldToGrid g endPos)) :
    ∃ (fuel0 L : Nat), 1 ≤ L ∧ (WorldToGrid g startPos ≠ WorldToGrid g endPos → 2 ≤ L) ∧
      ∀ fuel, fuel0 ≤ fuel → ∀ (outPath : Nat → Vec3) (maxPathSize : Int), ∃ buf,
        FindPath Q fuel g startPos endPos outPath maxPathSize w_path w_bend w_energy w_proximity
          pipeRadius clearance minBendDistance = some (g, min (L : Int) maxPathSize, buf) ∧
        (1 ≤ maxPathSize → 1 ≤ min (L : Int) maxPathSize) ∧
        ((L : Int) ≤ maxPathSize → buf (L - 1) = GridToWorld g (WorldToGrid g endPos)) := by
  obtain ⟨fuel0, chain, hhead, hlast, hrun⟩ := FindPath_reaches_goal Q hQ g startPos endPos
    w_path w_bend w_energy w_proximity pipeRadius clearance minBendDistance hne hs he hw hcost
  have hpos := chain_length_pos chain _ hhead
  refine ⟨fuel0, chain.length, hpos, fun h => chain_length_two chain _ _ hhead hlast h, ?_⟩
  intro fuel hfuel outPath maxPathSize
  refine ⟨_, hrun fuel hfuel outPath maxPathSize, ?_, ?_⟩
  · intro hcap
    exact le_min (by exact_mod_cast hpos) hcap
  · intro hcap
    have hlt : ((chain.length - 1 : Nat) : Int) < min (chain.length : Int) maxPathSize := by
      rw [min_eq_left hcap]
      omega
    simp only [hlt, if_true]
    exact reverse_map_getD_last (GridToWorld g) chain _ _ hhead

/-- C3 (witness): the corridor, from its first cell to its impassable middle cell. -/
theorem C3_impassable_goal_is_reached_witness :
    ∃ (fuel0 L : Nat), 1 ≤ L ∧
      (WorldToGrid corridorGrid ⟨1 / 2, 1 / 2, 1 / 2⟩ ≠
        WorldToGrid corridorGrid ⟨3 / 2, 1 / 2, 1 / 2⟩ → 2 ≤ L) ∧
      ∀ fuel, fuel0 ≤ fuel → ∀ (outPath : Nat → Vec3) (maxPathSize : Int), ∃ buf,
        FindPath stdHeap fuel corridorGrid ⟨1 / 2, 1 / 2, 1 / 2⟩ ⟨3 / 2, 1 / 2, 1 / 2⟩ outPath
          maxPathSize 1 1 1 1 0 0 1 = some (corridorGrid, min (L : Int) maxPathSize, buf) ∧
        (1 ≤ maxPathSize → 1 ≤ min (L : Int) maxPathSize) ∧
        ((L : Int) ≤ maxPathSize →
          buf (L - 1) = GridToWorld corridorGrid
            (WorldToGrid corridorGrid ⟨3 / 2, 1 / 2, 1 / 2⟩)) :=
  C3_impassable_goal_is_reached stdHeap stdHeap_isBag corridorGrid ⟨1 / 2, 1 / 2, 1 / 2⟩
    ⟨3 / 2, 1 / 2, 1 / 2⟩ 1 1 1 1 0 0 1 (by decide) (by decide!) (by decide!) (by decide!)
    (by decide) (by decide) (Or.inl (by decide!))

theorem detourGrid_single_obstacle (c : Vec3Int) (h : IsObstacle detourGrid c) :
    c = ⟨1, 0, 0⟩ := by
  obtain ⟨hv, hc⟩ := h
  rw [IsValid_iff] at hv
  obtain ⟨x, y, z⟩ := c
  simp only [detourGrid] at hv
  have hx : x = 0 ∨ x = 1 ∨ x = 2 := by omega
  have hy : y = 0 ∨ y = 1 := by omega
  have hz : z = 0 := by omega
  subst hz
  rcases hx with hx | hx | hx <;> rcases hy with hy | hy <;> subst hx <;> subst hy <;>
    first
    | rfl
    | (exfalso; revert hc; decide)

/-! ## World and grid coordinates -/

theorem floor_center (origin size : ℚ) (c : Int) (hsize : 0 < size) :
    Int.floor ((origin + ((c : ℚ) + 1 / 2) * size - origin) / size) = c := by
  have hne : size ≠ 0 := ne_of_gt hsize
  have h : (origin + ((c : ℚ) + 1 / 2) * size - origin) / size = (c : ℚ) + 1 / 2 := by
    field_simp
    ring
  rw [h, Int.floor_eq_iff]
  constructor
  · linarith
  · linarith

/-- C11: for every origin, every cell size greater than 0 and every grid coordinate `c` (in
bounds or not), `WorldToGrid (GridToWorld c) = c` with exact arithmetic:
`floor(((origin + (c + 1/2) * size) - origin) / size) = c` on each axis. -/
theorem C11_center_round_trip (g : Grid) (c : Vec3Int) (hsize : 0 < g.g_gridSize) :
    WorldToGrid g (GridToWorld g c) = c := by
  unfold WorldToGrid GridToWorld
  simp only [floor_center _ _ _ hsize]

/-- C11 (witness): a cell of the corridor. -/
theorem C11_center_round_trip_witness :
    WorldToGrid corridorGrid (GridToWorld corridorGrid ⟨2, 0, 0⟩) = ⟨2, 0, 0⟩ :=
  C11_center_round_trip corridorGrid ⟨2, 0, 0⟩ (by decide!)

/-! ## The distance transform without obstacles -/

theorem seed_foldl_free (g : Grid) (hfree : ∀ x ∈ g.g_costGrid, x < OBSTACLE_THRESHOLD)
    (l : List Vec3Int) (st : List Int × List Vec3Int) :
    l.foldl (seedStep g) st = st := by
  induction l with
  | nil => rfl
  | cons a t ih =>
    rw [List.foldl_cons]
    have hlt : readAt g.g_costGrid (GetIndex g a) < OBSTACLE_THRESHOLD := by
      unfold readAt
      split
      · rw [List.getD_eq_getElem?_getD]
        cases h : g.g_costGrid[(GetIndex g a).toNat]? with
        | none => decide
        | some v => exact hfree v (List.getElem?_mem h)
      · decide
    have hstep : seedStep g st a = st := by
      unfold seedStep
      exact if_neg (not_le.mpr hlt)
    rw [hstep, ih]

/-- C16 (the code at the failing input): `ReleaseGrid` empties the cost field and leaves the
distance field as it was; after the distance transform of a row of three free cells the distance
field still has its three entries. -/
theorem C16_ReleaseGrid_keeps_distance_field :
    PrecomputeDistanceTransform 0 ⟨[0, 0, 0], 3, 1, 1, ⟨0, 0, 0⟩, 1, []⟩ = some freeGrid ∧
    (ReleaseGrid freeGrid).g_costGrid = [] ∧
    (ReleaseGrid freeGrid).g_distanceToObstacleGrid = [99999, 99999, 99999] ∧
    ∀ g : Grid, (ReleaseGrid g).g_costGrid = [] ∧
      (ReleaseGrid g).g_distanceToObstacleGrid = g.g_distanceToObstacleGrid :=
  ⟨rfl, rfl, rfl, fun _ => ⟨rfl, rfl⟩⟩

theorem FindPath_result_shape (Q : OpenSetQueue) (fuel : Nat) (g : Grid)
    (startPos endPos : Vec3) (outPath : Nat → Vec3) (maxPathSize : Int)
    (w_path w_bend w_energy w_proximity : ℚ) (pipeRadius clearance minBendDistance : Int)
    (r : Grid × Int × (Nat → Vec3))
    (h : FindPath Q fuel g startPos endPos outPath maxPathSize w_path w_bend w_energy
      w_proximity pipeRadius clearance minBendDistance = some r) :
    ∃ (n : Int) (path : List Vec3), n ≤ (path.length : Int) ∧ ∀ out2 : Nat → Vec3,
      FindPath Q fuel g startPos endPos out2 maxPathSize w_path w_bend w_energy w_proximity
        pipeRadius clearance minBendDistance =
        some (g, n, fun (i : Nat) => if (i : Int) < n then path.getD i (out2 i) else out2 i) := by
  unfold FindPath at h ⊢
  split at h
  · rename_i hemp
    refine ⟨0, [], le_refl _, fun out2 => ?_⟩
    rw [if_pos hemp]
    have : (fun (i : Nat) => if (i : Int) < 0 then ([] : List Vec3).getD i (out2 i) else out2 i)
        = out2 := by
      funext i
      have : ¬ ((i : Int) < 0) := by omega
      simp [this]
    rw [this]
  · rename_i hemp
    simp only at h
    split at h
    · rename_i hval
      refine ⟨0, [], le_refl _, fun out2 => ?_⟩
      rw [if_neg hemp]
      simp only
      rw [if_pos hval]
      have : (fun (i : Nat) => if (i : Int) < 0 then ([] : List Vec3).getD i (out2 i)
          else out2 i) = out2 := by
        funext i
        have : ¬ ((i : Int) < 0) := by omega
        simp [this]
      rw [this]
    · rename_i hval
      split at h
      · exact absurd h (by simp)
      · rename_i hsearch
        refine ⟨0, [], le_refl _, fun out2 => ?_⟩
        rw [if_neg hemp]
        simp only
        rw [if_neg hval, hsearch]
        have : (fun (i : Nat) => if (i : Int) < 0 then ([] : List Vec3).getD i (out2 i)
            else out2 i) = out2 := by
          funext i
          have : ¬ ((i : Int) < 0) := by omega
          simp [this]
        rw [this]
      · rename_i allNodes hsearch
        split at h
        · exact absurd h (by simp)
        · rename_i pushed hwalk
          refine ⟨min (pushed.reverse.length : Int) maxPathSize, pushed.reverse, min_le_left _ _,
            fun out2 => ?_⟩
          rw [if_neg hemp]
          simp only
          rw [if_neg hval, hsearch]
          simp only
          rw [hwalk]

/-- C15: `FindPath` returns the state it was given (cost field, distance field and geometry
unchanged), and a second invocation on that state with the same arguments (whatever the
contents of the output buffer, and with at least as much fuel) returns the same count and
writes the same waypoints. -/
theorem C15_FindPath_deterministic (Q : OpenSetQueue) (fuel : Nat) (g g1 : Grid)
    (startPos endPos : Vec3) (outPath buf : Nat → Vec3) (maxPathSize n : Int)
    (w_path w_bend w_energy w_proximity : ℚ) (pipeRadius clearance minBendDistance : Int)
    (h : FindPath Q fuel g startPos endPos outPath maxPathSize w_path w_bend w_energy
      w_proximity pipeRadius clearance minBendDistance = some (g1, n, buf)) :
    g1 = g ∧ ∀ (fuel2 : Nat) (out2 : Nat → Vec3), fuel ≤ fuel2 → ∃ buf2,
      FindPath Q fuel2 g1 startPos endPos out2 maxPathSize w_path w_bend w_energy w_proximity
        pipeRadius clearance minBendDistance = some (g1, n, buf2) ∧
      ∀ i : Nat, (i : Int) < n → buf2 i = buf i := by
  obtain ⟨m, path, hmlen, hshape⟩ := FindPath_result_shape Q fuel g startPos endPos outPath
    maxPathSize w_path w_bend w_energy w_proximity pipeRadius clearance minBendDistance _ h
  have h1 := hshape outPath
  rw [h] at h1
  simp only [Option.some.injEq, Prod.mk.injEq] at h1
  obtain ⟨hg, hn, hbuf⟩ := h1
  subst hg
  subst hn
  refine ⟨rfl, ?_⟩
  intro fuel2 out2 hfuel
  have h2 := FindPath_mono Q fuel (fuel2 - fuel) g1 startPos endPos out2 maxPathSize w_path
    w_bend w_energy w_proximity pipeRadius clearance minBendDistance _ (hshape out2)
  have hf : fuel + (fuel2 - fuel) = fuel2 := by omega
  rw [hf] at h2
  refine ⟨_, h2, ?_⟩
  intro i hi
  rw [hbuf]
  simp only [hi, if_true]
  have hlt : i < path.length := by omega
  simp [List.getD_eq_getElem?_getD, List.getElem?_eq_getElem hlt]

/-- C15 (witness): the corridor with unit weights. -/
theorem C15_FindPath_deterministic_witness :
    corridorGrid = corridorGrid ∧ ∀ (fuel2 : Nat) (out2 : Nat → Vec3), 10 ≤ fuel2 → ∃ buf2,
      FindPath stdHeap fuel2 corridorGrid ⟨1 / 2, 1 / 2, 1 / 2⟩ ⟨5 / 2, 1 / 2, 1 / 2⟩ out2 10
        1 1 1 1 0 0 1 = some (corridorGrid, 3, buf2) ∧
      ∀ i : Nat, (i : Int) < 3 → buf2 i =
        (fun (i : Nat) => if (i : Int) < 3 then
          [(⟨1 / 2, 1 / 2, 1 / 2⟩ : Vec3), ⟨3 / 2, 1 / 2, 1 / 2⟩, ⟨5 / 2, 1 / 2, 1 / 2⟩].getD i
            (markerBuffer i) else markerBuffer i) i :=
  C15_FindPath_deterministic stdHeap 10 corridorGrid corridorGrid ⟨1 / 2, 1 / 2, 1 / 2⟩
    ⟨5 / 2, 1 / 2, 1 / 2⟩ markerBuffer _ 10 3 1 1 1 1 0 0 1 (by with_unfolding_all rfl)

/-- C18: on a non-empty grid with non-negative cell costs, for in-bounds start and goal,
non-negative weights, every radius, clearance and minimum bend distance and every capacity of
at least 1, `FindPath` terminates and returns a count of at least 1, whatever the obstacle
layout: the queue never empties before the goal is popped. -/
theorem C18_path_always_found (Q : OpenSetQueue) (hQ : Q.IsBag) (g : Grid)
    (startPos endPos : Vec3) (w_path w_bend w_energy w_proximity : ℚ)
    (pipeRadius clearance minBendDistance : Int) (hne : g.g_costGrid ≠ [])
    (hs : IsValid g (WorldToGrid g startPos) = true)
    (he : IsValid g (WorldToGrid g endPos) = true)
    (hw : 0 ≤ w_path ∧ 0 ≤ w_bend ∧ 0 ≤ w_energy ∧ 0 ≤ w_proximity)
    (hcost : ∀ x ∈ g.g_costGrid, 0 ≤ x) :
    ∃ fuel0, ∀ fuel, fuel0 ≤ fuel → ∀ (outPath : Nat → Vec3) (maxPathSize : Int),
      1 ≤ maxPathSize → ∃ n buf,
        FindPath Q fuel g startPos endPos outPath maxPathSize w_path w_bend w_energy w_proximity
          pipeRadius clearance minBendDistance = some (g, n, buf) ∧ 1 ≤ n := by
  obtain ⟨fuel0, chain, hhead, _, hrun⟩ := FindPath_reaches_goal Q hQ g startPos endPos
    w_path w_bend w_energy w_proximity pipeRadius clearance minBendDistance hne hs he hw hcost
  have hpos := chain_length_pos chain _ hhead
  refine ⟨fuel0, fun fuel hfuel outPath maxPathSize hcap => ⟨_, _,
    hrun fuel hfuel outPath maxPathSize, le_min (by exact_mod_cast hpos) hcap⟩⟩

/-- C18 (witness): the grid of 3 x 2 x 1 cells with radius 1, where every cell fails the
feasibility check. -/
theorem C18_path_always_found_witness :
    ∃ fuel0, ∀ fuel, fuel0 ≤ fuel → ∀ (outPath : Nat → Vec3) (maxPathSize : Int),
      1 ≤ maxPathSize → ∃ n buf,
        FindPath stdHeap fuel detourGrid ⟨1 / 2, 1 / 2, 1 / 2⟩ ⟨5 / 2, 1 / 2, 1 / 2⟩ outPath
          maxPathSize 1 1 1 1 1 0 1 = some (detourGrid, n, buf) ∧ 1 ≤ n :=
  C18_path_always_found stdHeap stdHeap_isBag detourGrid ⟨1 / 2, 1 / 2, 1 / 2⟩
    ⟨5 / 2, 1 / 2, 1 / 2⟩ 1 1 1 1 1 0 1 (by decide) (by decide!) (by decide!) (by decide!)
    (by decide)

/-! ## The returned path is a simple walk from the start cell to the goal cell -/

theorem parentChain_unique (N : Vec3Int → Option Node) (s p : Vec3Int) (l : List Vec3Int)
    (hc : ParentChain N s p l) : ∀ l1, ParentChain N s p l1 → l1 = l := by
  induction hc with
  | root n hn hpar =>
    intro l1 h1
    cases h1 with
    | root _ _ _ => rfl
    | link _ q n1 l2 hn1 hpar1 _ =>
      rw [hn] at hn1
      simp only [Option.some.injEq] at hn1
      subst hn1
      rw [hpar] at hpar1
      exact absurd hpar1 (by simp)
  | link p q n l hn hpar _ ih =>
    intro l1 h1
    cases h1 with
    | root n1 hn1 hpar1 =>
      rw [hn] at hn1
      simp only [Option.some.injEq] at hn1
      subst hn1
      rw [hpar] at hpar1
      exact absurd hpar1 (by simp)
    | link _ q1 n1 l2 hn1 hpar1 hrest =>
      rw [hn] at hn1
      simp only [Option.some.injEq] at hn1
      subst hn1
      rw [hpar] at hpar1
      simp only [Option.some.injEq] at hpar1
      subst hpar1
      rw [ih l2 hrest]

theorem parentChain_suffix (N : Vec3Int → Option Node) (s p : Vec3Int) (l : List Vec3Int)
    (hc : ParentChain N s p l) :
    ∀ c ∈ l, ∃ l1, ParentChain N s c l1 ∧ l1.length ≤ l.length := by
  induction hc with
  | root n hn hpar =>
    intro c hcm
    simp only [List.mem_singleton] at hcm
    subst hcm
    exact ⟨[c], ParentChain.root n hn hpar, le_refl _⟩
  | link p q n l hn hpar hrest ih =>
    intro c hcm
    rcases List.mem_cons.mp hcm with h | h
    · subst h
      exact ⟨c :: l, ParentChain.link c q n l hn hpar hrest, le_refl _⟩
    · obtain ⟨l1, h1, h2⟩ := ih c h
      exact ⟨l1, h1, le_trans h2 (by simp)⟩

theorem parentChain_nodup (N : Vec3Int → Option Node) (s p : Vec3Int) (l : List Vec3Int)
    (hc : ParentChain N s p l) : l.Nodup := by
  induction hc with
  | root n hn hpar => simp
  | link p q n l hn hpar hrest ih =>
    refine List.nodup_cons.mpr ⟨?_, ih⟩
    intro hmem
    obtain ⟨l1, h1, h2⟩ := parentChain_suffix N s q l hrest p hmem
    have := parentChain_unique N s p (p :: l) (ParentChain.link p q n l hn hpar hrest) l1 h1
    rw [this] at h2
    simp at h2

theorem parentChain_mem (N : Vec3Int → Option Node) (s p : Vec3Int) (l : List Vec3Int)
    (hc : ParentChain N s p l) : ∀ c ∈ l, ∃ n, N c = some n := by
  induction hc with
  | root n hn hpar =>
    intro c hcm
    simp only [List.mem_singleton] at hcm
    subst hcm
    exact ⟨n, hn⟩
  | link p q n l hn hpar hrest ih =>
    intro c hcm
    rcases List.mem_cons.mp hcm with h | h
    · subst h
      exact ⟨n, hn⟩
    · exact ih c h

theorem parentChain_adjacent (N : Vec3Int → Option Node) (s p : Vec3Int) (l : List Vec3Int)
    (hadj : ∀ p n q, N p = some n → n.parent = some q → ∃ dir ∈ DIRECTIONS, stepTo q dir = p)
    (hc : ParentChain N s p l) :
    List.Chain' (fun a b => ∃ dir ∈ DIRECTIONS, stepTo b dir = a) l := by
  induction hc with
  | root n hn hpar => simp
  | link p q n l hn hpar hrest ih =>
    rw [List.chain'_cons']
    refine ⟨?_, ih⟩
    intro y hy
    have hq := (parentChain_shape N s q l hrest).1
    rw [hq] at hy
    simp only [Option.mem_def, Option.some.injEq] at hy
    subst hy
    exact hadj p n _ hn hpar

theorem FindPath_path_cells (Q : OpenSetQueue) (hQ : Q.IsBag) (g : Grid)
    (startPos endPos : Vec3) (w_path w_bend w_energy w_proximity : ℚ)
    (pipeRadius clearance minBendDistance : Int) (hne : g.g_costGrid ≠ [])
    (hs : IsValid g (WorldToGrid g startPos) = true)
    (he : IsValid g (WorldToGrid g endPos) = true)
    (hw : 0 ≤ w_path ∧ 0 ≤ w_bend ∧ 0 ≤ w_energy ∧ 0 ≤ w_proximity)
    (hcost : ∀ x ∈ g.g_costGrid, 0 ≤ x) :
    ∃ (fuel0 : Nat) (cells : List Vec3Int),
      cells.Nodup ∧ (∀ c ∈ cells, IsValid g c = true) ∧
      cells.head? = some (WorldToGrid g startPos) ∧
      cells.getLast? = some (WorldToGrid g endPos) ∧
      List.Chain' (fun a b => ∃ dir ∈ DIRECTIONS, stepTo a dir = b) cells ∧
      ∀ fuel, fuel0 ≤ fuel → ∀ (outPath : Nat → Vec3) (maxPathSize : Int),
        FindPath Q fuel g startPos endPos outPath maxPathSize w_path w_bend w_energy w_proximity
          pipeRadius clearance minBendDistance =
          some (g, min (cells.length : Int) maxPathSize,
            fun (i : Nat) => if (i : Int) < min (cells.length : Int) maxPathSize then
              (cells.map (GridToWorld g)).getD i (outPath i) else outPath i) := by
  have hemp : g.g_costGrid.isEmpty = false := by
    cases hg : g.g_costGrid with
    | nil => exact absurd hg hne
    | cons a t => rfl
  obtain ⟨f1, stF, hrun, hF, ne, hne1⟩ := searchLoop_finds Q hQ g
    ⟨w_path, w_bend, w_energy, w_proximity, pipeRadius, clearance, minBendDistance⟩
    (WorldToGrid g startPos) (WorldToGrid g endPos) he hw hcost _ _ rfl
    (searchInv_init Q hQ g _ (WorldToGrid g startPos) (WorldToGrid g endPos) hs
      (Heuristic (WorldToGrid g startPos) (WorldToGrid g endPos)))
  obtain ⟨l, hl⟩ := hF.chain _ ne hne1
  have hwalk := walkParents_of_chain g stF.allNodes _ (fun p n h => (hF.key p n h).1) _ l hl
  obtain ⟨hhead, hlast⟩ := parentChain_shape _ _ _ _ hl
  refine ⟨max f1 l.length, l.reverse, List.nodup_reverse.mpr (parentChain_nodup _ _ _ _ hl), ?_,
    ?_, ?_, ?_, ?_⟩
  · intro c hc
    obtain ⟨n, hn⟩ := parentChain_mem _ _ _ _ hl c (List.mem_reverse.mp hc)
    exact (hF.key c n hn).2
  · rw [List.head?_reverse]
    exact hlast
  · rw [List.getLast?_reverse]
    exact hhead
  · rw [List.chain'_reverse]
    exact parentChain_adjacent _ _ _ _ (fun p n q h1 h2 => (hF.parent_le p n q h1 h2).2) hl
  intro fuel hfuel outPath maxPathSize
  have hrun1 := searchLoop_mono Q g _ _ f1 (fuel - f1) _ _ hrun
  have hf1 : f1 + (fuel - f1) = fuel := by
    have := le_max_left f1 l.length
    omega
  rw [hf1] at hrun1
  have hwalk1 := hwalk fuel (le_trans (le_max_right f1 l.length) hfuel)
  unfold FindPath
  simp only [hemp, hs, he, Bool.false_eq_true, if_false, Bool.not_true, Bool.or_self, hrun1,
    hwalk1, List.length_reverse, List.length_map, List.map_reverse]

theorem FindPath_pos_valid (Q : OpenSetQueue) (fuel : Nat) (g g1 : Grid)
    (startPos endPos : Vec3) (outPath buf : Nat → Vec3) (maxPathSize n : Int)
    (w_path w_bend w_energy w_proximity : ℚ) (pipeRadius clearance minBendDistance : Int)
    (h : FindPath Q fuel g startPos endPos outPath maxPathSize w_path w_bend w_energy
      w_proximity pipeRadius clearance minBendDistance = some (g1, n, buf)) (hn : n ≠ 0) :
    g.g_costGrid ≠ [] ∧ IsValid g (WorldToGrid g startPos) = true ∧
      IsValid g (WorldToGrid g endPos) = true := by
  unfold FindPath at h
  split at h
  · simp only [Option.some.injEq, Prod.mk.injEq] at h
    exact absurd h.2.1.symm hn
  · rename_i hemp
    simp only at h
    split at h
    · simp only [Option.some.injEq, Prod.mk.injEq] at h
      exact absurd h.2.1.symm hn
    · rename_i hval
      refine ⟨?_, ?_, ?_⟩
      · intro h0
        rw [h0] at hemp
        exact hemp rfl
      · cases hv : IsValid g (WorldToGrid g startPos) with
        | true => rfl
        | false => simp [hv] at hval
      · cases hv : IsValid g (WorldToGrid g endPos) with
        | true => rfl
        | false => simp [hv] at hval

/-- C17: for non-negative cell costs and weights, whenever `FindPath` returns a count `n > 0`,
there is a list of cells, the full path, such that: the cells are pairwise distinct and in
bounds, the first is the cell of `startPos`, the last is the cell of `endPos`, every two
consecutive cells differ by one of the six unit directions, `n` is the smaller of the length of
the list and the capacity, and entry `i < n` of the output buffer is the centre of the `i`-th
cell; so the first waypoint is the centre of the start cell and, for a capacity of at least the
full length, the last waypoint is the centre of the goal cell. -/
theorem C17_path_well_formed (Q : OpenSetQueue) (hQ : Q.IsBag) (fuel : Nat) (g g1 : Grid)
    (startPos endPos : Vec3) (outPath buf : Nat → Vec3) (maxPathSize n : Int)
    (w_path w_bend w_energy w_proximity : ℚ) (pipeRadius clearance minBendDistance : Int)
    (hw : 0 ≤ w_path ∧ 0 ≤ w_bend ∧ 0 ≤ w_energy ∧ 0 ≤ w_proximity)
    (hcost : ∀ x ∈ g.g_costGrid, 0 ≤ x)
    (h : FindPath Q fuel g startPos endPos outPath maxPathSize w_path w_bend w_energy
      w_proximity pipeRadius clearance minBendDistance = some (g1, n, buf)) (hn : 0 < n) :
    ∃ cells : List Vec3Int,
      cells.Nodup ∧ (∀ c ∈ cells, IsValid g c = true) ∧
      cells.head? = some (WorldToGrid g startPos) ∧
      cells.getLast? = some (WorldToGrid g endPos) ∧
      List.Chain' (fun a b => ∃ dir ∈ DIRECTIONS, stepTo a dir = b) cells ∧
      n = min (cells.length : Int) maxPathSize ∧
      (∀ (i : Nat) (c : Vec3Int), (i : Int) < n → cells[i]? = some c →
        buf i = GridToWorld g c) ∧
      buf 0 = GridToWorld g (WorldToGrid g startPos) ∧
      ((cells.length : Int) ≤ maxPathSize → n = cells.length ∧
        buf (cells.length - 1) = GridToWorld g (WorldToGrid g endPos)) := by
  obtain ⟨hne, hs, he⟩ := FindPath_pos_valid Q fuel g g1 startPos endPos outPath buf maxPathSize
    n w_path w_bend w_energy w_proximity pipeRadius clearance minBendDistance h (ne_of_gt hn)
  obtain ⟨fuel0, cells, hnodup, hvalid, hhead, hlast, hadj, hrun⟩ := FindPath_path_cells Q hQ g
    startPos endPos w_path w_bend w_energy w_proximity pipeRadius clearance minBendDistance hne
    hs he hw hcost
  have hr := FindPath_fuel_independent Q fuel fuel0 g startPos endPos outPath maxPathSize w_path
    w_bend w_energy w_proximity pipeRadius clearance minBendDistance _ _ h
    (hrun fuel0 (le_refl _) outPath maxPathSize)
  simp only [Prod.mk.injEq] at hr
  obtain ⟨_, hn1, hbuf⟩ := hr
  have hcell : ∀ (i : Nat) (c : Vec3Int), (i : Int) < n → cells[i]? = some c →
      buf i = GridToWorld g c := by
    intro i c hi hc
    rw [hbuf]
    simp only [← hn1, hi, if_true]
    simp [List.getD_eq_getElem?_getD, hc]
  refine ⟨cells, hnodup, hvalid, hhead, hlast, hadj, hn1, hcell, ?_, ?_⟩
  · apply hcell 0 _ (by exact_mod_cast hn)
    rw [← List.head?_eq_getElem?]
    exact hhead
  · intro hcap
    have hlen : n = cells.length := by rw [hn1]; exact min_eq_left hcap
    refine ⟨hlen, ?_⟩
    have hpos : 0 < cells.length := by
      have : (0 : Int) < cells.length := by rw [← hlen]; exact hn
      exact_mod_cast this
    apply hcell (cells.length - 1) _ (by omega)
    rw [← List.getLast?_eq_getElem?]
    exact hlast

/-- C17 (witness): the corridor of three cells with unit weights. -/
theorem C17_path_well_formed_witness :
    ∃ cells : List Vec3Int,
      cells.Nodup ∧ (∀ c ∈ cells, IsValid corridorGrid c = true) ∧
      cells.head? = some (WorldToGrid corridorGrid ⟨1 / 2, 1 / 2, 1 / 2⟩) ∧
      cells.getLast? = some (WorldToGrid corridorGrid ⟨5 / 2, 1 / 2, 1 / 2⟩) ∧
      List.Chain' (fun a b => ∃ dir ∈ DIRECTIONS, stepTo a dir = b) cells ∧
      (3 : Int) = min (cells.length : Int) 10 ∧
      (∀ (i : Nat) (c : Vec3Int), (i : Int) < 3 → cells[i]? = some c →
        (fun (i : Nat) => if (i : Int) < 3 then
          [(⟨1 / 2, 1 / 2, 1 / 2⟩ : Vec3), ⟨3 / 2, 1 / 2, 1 / 2⟩, ⟨5 / 2, 1 / 2, 1 / 2⟩].getD i
            (markerBuffer i) else markerBuffer i) i = GridToWorld corridorGrid c) ∧
      (fun (i : Nat) => if (i : Int) < 3 then
          [(⟨1 / 2, 1 / 2, 1 / 2⟩ : Vec3), ⟨3 / 2, 1 / 2, 1 / 2⟩, ⟨5 / 2, 1 / 2, 1 / 2⟩].getD i
            (markerBuffer i) else markerBuffer i) 0 =
        GridToWorld corridorGrid (WorldToGrid corridorGrid ⟨1 / 2, 1 / 2, 1 / 2⟩) ∧
      ((cells.length : Int) ≤ 10 → (3 : Int) = cells.length ∧
        (fun (i : Nat) => if (i : Int) < 3 then
          [(⟨1 / 2, 1 / 2, 1 / 2⟩ : Vec3), ⟨3 / 2, 1 / 2, 1 / 2⟩, ⟨5 / 2, 1 / 2, 1 / 2⟩].getD i
            (markerBuffer i) else markerBuffer i) (cells.length - 1) =
          GridToWorld corridorGrid (WorldToGrid corridorGrid ⟨5 / 2, 1 / 2, 1 / 2⟩)) :=
  C17_path_well_formed stdHeap stdHeap_isBag 10 corridorGrid corridorGrid ⟨1 / 2, 1 / 2, 1 / 2⟩
    ⟨5 / 2, 1 / 2, 1 / 2⟩ markerBuffer _ 10 3 1 1 1 1 0 0 1 (by decide!) (by decide)
    (by with_unfolding_all rfl) (by decide)

/-! ## The free cube -/

theorem FindPath_cell_congr (Q : OpenSetQueue) (fuel : Nat) (g : Grid)
    (s1 e1 s2 e2 : Vec3) (outPath : Nat → Vec3) (maxPathSize : Int)
    (w_path w_bend w_energy w_proximity : ℚ) (pipeRadius clearance minBendDistance : Int)
    (hs : WorldToGrid g s1 = WorldToGrid g s2) (he : WorldToGrid g e1 = WorldToGrid g e2) :
    FindPath Q fuel g s1 e1 outPath maxPathSize w_path w_bend w_energy w_proximity pipeRadius
      clearance minBendDistance =
    FindPath Q fuel g s2 e2 outPath maxPathSize w_path w_bend w_energy w_proximity pipeRadius
      clearance minBendDistance := by
  unfold FindPath
  rw [hs, he]

theorem FindPath_defined_indep (Q : OpenSetQueue) (fuel : Nat) (g : Grid)
    (startPos endPos : Vec3) (out1 out2 : Nat → Vec3) (cap1 cap2 : Int)
    (w_path w_bend w_energy w_proximity : ℚ) (pipeRadius clearance minBendDistance : Int)
    (r : Grid × Int × (Nat → Vec3))
    (h : FindPath Q fuel g startPos endPos out1 cap1 w_path w_bend w_energy w_proximity
      pipeRadius clearance minBendDistance = some r) :
    ∃ r2, FindPath Q fuel g startPos endPos out2 cap2 w_path w_bend w_energy w_proximity
      pipeRadius clearance minBendDistance = some r2 := by
  unfold FindPath at h ⊢
  split at h
  · rename_i hemp
    exact ⟨_, if_pos hemp⟩
  · rename_i hemp
    rw [if_neg hemp]
    simp only at h ⊢
    split at h
    · rename_i hval
      exact ⟨_, if_pos hval⟩
    · rename_i hval
      rw [if_neg hval]
      split at h
      · exact absurd h (by simp)
      · exact ⟨_, rfl⟩
      · split at h
        · exact absurd h (by simp)
        · exact ⟨_, rfl⟩

set_option maxRecDepth 1000000 in
set_option maxHeartbeats 0 in
theorem grid555_run :
    (FindPath stdHeap 135 grid555 ⟨1 / 2, 1 / 2, 1 / 2⟩ ⟨9 / 2, 9 / 2, 9 / 2⟩ markerBuffer 14
      1 1 1 1 0 0 1).map (fun r => r.2.1) = some 13 := by
  decide!

set_option maxRecDepth 1000000 in
theorem grid555_init (fuel : Nat) :
    PrecomputeDistanceTransform fuel
      (InitializeGrid ⟨[], 0, 0, 0, ⟨0, 0, 0⟩, 0, []⟩ (fun _ => 0) 5 5 5 ⟨0, 0, 0⟩ 1) =
      some grid555 := by
  have hinit : InitializeGrid ⟨[], 0, 0, 0, ⟨0, 0, 0⟩, 0, []⟩ (fun _ => 0) 5 5 5 ⟨0, 0, 0⟩ 1 =
      ⟨List.replicate 125 0, 5, 5, 5, ⟨0, 0, 0⟩, 1, []⟩ := by rfl
  have hfree : ∀ x ∈ (⟨List.replicate 125 0, 5, 5, 5, ⟨0, 0, 0⟩, 1, []⟩ : Grid).g_costGrid,
      x < OBSTACLE_THRESHOLD := by
    intro x hx
    rw [List.eq_of_mem_replicate hx]
    decide
  rw [hinit]
  simp only [PrecomputeDistanceTransform, seed_foldl_free _ hfree]
  cases fuel <;> rfl

/-- C13: `InitializeGrid` with 5 x 5 x 5 costs 0 followed by `PrecomputeDistanceTransform`
gives the free cube with its distance field; on it, with the binary heap as the open set,
`FindPath` from any point of cell (0, 0, 0) to any point of cell (4, 4, 4) with the four
weights 1, radius 0, clearance 0, minimum bend distance 1 and any capacity of at least 13
terminates (135 rounds of the loop suffice) and returns exactly 13. -/
theorem C13_free_cube_thirteen_points (fuel0 : Nat) (startPos endPos : Vec3)
    (hs : WorldToGrid grid555 startPos = ⟨0, 0, 0⟩)
    (he : WorldToGrid grid555 endPos = ⟨4, 4, 4⟩) (fuel : Nat) (hfuel : 135 ≤ fuel)
    (outPath : Nat → Vec3) (maxPathSize : Int) (hcap : 13 ≤ maxPathSize) :
    PrecomputeDistanceTransform fuel0
      (InitializeGrid ⟨[], 0, 0, 0, ⟨0, 0, 0⟩, 0, []⟩ (fun _ => 0) 5 5 5 ⟨0, 0, 0⟩ 1) =
      some grid555 ∧
    ∃ buf, FindPath stdHeap fuel grid555 startPos endPos outPath maxPathSize 1 1 1 1 0 0 1 =
      some (grid555, 13, buf) := by
  refine ⟨grid555_init fuel0, ?_⟩
  have hs0 : WorldToGrid grid555 startPos = WorldToGrid grid555 ⟨1 / 2, 1 / 2, 1 / 2⟩ := by
    rw [hs]; decide!
  have he0 : WorldToGrid grid555 endPos = WorldToGrid grid555 ⟨9 / 2, 9 / 2, 9 / 2⟩ := by
    rw [he]; decide!
  rw [FindPath_cell_congr stdHeap fuel grid555 startPos endPos _ _ outPath maxPathSize 1 1 1 1
    0 0 1 hs0 he0]
  have hrun := grid555_run
  cases h135 : FindPath stdHeap 135 grid555 ⟨1 / 2, 1 / 2, 1 / 2⟩ ⟨9 / 2, 9 / 2, 9 / 2⟩
      markerBuffer 14 1 1 1 1 0 0 1 with
  | none =>
    rw [h135] at hrun
    exact absurd hrun (by simp)
  | some r =>
    rw [h135] at hrun
    simp only [Option.map_some', Option.some.injEq] at hrun
    obtain ⟨f1, chain, _, _, hall⟩ := FindPath_reaches_goal stdHeap stdHeap_isBag grid555
      ⟨1 / 2, 1 / 2, 1 / 2⟩ ⟨9 / 2, 9 / 2, 9 / 2⟩ 1 1 1 1 0 0 1 (by decide) (by decide!)
      (by decide!) (by decide!) (by
        intro x hx
        rw [List.eq_of_mem_replicate hx])
    have hlen : (chain.length : Int) = 13 := by
      have h1 := hall (135 + f1) (by omega) markerBuffer 14
      rw [FindPath_mono stdHeap 135 f1 grid555 _ _ markerBuffer 14 1 1 1 1 0 0 1 r h135] at h1
      simp only [Option.some.injEq] at h1
      rw [h1] at hrun
      simp only at hrun
      omega
    obtain ⟨r2, hr2⟩ := FindPath_defined_indep stdHeap 135 grid555 _ _ markerBuffer outPath 14
      maxPathSize 1 1 1 1 0 0 1 r h135
    have h2 := FindPath_mono stdHeap 135 (fuel - 135) grid555 _ _ outPath maxPathSize 1 1 1 1 0
      0 1 r2 hr2
    have hf : 135 + (fuel - 135) = fuel := by omega
    rw [hf] at h2
    have h3 := FindPath_mono stdHeap fuel f1 grid555 _ _ outPath maxPathSize 1 1 1 1 0
      0 1 r2 h2
    rw [hall (fuel + f1) (by omega) outPath maxPathSize] at h3
    rw [h2, ← Option.some.inj h3, hlen, min_eq_left hcap]
    exact ⟨_, rfl⟩

/-- C13 (witness): the cell centres, 200 rounds and a capacity of 20. -/
theorem C13_free_cube_thirteen_points_witness :
    PrecomputeDistanceTransform 0
      (InitializeGrid ⟨[], 0, 0, 0, ⟨0, 0, 0⟩, 0, []⟩ (fun _ => 0) 5 5 5 ⟨0, 0, 0⟩ 1) =
      some grid555 ∧
    ∃ buf, FindPath stdHeap 200 grid555 ⟨1 / 2, 1 / 2, 1 / 2⟩ ⟨9 / 2, 9 / 2, 9 / 2⟩ markerBuffer
      20 1 1 1 1 0 0 1 = some (grid555, 13, buf) :=
  C13_free_cube_thirteen_points 0 ⟨1 / 2, 1 / 2, 1 / 2⟩ ⟨9 / 2, 9 / 2, 9 / 2⟩ (by decide!)
    (by decide!) 200 (by decide) markerBuffer 20 (by decide)

/-! ## The bend weight -/

/-- C14 (counterexample): on a grid of 3 x 2 x 1 free cells with its computed distance field,
where the middle cell of the first row has the soft cost 5, from cell (0, 0, 0) to cell
(2, 0, 0) with `w_path = 1`, the other weights 0, radius 0, clearance 0 and minimum bend
distance 1: with `w_bend = 0` the returned path is the detour through the second row, with 2
direction changes, and with `w_bend = 10` it is the straight row, with none. -/
theorem C14_bend_weight_counterexample :
    PrecomputeDistanceTransform 0 ⟨[0, 5, 0, 0, 0, 0], 3, 2, 1, ⟨0, 0, 0⟩, 1, []⟩ =
      some softGrid ∧
    (FindPath stdHeap 20 softGrid ⟨1 / 2, 1 / 2, 1 / 2⟩ ⟨5 / 2, 1 / 2, 1 / 2⟩ markerBuffer 10
      1 0 0 0 0 0 1).map returnedPath =
      some [⟨1 / 2, 1 / 2, 1 / 2⟩, ⟨1 / 2, 3 / 2, 1 / 2⟩, ⟨3 / 2, 3 / 2, 1 / 2⟩,
        ⟨5 / 2, 3 / 2, 1 / 2⟩, ⟨5 / 2, 1 / 2, 1 / 2⟩] ∧
    (FindPath stdHeap 20 softGrid ⟨1 / 2, 1 / 2, 1 / 2⟩ ⟨5 / 2, 1 / 2, 1 / 2⟩ markerBuffer 10
      1 10 0 0 0 0 1).map returnedPath =
      some [⟨1 / 2, 1 / 2, 1 / 2⟩, ⟨3 / 2, 1 / 2, 1 / 2⟩, ⟨5 / 2, 1 / 2, 1 / 2⟩] ∧
    (0 : ℚ) ≤ 0 ∧ (0 : ℚ) < 10 ∧
    (FindPath stdHeap 20 softGrid ⟨1 / 2, 1 / 2, 1 / 2⟩ ⟨5 / 2, 1 / 2, 1 / 2⟩ markerBuffer 10
      1 0 0 0 0 0 1).map (fun r => directionChanges (returnedPath r)) = some 2 ∧
    (FindPath stdHeap 20 softGrid ⟨1 / 2, 1 / 2, 1 / 2⟩ ⟨5 / 2, 1 / 2, 1 / 2⟩ markerBuffer 10
      1 10 0 0 0 0 1).map (fun r => directionChanges (returnedPath r)) = some 0 := by
  refine ⟨rfl, ?_, ?_, le_refl _, by norm_num, ?_, ?_⟩ <;> decide!

theorem relaxedNode_bend (g : Grid) (P : SearchParams) (w : ℚ) (e cur : Vec3Int) (cn : Node)
    (i : Nat) :
    relaxedNode g { P with w_bend := w } e cur cn i =
      { relaxedNode g { P with w_bend := 0 } e cur cn i with
        gCost := (relaxedNode g { P with w_bend := 0 } e cur cn i).gCost +
          w * bendCharge P.minBendDistance cn i
        fCost := (relaxedNode g { P with w_bend := 0 } e cur cn i).fCost +
          w * bendCharge P.minBendDistance cn i } := by
  unfold relaxedNode bendCharge
  simp only [Node.mk.injEq, true_and, and_true]
  by_cases hb : (cn.parent.isSome && decide ((i : Int) ≠ cn.direction_idx)) = true
  · by_cases hs : cn.stepsSinceBend < P.minBendDistance
    · simp only [hb, hs, if_true]
      constructor <;> ring
    · simp only [hb, hs, if_true, if_false]
      constructor <;> ring
  · simp only [hb, if_false, Bool.false_eq_true]
    constructor <;> ring

/-- C14 (amended): the bend weight enters the cost of a move linearly.  For a fixed grid, node
`cn`, direction `i` and other parameters, the node that `FindPath` creates for the move has the
same position, parent, direction and straight-run counter under every bend weight, and its cost
under `w2` is its cost under `w1` plus `(w2 - w1)` times the bend charge of the move, which is 0
for a move that keeps the direction or leaves the start node, 1 for a change of direction after
at least `minBendDistance` straight steps and 10 for an earlier change; so for `w1 ≤ w2` no
move becomes cheaper, and exactly the moves that change direction become dearer. -/
theorem C14_bend_weight_step_cost (g : Grid) (P : SearchParams) (w1 w2 : ℚ) (e cur : Vec3Int)
    (cn : Node) (i : Nat) (hw : w1 ≤ w2) :
    (relaxedNode g { P with w_bend := w2 } e cur cn i).pos =
      (relaxedNode g { P with w_bend := w1 } e cur cn i).pos ∧
    (relaxedNode g { P with w_bend := w2 } e cur cn i).parent =
      (relaxedNode g { P with w_bend := w1 } e cur cn i).parent ∧
    (relaxedNode g { P with w_bend := w2 } e cur cn i).direction_idx =
      (relaxedNode g { P with w_bend := w1 } e cur cn i).direction_idx ∧
    (relaxedNode g { P with w_bend := w2 } e cur cn i).stepsSinceBend =
      (relaxedNode g { P with w_bend := w1 } e cur cn i).stepsSinceBend ∧
    (relaxedNode g { P with w_bend := w2 } e cur cn i).gCost =
      (relaxedNode g { P with w_bend := w1 } e cur cn i).gCost +
        (w2 - w1) * bendCharge P.minBendDistance cn i ∧
    (relaxedNode g { P with w_bend := w1 } e cur cn i).gCost ≤
      (relaxedNode g { P with w_bend := w2 } e cur cn i).gCost ∧
    (bendCharge P.minBendDistance cn i = 0 ↔
      ¬ (cn.parent.isSome = true ∧ (i : Int) ≠ cn.direction_idx)) := by
  have hnn : 0 ≤ bendCharge P.minBendDistance cn i := by
    unfold bendCharge
    split
    · split <;> norm_num
    · exact le_refl _
  rw [relaxedNode_bend g P w2, relaxedNode_bend g P w1]
  refine ⟨rfl, rfl, rfl, rfl, ?_, ?_, ?_⟩
  · simp only
    ring
  · simp only
    have := mul_le_mul_of_nonneg_right hw hnn
    linarith
  · unfold bendCharge
    by_cases hb : cn.parent.isSome = true ∧ (i : Int) ≠ cn.direction_idx
    · have hb1 : (cn.parent.isSome && decide ((i : Int) ≠ cn.direction_idx)) = true := by
        simp [hb.1, hb.2]
      rw [if_pos hb1]
      constructor
      · intro h
        exfalso
        split at h <;> norm_num at h
      · intro h
        exact absurd hb h
    · have hb1 : (cn.parent.isSome && decide ((i : Int) ≠ cn.direction_idx)) = false := by
        simpa using hb
      simp only [hb1, Bool.false_eq_true, if_false, true_iff]
      exact hb

/-- C14 (witness): a change of direction after one straight step on the soft grid. -/
theorem C14_bend_weight_step_cost_witness :
    (relaxedNode softGrid { (⟨1, 0, 0, 0, 0, 0, 1⟩ : SearchParams) with w_bend := 10 } ⟨2, 0, 0⟩
        ⟨0, 1, 0⟩ ⟨⟨0, 1, 0⟩, 1, 4, some ⟨0, 0, 0⟩, 2, 1000⟩ 0).pos =
      (relaxedNode softGrid { (⟨1, 0, 0, 0, 0, 0, 1⟩ : SearchParams) with w_bend := 0 } ⟨2, 0, 0⟩
        ⟨0, 1, 0⟩ ⟨⟨0, 1, 0⟩, 1, 4, some ⟨0, 0, 0⟩, 2, 1000⟩ 0).pos ∧
    (relaxedNode softGrid { (⟨1, 0, 0, 0, 0, 0, 1⟩ : SearchParams) with w_bend := 10 } ⟨2, 0, 0⟩
        ⟨0, 1, 0⟩ ⟨⟨0, 1, 0⟩, 1, 4, some ⟨0, 0, 0⟩, 2, 1000⟩ 0).parent =
      (relaxedNode softGrid { (⟨1, 0, 0, 0, 0, 0, 1⟩ : SearchParams) with w_bend := 0 } ⟨2, 0, 0⟩
        ⟨0, 1, 0⟩ ⟨⟨0, 1, 0⟩, 1, 4, some ⟨0, 0, 0⟩, 2, 1000⟩ 0).parent ∧
    (relaxedNode softGrid { (⟨1, 0, 0, 0, 0, 0, 1⟩ : SearchParams) with w_bend := 10 } ⟨2, 0, 0⟩
        ⟨0, 1, 0⟩ ⟨⟨0, 1, 0⟩, 1, 4, some ⟨0, 0, 0⟩, 2, 1000⟩ 0).direction_idx =
      (relaxedNode softGrid { (⟨1, 0, 0, 0, 0, 0, 1⟩ : SearchParams) with w_bend := 0 } ⟨2, 0, 0⟩
        ⟨0, 1, 0⟩ ⟨⟨0, 1, 0⟩, 1, 4, some ⟨0, 0, 0⟩, 2, 1000⟩ 0).direction_idx ∧
    (relaxedNode softGrid { (⟨1, 0, 0, 0, 0, 0, 1⟩ : SearchParams) with w_bend := 10 } ⟨2, 0, 0⟩
        ⟨0, 1, 0⟩ ⟨⟨0, 1, 0⟩, 1, 4, some ⟨0, 0, 0⟩, 2, 1000⟩ 0).stepsSinceBend =
      (relaxedNode softGrid { (⟨1, 0, 0, 0, 0, 0, 1⟩ : SearchParams) with w_bend := 0 } ⟨2, 0, 0⟩
        ⟨0, 1, 0⟩ ⟨⟨0, 1, 0⟩, 1, 4, some ⟨0, 0, 0⟩, 2, 1000⟩ 0).stepsSinceBend ∧
    (relaxedNode softGrid { (⟨1, 0, 0, 0, 0, 0, 1⟩ : SearchParams) with w_bend := 10 } ⟨2, 0, 0⟩
        ⟨0, 1, 0⟩ ⟨⟨0, 1, 0⟩, 1, 4, some ⟨0, 0, 0⟩, 2, 1000⟩ 0).gCost =
      (relaxedNode softGrid { (⟨1, 0, 0, 0, 0, 0, 1⟩ : SearchParams) with w_bend := 0 } ⟨2, 0, 0⟩
        ⟨0, 1, 0⟩ ⟨⟨0, 1, 0⟩, 1, 4, some ⟨0, 0, 0⟩, 2, 1000⟩ 0).gCost +
        (10 - 0) * bendCharge 1 ⟨⟨0, 1, 0⟩, 1, 4, some ⟨0, 0, 0⟩, 2, 1000⟩ 0 ∧
    (relaxedNode softGrid { (⟨1, 0, 0, 0, 0, 0, 1⟩ : SearchParams) with w_bend := 0 } ⟨2, 0, 0⟩
        ⟨0, 1, 0⟩ ⟨⟨0, 1, 0⟩, 1, 4, some ⟨0, 0, 0⟩, 2, 1000⟩ 0).gCost ≤
      (relaxedNode softGrid { (⟨1, 0, 0, 0, 0, 0, 1⟩ : SearchParams) with w_bend := 10 } ⟨2, 0, 0⟩
        ⟨0, 1, 0⟩ ⟨⟨0, 1, 0⟩, 1, 4, some ⟨0, 0, 0⟩, 2, 1000⟩ 0).gCost ∧
    (bendCharge 1 ⟨⟨0, 1, 0⟩, 1, 4, some ⟨0, 0, 0⟩, 2, 1000⟩ 0 = 0 ↔
      ¬ ((some (⟨0, 0, 0⟩ : Vec3Int)).isSome = true ∧ ((0 : Nat) : Int) ≠ 2)) :=
  C14_bend_weight_step_cost softGrid ⟨1, 0, 0, 0, 0, 0, 1⟩ 0 10 ⟨2, 0, 0⟩ ⟨0, 1, 0⟩
    ⟨⟨0, 1, 0⟩, 1, 4, some ⟨0, 0, 0⟩, 2, 1000⟩ 0 (by norm_num)

/-! ## The straight-run counter -/

set_option maxRecDepth 1000000 in
set_option maxHeartbeats 0 in
theorem bend_search :
    searchLoop stdHeap bendGrid ⟨0, 3 / 2, 0, 0, 0, 0, 1⟩ ⟨2, 0, 0⟩ 9
      ⟨stdHeap.push [] ⟨⟨2, 2, 0⟩, 0, 2, none, -1, 999⟩,
        Function.update (fun _ => none) ⟨2, 2, 0⟩ (some ⟨⟨2, 2, 0⟩, 0, 2, none, -1, 999⟩)⟩ =
      some (some bendNodes) := by
  with_unfolding_all rfl

theorem searchLoop_table_inv (Q : OpenSetQueue) (g : Grid) (P : SearchParams) (e : Vec3Int)
    (I : (Vec3Int → Option Node) → Prop)
    (hstep : ∀ (cur : Vec3Int) (st : SearchState) (i : Nat), i < 6 → I st.allNodes →
      I (expandStep Q g P e cur st i).allNodes) :
    ∀ (fuel : Nat) (st : SearchState) (N : Vec3Int → Option Node), I st.allNodes →
      searchLoop Q g P e fuel st = some (some N) → I N := by
  have hfold : ∀ (cur : Vec3Int) (l : List Nat), (∀ i ∈ l, i < 6) → ∀ st : SearchState,
      I st.allNodes → I (l.foldl (expandStep Q g P e cur) st).allNodes := by
    intro cur l
    induction l with
    | nil => intro _ st h; exact h
    | cons a t ih =>
      intro hl st h
      rw [List.foldl_cons]
      exact ih (fun i hi => hl i (List.mem_cons_of_mem _ hi)) _
        (hstep cur st a (hl a (List.mem_cons_self _ _)) h)
  intro fuel
  induction fuel with
  | zero =>
    intro st N _ h
    simp [searchLoop] at h
  | succ fuel ih =>
    intro st N hI h
    unfold searchLoop at h
    split at h
    · simp at h
    · rename_i current rest hpop
      split at h
      · exact ih ⟨rest, st.allNodes⟩ N hI h
      · rename_i currentNode hcn
        split at h
        · exact ih ⟨rest, st.allNodes⟩ N hI h
        · split at h
          · simp only [Option.some.injEq] at h
            rw [← h]
            exact hI
          · have hI2 := hfold current.pos (List.range 6) (fun i hi => List.mem_range.mp hi)
              ⟨rest, st.allNodes⟩ hI
            exact ih _ N hI2 h

theorem relaxedNode_fields (g : Grid) (P : SearchParams) (e cur : Vec3Int) (cn : Node)
    (i : Nat) :
    (relaxedNode g P e cur cn i).pos = stepTo cn.pos (directionAt i) ∧
    (relaxedNode g P e cur cn i).parent = some cur ∧
    (relaxedNode g P e cur cn i).direction_idx = (i : Int) ∧
    (relaxedNode g P e cur cn i).stepsSinceBend =
      if cn.parent.isSome = true ∧ (i : Int) ≠ cn.direction_idx then 1
      else cn.stepsSinceBend + 1 := by
  refine ⟨rfl, rfl, rfl, ?_⟩
  unfold relaxedNode
  simp only
  by_cases hb : cn.parent.isSome = true ∧ (i : Int) ≠ cn.direction_idx
  · have hb1 : (cn.parent.isSome && decide ((i : Int) ≠ cn.direction_idx)) = true := by
      simp [hb.1, hb.2]
    rw [if_pos hb1, if_pos hb]
  · have hb1 : ¬ (cn.parent.isSome && decide ((i : Int) ≠ cn.direction_idx)) = true := by
      simpa using hb
    rw [if_neg hb1, if_neg hb]

theorem expandStep_made (Q : OpenSetQueue) (g : Grid) (P : SearchParams) (s e cur : Vec3Int)
    (st : SearchState) (i : Nat) (hi : i < 6)
    (h : (∀ p n, st.allNodes p = some n → n.pos = p ∧ (n.parent = none → p = s)) ∧
      ∀ p n q, st.allNodes p = some n → n.parent = some q → ∃ (p0 : Node) (j : Nat) (m : Node),
        j < 6 ∧ n = relaxedNode g P e q p0 j ∧ p0.pos = q ∧ st.allNodes q = some m ∧
          (m = p0 ∨ m.gCost < p0.gCost)) :
    (∀ p n, (expandStep Q g P e cur st i).allNodes p = some n →
      n.pos = p ∧ (n.parent = none → p = s)) ∧
      ∀ p n q, (expandStep Q g P e cur st i).allNodes p = some n → n.parent = some q →
        ∃ (p0 : Node) (j : Nat) (m : Node),
          j < 6 ∧ n = relaxedNode g P e q p0 j ∧ p0.pos = q ∧
          (expandStep Q g P e cur st i).allNodes q = some m ∧ (m = p0 ∨ m.gCost < p0.gCost) := by
  obtain ⟨hkey, hmade⟩ := h
  rw [expandStep_eq]
  cases hcn : st.allNodes cur with
  | none => exact ⟨hkey, hmade⟩
  | some cn =>
    simp only
    split
    · exact ⟨hkey, hmade⟩
    · split
      · rename_i himp
        have hcur : cn.pos = cur := (hkey cur cn hcn).1
        have hnb : stepTo cn.pos (directionAt i) ≠ cur := by
          rw [hcur]
          exact stepTo_ne cur _ (directionAt_mem i hi)
        refine ⟨?_, ?_⟩
        · intro p n hn
          simp only at hn
          by_cases hp : p = stepTo cn.pos (directionAt i)
          · subst hp
            rw [Function.update_same] at hn
            simp only [Option.some.injEq] at hn
            subst hn
            exact ⟨rfl, fun h => absurd h (by simp [relaxedNode])⟩
          · rw [Function.update_noteq hp] at hn
            exact hkey p n hn
        · intro p n q hn hpar
          simp only at hn ⊢
          by_cases hp : p = stepTo cn.pos (directionAt i)
          · subst hp
            rw [Function.update_same] at hn
            simp only [Option.some.injEq] at hn
            subst hn
            have hq : cur = q := by
              have : (relaxedNode g P e cur cn i).parent = some cur := rfl
              rw [this] at hpar
              exact Option.some.inj hpar
            subst hq
            refine ⟨cn, i, cn, hi, rfl, hcur, ?_, Or.inl rfl⟩
            rw [Function.update_noteq hnb.symm]
            exact hcn
          · rw [Function.update_noteq hp] at hn
            obtain ⟨p0, j, m, hj, hrel, hp0, hm, hcmp⟩ := hmade p n q hn hpar
            by_cases hq : q = stepTo cn.pos (directionAt i)
            · refine ⟨p0, j, relaxedNode g P e cur cn i, hj, hrel, hp0, ?_, Or.inr ?_⟩
              · rw [hq, Function.update_same]
              · rw [← hq, hm] at himp
                simp only [decide_eq_true_eq] at himp
                rcases hcmp with h1 | h1
                · rw [← h1]
                  exact himp
                · exact lt_trans himp h1
            · refine ⟨p0, j, m, hj, hrel, hp0, ?_, hcmp⟩
              rw [Function.update_noteq hq]
              exact hm
      · exact ⟨hkey, hmade⟩

theorem getAt_eq (v : List Int) (i : Int) (h0 : 0 ≤ i) (h1 : i < v.length) :
    getAt v i = some (readAt v i) := by
  have hlt : i.toNat < v.length := by omega
  simp [getAt, readAt, h0, List.getD_eq_getElem?_getD, List.getElem?_eq_getElem hlt]

theorem setAt_eq (v : List Int) (i a : Int) (h0 : 0 ≤ i) (h1 : i < v.length) :
    setAt v i a = some (writeAt v i a) := by
  have hlt : i.toNat < v.length := by omega
  simp [setAt, writeAt, h0, hlt]

theorem getAt_valid (g : Grid) (v : List Int)
    (hlen : (v.length : Int) = g.g_countX * g.g_countY * g.g_countZ) (c : Vec3Int)
    (hc : IsValid g c = true) : getAt v (GetIndex g c) = some (readAt v (GetIndex g c)) :=
  getAt_eq v _ (GetIndex_nonneg g c hc) (by rw [hlen]; exact GetIndex_lt g c hc)

theorem setAt_valid (g : Grid) (v : List Int)
    (hlen : (v.length : Int) = g.g_countX * g.g_countY * g.g_countZ) (c : Vec3Int) (a : Int)
    (hc : IsValid g c = true) : setAt v (GetIndex g c) a = some (writeAt v (GetIndex g c) a) :=
  setAt_eq v _ a (GetIndex_nonneg g c hc) (by rw [hlen]; exact GetIndex_lt g c hc)

theorem allChecked_eq {α : Type} (f : α → Option Bool) (h : α → Bool) (l : List α)
    (hf : ∀ a ∈ l, f a = some (h a)) : allChecked f l = some (l.all h) := by
  induction l with
  | nil => rfl
  | cons a t ih =>
    have ha := hf a (List.mem_cons_self a t)
    have ht := ih (fun b hb => hf b (List.mem_cons_of_mem a hb))
    unfold allChecked
    rw [ha]
    cases hh : h a with
    | false => simp [hh]
    | true => simp [hh, ht]

theorem foldChecked_eq {σ α : Type} (f : σ → α → Option σ) (h : σ → α → σ) (I : σ → Prop)
    (l : List α) (hf : ∀ s, I s → ∀ a ∈ l, f s a = some (h s a) ∧ I (h s a)) :
    ∀ s, I s → foldChecked f s l = some (l.foldl h s) ∧ I (l.foldl h s) := by
  induction l with
  | nil =>
    intro s hs
    exact ⟨rfl, hs⟩
  | cons a t ih =>
    intro s hs
    obtain ⟨h1, h2⟩ := hf s hs a (List.mem_cons_self a t)
    have ht := ih (fun s1 hs1 b hb => hf s1 hs1 b (List.mem_cons_of_mem a hb)) (h s a) h2
    unfold foldChecked
    rw [h1]
    exact ht

theorem IsSpaceAvailableChecked_eq (g : Grid)
    (hlen : (g.g_costGrid.length : Int) = g.g_countX * g.g_countY * g.g_countZ)
    (pos : Vec3Int) (radius clearance : Int) :
    IsSpaceAvailableChecked g pos radius clearance =
      some (IsSpaceAvailable g pos radius clearance) := by
  unfold IsSpaceAvailableChecked IsSpaceAvailable
  simp only
  split
  · rfl
  · refine allChecked_eq _ _ _ (fun x _ => ?_)
    refine allChecked_eq _ _ _ (fun y _ => ?_)
    refine allChecked_eq _ _ _ (fun z _ => ?_)
    split
    · rfl
    · cases hv : IsValid g ⟨pos.x + x, pos.y + y, pos.z + z⟩ with
      | false => simp
      | true =>
        rw [getAt_valid g _ hlen _ hv]
        simp

theorem UpdateCostsChecked_eq (g : Grid)
    (hlen : (g.g_costGrid.length : Int) = g.g_countX * g.g_countY * g.g_countZ)
    (cells : List Vec3Int) (costToAdd : Int) :
    UpdateCostsChecked g cells costToAdd = some (UpdateCosts g cells costToAdd) := by
  unfold UpdateCostsChecked UpdateCosts
  split
  · rfl
  · have h := foldChecked_eq (updateStepChecked g costToAdd) (updateStep g costToAdd)
      (fun costs => (costs.length : Int) = g.g_countX * g.g_countY * g.g_countZ) cells
      (fun costs hc cell _ => by
        refine ⟨?_, by dsimp only; rw [updateStep_length]; exact hc⟩
        unfold updateStepChecked updateStep
        by_cases hv : IsValid g cell = true
        · rw [if_pos hv, if_pos hv, getAt_valid g costs hc cell hv]
          exact setAt_valid g costs hc cell _ hv
        · rw [if_neg hv, if_neg hv]) g.g_costGrid hlen
    rw [h.1]

theorem seedStepChecked_eq (g : Grid)
    (hlen : (g.g_costGrid.length : Int) = g.g_countX * g.g_countY * g.g_countZ)
    (st : List Int × List Vec3Int)
    (hst : (st.1.length : Int) = g.g_countX * g.g_countY * g.g_countZ ∧
      ∀ c ∈ st.2, IsValid g c = true)
    (pos : Vec3Int) (hpos : IsValid g pos = true) :
    seedStepChecked g st pos = some (seedStep g st pos) ∧
      ((seedStep g st pos).1.length : Int) = g.g_countX * g.g_countY * g.g_countZ ∧
      ∀ c ∈ (seedStep g st pos).2, IsValid g c = true := by
  unfold seedStepChecked seedStep
  rw [getAt_valid g _ hlen pos hpos]
  simp only
  split
  · rw [setAt_valid g _ hst.1 pos 0 hpos]
    refine ⟨rfl, by rw [length_writeAt]; exact hst.1, ?_⟩
    intro c hc
    rcases List.mem_append.mp hc with h | h
    · exact hst.2 c h
    · rw [List.mem_singleton.mp h]
      exact hpos
  · exact ⟨rfl, hst⟩

theorem bfsVisitChecked_eq (g : Grid) (current : Vec3Int) (currentDist : Int)
    (st : List Int × List Vec3Int)
    (hst : (st.1.length : Int) = g.g_countX * g.g_countY * g.g_countZ ∧
      ∀ c ∈ st.2, IsValid g c = true)
    (dir : Vec3Int) :
    bfsVisitChecked g current currentDist st dir = some (bfsVisit g current currentDist st dir) ∧
      ((bfsVisit g current currentDist st dir).1.length : Int) =
        g.g_countX * g.g_countY * g.g_countZ ∧
      ∀ c ∈ (bfsVisit g current currentDist st dir).2, IsValid g c = true := by
  unfold bfsVisitChecked bfsVisit
  simp only
  by_cases hv : IsValid g ⟨current.x + dir.x, current.y + dir.y, current.z + dir.z⟩ = true
  · rw [if_pos hv, getAt_valid g _ hst.1 _ hv]
    simp only [hv, Bool.true_and, decide_eq_true_eq]
    split
    · rw [setAt_valid g _ hst.1 _ _ hv]
      refine ⟨rfl, by rw [length_writeAt]; exact hst.1, ?_⟩
      intro c hc
      rcases List.mem_append.mp hc with h | h
      · exact hst.2 c h
      · rw [List.mem_singleton.mp h]
        exact hv
    · exact ⟨rfl, hst⟩
  · rw [if_neg hv]
    have hv1 : IsValid g ⟨current.x + dir.x, current.y + dir.y, current.z + dir.z⟩ = false := by
      simpa using hv
    simp only [hv1, Bool.false_and, Bool.false_eq_true, if_false]
    exact ⟨trivial, hst⟩

theorem bfsLoopChecked_eq (g : Grid) (fuel : Nat) :
    ∀ (dist : List Int) (q : List Vec3Int),
      (dist.length : Int) = g.g_countX * g.g_countY * g.g_countZ →
      (∀ c ∈ q, IsValid g c = true) →
      bfsLoopChecked g fuel dist q = (bfsLoop g fuel dist q).map some ∧
        ∀ dist1, bfsLoop g fuel dist q = some dist1 →
          (dist1.length : Int) = g.g_countX * g.g_countY * g.g_countZ := by
  induction fuel with
  | zero =>
    intro dist q hd hq
    cases q with
    | nil =>
      refine ⟨rfl, ?_⟩
      intro dist1 h1
      simp only [bfsLoop, Option.some.injEq] at h1
      rw [← h1]
      exact hd
    | cons a t =>
      refine ⟨rfl, ?_⟩
      intro dist1 h1
      simp [bfsLoop] at h1
  | succ fuel ih =>
    intro dist q hd hq
    cases q with
    | nil =>
      refine ⟨rfl, ?_⟩
      intro dist1 h1
      simp only [bfsLoop, Option.some.injEq] at h1
      rw [← h1]
      exact hd
    | cons a t =>
      have ha : IsValid g a = true := hq a (List.mem_cons_self a t)
      have hfold := foldChecked_eq (bfsVisitChecked g a (readAt dist (GetIndex g a)))
        (bfsVisit g a (readAt dist (GetIndex g a)))
        (fun st => (st.1.length : Int) = g.g_countX * g.g_countY * g.g_countZ ∧
          ∀ c ∈ st.2, IsValid g c = true) DIRECTIONS
        (fun st hst dir _ => bfsVisitChecked_eq g a _ st hst dir) (dist, t)
        ⟨hd, fun c hc => hq c (List.mem_cons_of_mem a hc)⟩
      obtain ⟨h1, h2, h3⟩ := hfold
      have hrec := ih _ _ h2 h3
      unfold bfsLoopChecked bfsLoop
      rw [getAt_valid g dist hd a ha]
      simp only
      rw [h1]
      exact hrec

theorem PrecomputeDistanceTransformChecked_eq (g : Grid) (hok : CostFieldOk g) (fuel : Nat) :
    PrecomputeDistanceTransformChecked fuel g = (PrecomputeDistanceTransform fuel g).map some ∧
      ∀ g1, PrecomputeDistanceTransform fuel g = some g1 → SizeInv g1 := by
  obtain ⟨hx, hy, hz, hlen⟩ := hok
  have hN : 0 < g.g_countX * g.g_countY * g.g_countZ := mul_pos (mul_pos hx hy) hz
  have hne : g.g_costGrid.isEmpty = false := by
    cases hg : g.g_costGrid with
    | nil =>
      rw [hg] at hlen
      simp at hlen
      omega
    | cons a t => rfl
  have hseed := foldChecked_eq (seedStepChecked g) (seedStep g)
    (fun st => (st.1.length : Int) = g.g_countX * g.g_countY * g.g_countZ ∧
      ∀ c ∈ st.2, IsValid g c = true) (scanCells g)
    (fun st hst pos hpos => seedStepChecked_eq g hlen st hst pos ((mem_scanCells g pos).mp hpos))
    (List.replicate (g.g_countX * g.g_countY * g.g_countZ).toNat MAX_DISTANCE, [])
    ⟨by rw [List.length_replicate]; omega, fun c hc => absurd hc (List.not_mem_nil c)⟩
  obtain ⟨h1, h2, h3⟩ := hseed
  obtain ⟨h4, h5⟩ := bfsLoopChecked_eq g fuel _ _ h2 h3
  unfold PrecomputeDistanceTransformChecked PrecomputeDistanceTransform
  simp only [hne, Bool.false_eq_true, if_false]
  rw [h1]
  simp only
  rw [h4]
  cases hb : bfsLoop g fuel
      ((scanCells g).foldl (seedStep g)
        (List.replicate (g.g_countX * g.g_countY * g.g_countZ).toNat MAX_DISTANCE, [])).1
      ((scanCells g).foldl (seedStep g)
        (List.replicate (g.g_countX * g.g_countY * g.g_countZ).toNat MAX_DISTANCE, [])).2 with
  | none =>
    refine ⟨rfl, ?_⟩
    intro g1 hg1
    simp at hg1
  | some dist =>
    refine ⟨rfl, ?_⟩
    intro g1 hg1
    simp only [Option.some.injEq] at hg1
    rw [← hg1]
    exact ⟨hx, hy, hz, hlen, h5 dist hb⟩

theorem expandStepChecked_eq (Q : OpenSetQueue) (g : Grid) (hinv : SizeInv g)
    (P : SearchParams) (e cur : Vec3Int) (st : SearchState) (i : Nat) :
    expandStepChecked Q g P e cur st i = some (expandStep Q g P e cur st i) := by
  obtain ⟨_, _, _, hcost, hdist⟩ := hinv
  unfold expandStepChecked expandStep
  cases hcn : st.allNodes cur with
  | none => rfl
  | some cn =>
    simp only
    by_cases hv : IsValid g ⟨cn.pos.x + (directionAt i).x, cn.pos.y + (directionAt i).y,
        cn.pos.z + (directionAt i).z⟩ = true
    · rw [IsSpaceAvailableChecked_eq g hcost, getAt_valid g _ hdist _ hv,
        getAt_valid g _ hcost _ hv]
      simp only [hv, Bool.not_true, Bool.false_eq_true, if_false]
      exact (apply_ite some _ _ _).symm
    · have hv1 : IsValid g ⟨cn.pos.x + (directionAt i).x, cn.pos.y + (directionAt i).y,
          cn.pos.z + (directionAt i).z⟩ = false := by simpa using hv
      simp only [hv1, Bool.not_false, if_true]

theorem searchLoopChecked_eq (Q : OpenSetQueue) (g : Grid) (hinv : SizeInv g)
    (P : SearchParams) (e : Vec3Int) (fuel : Nat) :
    ∀ st : SearchState,
      searchLoopChecked Q g P e fuel st = (searchLoop Q g P e fuel st).map some := by
  induction fuel with
  | zero => intro st; rfl
  | succ fuel ih =>
    intro st
    unfold searchLoopChecked searchLoop
    cases hpop : Q.pop st.openSet with
    | none => rfl
    | some cr =>
      obtain ⟨current, rest⟩ := cr
      simp only
      cases hcn : st.allNodes current.pos with
      | none => exact ih _
      | some currentNode =>
        simp only
        split
        · exact ih _
        · split
          · rfl
          · have hfold := foldChecked_eq (expandStepChecked Q g P e current.pos)
              (expandStep Q g P e current.pos) (fun _ => True) (List.range 6)
              (fun s _ a _ => ⟨expandStepChecked_eq Q g hinv P e current.pos s a, trivial⟩)
              ⟨rest, st.allNodes⟩ trivial
            rw [hfold.1]
            exact ih _

theorem FindPathChecked_eq (Q : OpenSetQueue) (fuel : Nat) (g : Grid) (hinv : SizeInv g)
    (startPos endPos : Vec3) (outPath : Nat → Vec3) (maxPathSize : Int)
    (w_path w_bend w_energy w_proximity : ℚ) (pipeRadius clearance minBendDistance : Int) :
    FindPathChecked Q fuel g startPos endPos outPath maxPathSize w_path w_bend w_energy
      w_proximity pipeRadius clearance minBendDistance =
    (FindPath Q fuel g startPos endPos outPath maxPathSize w_path w_bend w_energy
      w_proximity pipeRadius clearance minBendDistance).map some := by
  unfold FindPathChecked FindPath
  split
  · rfl
  · simp only
    split
    · rfl
    · rw [searchLoopChecked_eq Q g hinv]
      cases hsearch : searchLoop Q g
          ⟨w_path, w_bend, w_energy, w_proximity, pipeRadius, clearance, minBendDistance⟩
          (WorldToGrid g endPos) fuel
          ⟨Q.push [] ⟨WorldToGrid g startPos, 0,
              Heuristic (WorldToGrid g startPos) (WorldToGrid g endPos), none, -1, 999⟩,
            Function.update (fun _ => none) (WorldToGrid g startPos)
              (some ⟨WorldToGrid g startPos, 0,
                Heuristic (WorldToGrid g startPos) (WorldToGrid g endPos), none, -1, 999⟩)⟩ with
      | none => rfl
      | some r =>
        cases r with
        | none => rfl
        | some allNodes =>
          simp only [Option.map_some']
          cases walkParents g allNodes fuel (some (WorldToGrid g endPos)) <;> rfl

theorem seed_foldl_no_obstacle (g : Grid) (hno : ¬ ∃ o, IsObstacle g o) (l : List Vec3Int)
    (hl : ∀ c ∈ l, IsValid g c = true) (st : List Int × List Vec3Int) :
    l.foldl (seedStep g) st = st := by
  induction l with
  | nil => rfl
  | cons a t ih =>
    rw [List.foldl_cons]
    have ha : ¬ readAt g.g_costGrid (GetIndex g a) ≥ OBSTACLE_THRESHOLD := by
      intro h
      exact hno ⟨a, hl a (List.mem_cons_self a t), h⟩
    have : seedStep g st a = st := by
      unfold seedStep
      rw [if_neg ha]
    rw [this]
    exact ih (fun c hc => hl c (List.mem_cons_of_mem a hc))

theorem PrecomputeDistanceTransform_total (g : Grid) (hok : CostFieldOk g)
    (hdim : g.g_countX + g.g_countY + g.g_countZ < 99999) :
    ∃ fuel0, ∀ fuel, fuel0 ≤ fuel → ∃ g1, PrecomputeDistanceTransform fuel g = some g1 := by
  have hemp : g.g_costGrid.isEmpty = false := by
    obtain ⟨hx, hy, hz, hlen⟩ := hok
    cases hg : g.g_costGrid with
    | nil =>
      rw [hg] at hlen
      have : 0 < g.g_countX * g.g_countY * g.g_countZ := mul_pos (mul_pos hx hy) hz
      simp at hlen
      omega
    | cons a t => rfl
  by_cases hobs : ∃ o, IsObstacle g o
  · have hseed := seed_inv g hok
    refine ⟨2 * ((scanCells g).foldl (seedStep g)
        (List.replicate (g.g_countX * g.g_countY * g.g_countZ).toNat MAX_DISTANCE, [])).1.count
          MAX_DISTANCE +
      (((scanCells g).foldl (seedStep g)
        (List.replicate (g.g_countX * g.g_countY * g.g_countZ).toNat MAX_DISTANCE, [])).2 ++
          ([] : List Vec3Int)).length, ?_⟩
    intro fuel hfuel
    obtain ⟨dist, hloop, _, _⟩ :=
      bfsLoop_correct g hdim hobs fuel _ 0 _ [] (le_refl 0) hseed hfuel
    rw [List.append_nil] at hloop
    refine ⟨{ g with g_distanceToObstacleGrid := dist }, ?_⟩
    simp only [PrecomputeDistanceTransform, hemp, Bool.false_eq_true, if_false, hloop]
  · refine ⟨0, fun fuel _ => ?_⟩
    refine ⟨⟨g.g_costGrid, g.g_countX, g.g_countY, g.g_countZ, g.g_minBounds, g.g_gridSize,
      List.replicate (g.g_countX * g.g_countY * g.g_countZ).toNat MAX_DISTANCE⟩, ?_⟩
    simp only [PrecomputeDistanceTransform, hemp, Bool.false_eq_true, if_false,
      seed_foldl_no_obstacle g hobs (scanCells g) (fun c hc => (mem_scanCells g c).mp hc)]
    cases fuel <;> rfl

theorem InitializeGrid_ok (g0 : Grid) (initialCosts : Nat → Int) (countX countY countZ : Int)
    (minBounds : Vec3) (gridSize : ℚ) (hx : 0 < countX) (hy : 0 < countY) (hz : 0 < countZ) :
    CostFieldOk (InitializeGrid g0 initialCosts countX countY countZ minBounds gridSize) := by
  have hN : 0 < countX * countY * countZ := mul_pos (mul_pos hx hy) hz
  refine ⟨hx, hy, hz, ?_⟩
  show (((List.range (countX * countY * countZ).toNat).map initialCosts).length : Int) =
    countX * countY * countZ
  rw [List.length_map, List.length_range]
  omega

theorem UpdateCosts_sizeInv (g : Grid) (hinv : SizeInv g) (cells : List Vec3Int)
    (costToAdd : Int) : SizeInv (UpdateCosts g cells costToAdd) := by
  unfold UpdateCosts
  split
  · exact hinv
  · obtain ⟨hx, hy, hz, hcost, hdist⟩ := hinv
    refine ⟨hx, hy, hz, ?_, hdist⟩
    show ((cells.foldl (updateStep g costToAdd) g.g_costGrid).length : Int) = _
    rw [foldl_updateStep_length]
    exact hcost

end PathFinder
